import Mathlib

/-!
# scp_nonblock.c : a shallow embedding and its verified properties

The program `src/example/scp_nonblock.c` is a driver: it sequences calls into
libssh2 and the socket API and reacts to their results.  The embedding has
three layers.

* Pure code (`tvdiff`) is a Lean function on integers, with the wrap-around of
  a 64-bit `long` written out.
* Every library or system call the driver makes is an `Event` carrying the
  arguments that matter and the result.  The outside world is an `Env`: for
  each call whose result the driver inspects, a function from the history of
  events so far to the result of the call.  Because the history records every
  earlier call and result, this is the most general deterministic environment.
* `main` is a transition system.  A `State` holds the local variables of
  `main`, the history, and a program counter named after the source line at
  which the next statement starts.  `step` executes the code from that line up
  to the next loop head, label or exit; `run n` iterates it `n` times.

Build configuration: `-D_WIN32` and `-DHAVE_GETTIMEOFDAY` are the two fields of
`Config`.  Integer widths are those of an LP64 build (`int` 32 bits; `long`,
`ssize_t`, `size_t` and `libssh2_struct_stat_size` 64 bits).
-/

namespace ScpNonblock

/-! ## Machine integers -/

/-- Two's-complement wrap of an integer to a signed word of `w` bits. -/
def wrap (w : Nat) (x : Int) : Int := (x + 2 ^ (w - 1)) % 2 ^ w - 2 ^ (w - 1)

/-- Conversion to `int`. -/
def wrap32 (x : Int) : Int := wrap 32 x

/-- Conversion to `long` / `ssize_t` / `libssh2_struct_stat_size`. -/
def wrap64 (x : Int) : Int := wrap 64 x

/-- The value fits a signed 64-bit word. -/
def InLong (x : Int) : Prop := -(2 ^ 63) ≤ x ∧ x < 2 ^ 63

/-- Conversion `(size_t)x` of a signed value. -/
def toSizeT (x : Int) : Nat := (x % 2 ^ 64).toNat

/-- Bit pattern of `a & b` for two `int` operands. -/
def bitand32 (a b : Int) : Nat := Nat.land (a % 2 ^ 32).toNat (b % 2 ^ 32).toNat

/-! ## Data -/

/-- One `char` of file data. -/
abbrev Byte := Fin 256

/-- The two fields of `struct timeval`. -/
structure Timeval where
  tv_sec : Int
  tv_usec : Int
deriving DecidableEq, Repr

/-- Constants of `libssh2.h`, which is not among the sources: they are
parameters of the embedding. -/
structure Libssh2H where
  LIBSSH2_ERROR_EAGAIN : Int
  LIBSSH2_SESSION_BLOCK_INBOUND : Int
  LIBSSH2_SESSION_BLOCK_OUTBOUND : Int
  LIBSSH2_INVALID_SOCKET : Int
deriving DecidableEq, Repr

/-- Build configuration: which of the two preprocessor symbols are defined. -/
structure Config where
  win32 : Bool
  have_gettimeofday : Bool
deriving DecidableEq, Repr

/-- The texts `main` prints with `fprintf(stderr, ...)`, with their
arguments.  The bytes/sec figure of the final line is a floating-point
quotient of `total` and `time_ms` and is not carried. -/
inductive Diag where
  | wsastartup_failed (rc : Int)
  | init_failed (rc : Int)
  | socket_failed
  | connect_failed
  | session_init_failed
  | handshake_failed (rc : Int)
  | fingerprint_label
  | fingerprint_byte (b : Byte)
  | newline
  | auth_password_failed
  | auth_publickey_failed
  | scp_recv2_start
  | err_msg (msg : List Byte)
  | scp_recv2_spin
  | scp_recv2_done
  | got_timed (total time_ms spin : Int)
  | got (total spin : Int)
  | all_done
deriving DecidableEq, Repr

/-- One call made by the driver, with its relevant arguments and its result.
Pointers are natural numbers with `0` for `NULL`. -/
inductive Event where
  | WSAStartup (rc : Int)
  | libssh2_init (rc : Int)
  | socket (sock : Int)
  | connect (sock : Int) (rc : Int)
  | libssh2_session_init (session : Nat)
  | libssh2_session_set_blocking (session : Nat) (blocking : Int)
  | gettimeofday (tv : Timeval)
  | libssh2_session_handshake (session : Nat) (sock : Int) (rc : Int)
  | libssh2_hostkey_hash (session : Nat) (fingerprint : List Byte)
  | libssh2_userauth_password (session : Nat) (rc : Int)
  | libssh2_userauth_publickey_fromfile (session : Nat) (rc : Int)
  | libssh2_scp_recv2 (session : Nat) (channel : Nat) (st_size : Int)
  | libssh2_session_last_errno (session : Nat) (errno : Int)
  | libssh2_session_last_error (session : Nat) (msg : List Byte)
  | libssh2_session_block_directions (session : Nat) (dir : Int)
  | select (nfds : Int) (readfds writefds exceptfds : Option (List Int))
      (timeout : Timeval) (rc : Int)
  | libssh2_channel_read (channel : Nat) (amount : Nat) (nread : Int) (mem : List Byte)
  | write (fd : Int) (bytes : List Byte)
  | fprintf (msg : Diag)
  | libssh2_channel_free (channel : Nat)
  | libssh2_session_disconnect (session : Nat)
  | libssh2_session_free (session : Nat)
  | shutdown (sock : Int) (how : Int)
  | close (sock : Int)
  | libssh2_exit
  | WSACleanup
deriving DecidableEq, Repr

/-- The outside world.  Each field answers one kind of call from the history
of all events so far.  `libssh2_scp_recv2` answers the channel pointer and the
`st_size` it stores in `fileinfo`; `libssh2_channel_read` is also given the
requested amount and answers the return value and the contents of `mem` after
the call. -/
structure Env where
  WSAStartup : List Event → Int
  libssh2_init : List Event → Int
  socket : List Event → Int
  connect : List Event → Int
  libssh2_session_init : List Event → Nat
  gettimeofday : List Event → Timeval
  libssh2_session_handshake : List Event → Int
  libssh2_hostkey_hash : List Event → List Byte
  libssh2_userauth_password : List Event → Int
  libssh2_userauth_publickey_fromfile : List Event → Int
  libssh2_scp_recv2 : List Event → Nat × Int
  libssh2_session_last_errno : List Event → Int
  libssh2_session_last_error : List Event → List Byte
  libssh2_session_block_directions : List Event → Int
  select : List Event → Int
  libssh2_channel_read : List Event → Nat → Int × List Byte

/-! ## `tvdiff` (lines 44-51) -/

/-- Source `tvdiff`: every operation is on `long` and wraps at 64 bits; `/` is
C division, truncating toward zero. -/
def tvdiff (newer older : Timeval) : Int :=
  wrap64 (wrap64 (wrap64 (newer.tv_sec - older.tv_sec) * 1000) +
    Int.tdiv (wrap64 (newer.tv_usec - older.tv_usec)) 1000)

/-- None of the `long` operations of `tvdiff newer older` overflows. -/
def TvdiffNoOverflow (newer older : Timeval) : Prop :=
  InLong (newer.tv_sec - older.tv_sec) ∧
  InLong ((newer.tv_sec - older.tv_sec) * 1000) ∧
  InLong ((newer.tv_sec - older.tv_sec) * 1000 +
    Int.tdiv (newer.tv_usec - older.tv_usec) 1000)

/-- A `tv_usec` field in its documented range. -/
def ValidUsec (t : Timeval) : Prop := 0 ≤ t.tv_usec ∧ t.tv_usec < 1000000

/-! ## `waitsocket` (lines 53-88) -/

/-- Source `waitsocket`.  `fd` is the set holding just `socket_fd`; `readfd`
and `writefd` are `NULL` (`none`) or point to it.  Returns `rc` and the
extended history. -/
def waitsocket (K : Libssh2H) (E : Env) (h : List Event) (socket_fd : Int)
    (session : Nat) : Int × List Event :=
  let timeout : Timeval := { tv_sec := 10, tv_usec := 0 }
  let fd : List Int := [socket_fd]
  let dir := E.libssh2_session_block_directions h
  let h1 := h ++ [Event.libssh2_session_block_directions session dir]
  let readfd : Option (List Int) :=
    if bitand32 dir K.LIBSSH2_SESSION_BLOCK_INBOUND ≠ 0 then some fd else none
  let writefd : Option (List Int) :=
    if bitand32 dir K.LIBSSH2_SESSION_BLOCK_OUTBOUND ≠ 0 then some fd else none
  let rc := E.select h1
  (rc, h1 ++ [Event.select (wrap32 (socket_fd + 1)) readfd writefd none timeout rc])

/-! ## `main` (lines 90-307) -/

/-- Program counter of `main`: the source line at which the next statement
starts, or `exited rc` after `return rc`. -/
inductive PC where
  | L113 | L136 | L145 | L154 | L160 | L176 | L197 | L223 | L241 | L246 | L272 | L286
  | exited (rc : Int)
deriving DecidableEq, Repr

/-- Local variables of `main` that are read after being written, the history
of calls, and the program counter. -/
structure State where
  pc : PC
  hist : List Event
  sock : Int
  session : Nat
  channel : Nat
  st_size : Int
  start : Timeval
  got : Int
  total : Int
  spin : Int

/-- The value of `sizeof(mem)` for `char mem[1024 * 24]` (line 242). -/
def sizeof_mem : Int := 1024 * 24

/-- The value of `amount` computed at lines 246-250 from `fileinfo.st_size`
and `got`. -/
def readAmount (st_size got : Int) : Int :=
  if wrap64 (st_size - got) < sizeof_mem then wrap32 (wrap64 (st_size - got))
  else sizeof_mem

/-- The twenty `fprintf(stderr, "%02X ", ...)` calls of lines 190-192. -/
def fingerprintEvents (fingerprint : List Byte) : List Event :=
  (List.range 20).map (fun i => Event.fprintf (Diag.fingerprint_byte (fingerprint.getD i 0)))

/-- Lines 286-306, from label `shutdown` to `return 0`. -/
def shutdownLabel (K : Libssh2H) (cfg : Config) (s : State) : State :=
  let h1 :=
    if s.session ≠ 0 then
      s.hist ++ [Event.libssh2_session_disconnect s.session,
                 Event.libssh2_session_free s.session]
    else s.hist
  let h2 :=
    if s.sock ≠ K.LIBSSH2_INVALID_SOCKET then
      h1 ++ [Event.shutdown s.sock 2, Event.close s.sock]
    else h1
  let h3 := h2 ++ [Event.fprintf Diag.all_done, Event.libssh2_exit]
  let h4 := if cfg.win32 then h3 ++ [Event.WSACleanup] else h3
  { s with hist := h4, pc := PC.exited 0 }

/-- One step of `main`: the code from the line named by `s.pc` up to the next
loop head, label or `return`.  `auth_pw` is the local of line 94, which the
source initialises to `1` and never changes. -/
def step (K : Libssh2H) (cfg : Config) (E : Env) (auth_pw : Bool) (s : State) : State :=
  match s.pc with
  | PC.L113 =>
    -- lines 110-118, compiled only under _WIN32
    if cfg.win32 then
      let rc := E.WSAStartup s.hist
      if rc ≠ 0 then
        { s with hist := s.hist ++ [Event.WSAStartup rc,
                                    Event.fprintf (Diag.wsastartup_failed rc)],
                 pc := PC.exited 1 }
      else { s with hist := s.hist ++ [Event.WSAStartup rc], pc := PC.L136 }
    else { s with pc := PC.L136 }
  | PC.L136 =>
    -- lines 136-140
    let rc := E.libssh2_init s.hist
    if rc ≠ 0 then
      { s with hist := s.hist ++ [Event.libssh2_init rc,
                                  Event.fprintf (Diag.init_failed rc)],
               pc := PC.exited 1 }
    else { s with hist := s.hist ++ [Event.libssh2_init rc], pc := PC.L145 }
  | PC.L145 =>
    -- lines 145-149
    let sock := E.socket s.hist
    if sock = K.LIBSSH2_INVALID_SOCKET then
      { s with hist := s.hist ++ [Event.socket sock, Event.fprintf Diag.socket_failed],
               sock := sock, pc := PC.L286 }
    else { s with hist := s.hist ++ [Event.socket sock], sock := sock, pc := PC.L154 }
  | PC.L154 =>
    -- lines 151-157
    let rc := E.connect s.hist
    if rc ≠ 0 then
      { s with hist := s.hist ++ [Event.connect s.sock rc,
                                  Event.fprintf Diag.connect_failed],
               pc := PC.L286 }
    else { s with hist := s.hist ++ [Event.connect s.sock rc], pc := PC.L160 }
  | PC.L160 =>
    -- lines 160-171
    let session := E.libssh2_session_init s.hist
    let h1 := s.hist ++ [Event.libssh2_session_init session]
    if session = 0 then
      { s with hist := h1 ++ [Event.fprintf Diag.session_init_failed],
               session := session, pc := PC.L286 }
    else
      let h2 := h1 ++ [Event.libssh2_session_set_blocking session 0]
      if cfg.have_gettimeofday then
        let tv := E.gettimeofday h2
        { s with hist := h2 ++ [Event.gettimeofday tv], session := session,
                 start := tv, pc := PC.L176 }
      else { s with hist := h2, session := session, pc := PC.L176 }
  | PC.L176 =>
    -- lines 176-193: one evaluation of the loop condition of line 176
    let rc := E.libssh2_session_handshake s.hist
    let h1 := s.hist ++ [Event.libssh2_session_handshake s.session s.sock rc]
    if rc = K.LIBSSH2_ERROR_EAGAIN then { s with hist := h1 }
    else if rc ≠ 0 then
      { s with hist := h1 ++ [Event.fprintf (Diag.handshake_failed rc)], pc := PC.L286 }
    else
      let fingerprint := E.libssh2_hostkey_hash h1
      { s with hist := h1 ++ [Event.libssh2_hostkey_hash s.session fingerprint,
                              Event.fprintf Diag.fingerprint_label]
                          ++ fingerprintEvents fingerprint
                          ++ [Event.fprintf Diag.newline],
               pc := PC.L197 }
  | PC.L197 =>
    -- lines 195-221: one evaluation of the loop condition of line 197 or 206
    if auth_pw then
      let rc := E.libssh2_userauth_password s.hist
      let h1 := s.hist ++ [Event.libssh2_userauth_password s.session rc]
      if rc = K.LIBSSH2_ERROR_EAGAIN then { s with hist := h1 }
      else if rc ≠ 0 then
        { s with hist := h1 ++ [Event.fprintf Diag.auth_password_failed], pc := PC.L286 }
      else { s with hist := h1 ++ [Event.fprintf Diag.scp_recv2_start], pc := PC.L223 }
    else
      let rc := E.libssh2_userauth_publickey_fromfile s.hist
      let h1 := s.hist ++ [Event.libssh2_userauth_publickey_fromfile s.session rc]
      if rc = K.LIBSSH2_ERROR_EAGAIN then { s with hist := h1 }
      else if rc ≠ 0 then
        { s with hist := h1 ++ [Event.fprintf Diag.auth_publickey_failed], pc := PC.L286 }
      else { s with hist := h1 ++ [Event.fprintf Diag.scp_recv2_start], pc := PC.L223 }
  | PC.L223 =>
    -- lines 223-239: one pass through the body of the do-while
    let r := E.libssh2_scp_recv2 s.hist
    let channel := r.1
    let h1 := s.hist ++ [Event.libssh2_scp_recv2 s.session channel r.2]
    if channel = 0 then
      let errno := E.libssh2_session_last_errno h1
      let h2 := h1 ++ [Event.libssh2_session_last_errno s.session errno]
      if errno ≠ K.LIBSSH2_ERROR_EAGAIN then
        let err_msg := E.libssh2_session_last_error h2
        { s with hist := h2 ++ [Event.libssh2_session_last_error s.session err_msg,
                                Event.fprintf (Diag.err_msg err_msg)],
                 channel := channel, st_size := r.2, pc := PC.L286 }
      else
        let h3 := h2 ++ [Event.fprintf Diag.scp_recv2_spin]
        { s with hist := (waitsocket K E h3 s.sock s.session).2,
                 channel := channel, st_size := r.2 }
    else
      { s with hist := h1 ++ [Event.fprintf Diag.scp_recv2_done],
               channel := channel, st_size := r.2, pc := PC.L241 }
  | PC.L241 =>
    -- line 241: the condition of the outer while
    if s.got < s.st_size then { s with pc := PC.L246 } else { s with pc := PC.L272 }
  | PC.L246 =>
    -- lines 246-269: one pass through the body of the inner do-while and, when
    -- its condition fails, the rest of the body of the outer while
    let amount := readAmount s.st_size s.got
    let r := E.libssh2_channel_read s.hist (toSizeT amount)
    let nread := r.1
    let mem := r.2
    let h1 := s.hist ++ [Event.libssh2_channel_read s.channel (toSizeT amount) nread mem]
    if nread > 0 then
      { s with hist := h1 ++ [Event.write 1 (mem.take (toSizeT nread))],
               got := wrap64 (s.got + nread),
               total := wrap64 (s.total + nread) }
    else if nread = K.LIBSSH2_ERROR_EAGAIN ∧ s.got < s.st_size then
      { s with hist := (waitsocket K E h1 s.sock s.session).2,
               spin := wrap32 (s.spin + 1), pc := PC.L241 }
    else { s with hist := h1, pc := PC.L272 }
  | PC.L272 =>
    -- lines 272-284
    if cfg.have_gettimeofday then
      let tv := E.gettimeofday s.hist
      let time_ms := tvdiff tv s.start
      { s with hist := s.hist ++ [Event.gettimeofday tv,
                                  Event.fprintf (Diag.got_timed (wrap64 s.total) time_ms s.spin),
                                  Event.libssh2_channel_free s.channel],
               channel := 0, pc := PC.L286 }
    else
      { s with hist := s.hist ++ [Event.fprintf (Diag.got (wrap64 s.total) s.spin),
                                  Event.libssh2_channel_free s.channel],
               channel := 0, pc := PC.L286 }
  | PC.L286 => shutdownLabel K cfg s
  | PC.exited _ => s

/-- Iterate `step`. -/
def run (K : Libssh2H) (cfg : Config) (E : Env) (auth_pw : Bool) : Nat → State → State
  | 0, s => s
  | n + 1, s => run K cfg E auth_pw n (step K cfg E auth_pw s)

/-- State on entry to `main` (lines 98, 106-108).  Variables the source leaves
uninitialised hold a placeholder; each is written before it is read. -/
def entry : State :=
  { pc := PC.L113, hist := [], sock := 0, session := 0, channel := 0, st_size := 0,
    start := { tv_sec := 0, tv_usec := 0 }, got := 0, total := 0, spin := 0 }

/-- Source `main`, run for at most `fuel` steps: the value returned (`none`
when `main` has not returned within `fuel` steps) and the calls made so far.
Command-line parsing (lines 120-134) only selects the host address, user
name, password and path handed to the library and is not modelled. -/
def main (K : Libssh2H) (cfg : Config) (E : Env) (auth_pw : Bool) (fuel : Nat) :
    Option Int × List Event :=
  let s := run K cfg E auth_pw fuel entry
  (match s.pc with
   | PC.exited rc => some rc
   | _ => none, s.hist)

/-! ## Observations on histories -/

/-- The number of bytes a call delivered: the result of a
`libssh2_channel_read` when positive, else `0`. -/
def readCount : Event → Int
  | Event.libssh2_channel_read _ _ nread _ => if nread > 0 then nread else 0
  | _ => 0

/-- Sum of all positive read results in a history. -/
def delivered (t : List Event) : Int := (t.map readCount).sum

/-- The bytes one call passes to `write(1, ...)`. -/
def writeBytes : Event → List Byte
  | Event.write fd bytes => if fd = 1 then bytes else []
  | _ => []

/-- The bytes passed to `write(1, ...)`, concatenated in call order. -/
def written : List Event → List Byte
  | [] => []
  | e :: t => writeBytes e ++ written t

/-- A `libssh2_channel_read` that returned data. -/
def isDataRead : Event → Bool
  | Event.libssh2_channel_read _ _ nread _ => decide (nread > 0)
  | _ => false

/-- The blocking call of `waitsocket`. -/
def isWait : Event → Bool
  | Event.select _ _ _ _ _ _ => true
  | _ => false

/-- What "the flag `mask` is set in `dir`" means for two `int` values, said on
their two's-complement bits and without the operator `&`: at some bit position
below 32 both `dir` and `mask` have a 1.  Bit `i` of `x` is `(x / 2 ^ i) % 2`
with floor division.  For a flag of a single bit this is that bit of `dir`. -/
def FlagSet (dir mask : Int) : Prop :=
  ∃ i, i < 32 ∧ (dir / 2 ^ i) % 2 = 1 ∧ (mask / 2 ^ i) % 2 = 1

instance instDecidableFlagSet (dir mask : Int) : Decidable (FlagSet dir mask) := by
  unfold FlagSet
  infer_instance

/-- The state is at the head of the receive loop (line 241) as `main` first
reaches it: nothing received yet, declared size `N`. -/
def RecvEntry (s : State) (N : Int) : Prop :=
  s.pc = PC.L241 ∧ s.got = 0 ∧ s.total = 0 ∧ s.spin = 0 ∧ s.st_size = N

/-- The events a run has appended to the history `h0` it started from. -/
def since (h0 : List Event) (s : State) : List Event := s.hist.drop h0.length

/-- Every event `e` of `t` satisfies `P pre e`, where `pre` is the part of `t`
before `e`. -/
def EachAfter (P : List Event → Event → Prop) (t : List Event) : Prop :=
  ∀ pre e post, t = pre ++ e :: post → P pre e

/-- A read issued after the events `pre` requests `min(sizeof(mem), N - got)`
bytes, `got` being what `pre` delivered. -/
def RequestOK (N : Int) (pre : List Event) : Event → Prop
  | Event.libssh2_channel_read _ amount _ _ =>
      (amount : Int) = min sizeof_mem (N - delivered pre)
  | _ => True

/-- The program counter is inside the receive loop or at its exit. -/
def InRecvLoop (s : State) : Prop :=
  s.pc = PC.L241 ∨ s.pc = PC.L246 ∨ s.pc = PC.L272

/-- The program counter is at or beyond the receive loop. -/
def FromRecvLoop (s : State) : Prop :=
  InRecvLoop s ∨ s.pc = PC.L286 ∨ ∃ rc, s.pc = PC.exited rc

/-- Invariant of the receive loop started from history `h0` with declared
size `N`. -/
def RecvInv (h0 : List Event) (N : Int) (s : State) : Prop :=
  s.st_size = N ∧
  ∃ t, s.hist = h0 ++ t ∧ s.got = delivered t ∧ s.total = delivered t ∧
    0 ≤ delivered t ∧ delivered t ≤ N ∧ EachAfter (RequestOK N) t ∧
    ((t.filter isDataRead).length : Int) ≤ delivered t

/-- The two calls `waitsocket` makes from history `h`. -/
def waitEvents (K : Libssh2H) (E : Env) (h : List Event) (socket_fd : Int)
    (session : Nat) : List Event :=
  [Event.libssh2_session_block_directions session (E.libssh2_session_block_directions h),
   Event.select (wrap32 (socket_fd + 1))
     (if bitand32 (E.libssh2_session_block_directions h)
         K.LIBSSH2_SESSION_BLOCK_INBOUND ≠ 0 then some [socket_fd] else none)
     (if bitand32 (E.libssh2_session_block_directions h)
         K.LIBSSH2_SESSION_BLOCK_OUTBOUND ≠ 0 then some [socket_fd] else none)
     none ⟨10, 0⟩
     (E.select (h ++ [Event.libssh2_session_block_directions session
       (E.libssh2_session_block_directions h)]))]

/-- The channel serves the file `content` to a receive loop started from
history `h0`: asked for `amount > 0` bytes after the events `t`, it answers
either `LIBSSH2_ERROR_EAGAIN` or a count `k` with `1 ≤ k ≤ amount` and puts the
next `k` bytes of `content` at the start of `mem`; asked for `0` bytes it
answers a non-positive value.  Only requests for bytes the file still has are
constrained. -/
def FaithfulRemote (K : Libssh2H) (E : Env) (h0 : List Event) (content : List Byte) : Prop :=
  ∀ (t : List Event) (amount : Nat), delivered t + amount ≤ content.length →
    (amount = 0 → (E.libssh2_channel_read (h0 ++ t) amount).1 ≤ 0) ∧
    (0 < amount →
      (E.libssh2_channel_read (h0 ++ t) amount).1 = K.LIBSSH2_ERROR_EAGAIN ∨
      (1 ≤ (E.libssh2_channel_read (h0 ++ t) amount).1 ∧
       (E.libssh2_channel_read (h0 ++ t) amount).1 ≤ amount ∧
       (E.libssh2_channel_read (h0 ++ t) amount).2.take
          (E.libssh2_channel_read (h0 ++ t) amount).1.toNat =
        (content.drop (delivered t).toNat).take
          (E.libssh2_channel_read (h0 ++ t) amount).1.toNat))

/-- Invariant of the receive loop against a faithful remote: what has been
written is the part of the file received, and the loop is left only with the
whole file received. -/
def WrittenInv (h0 : List Event) (N : Int) (content : List Byte) (s : State) : Prop :=
  ∃ t, s.hist = h0 ++ t ∧ written t = content.take (delivered t).toNat ∧
    (s.pc = PC.L272 → delivered t = N)

/-! ## Concrete environments

Used to run the embedding on explicit inputs. -/

/-- The values the four constants have in upstream `libssh2.h`. -/
def libssh2_h : Libssh2H :=
  { LIBSSH2_ERROR_EAGAIN := -37, LIBSSH2_SESSION_BLOCK_INBOUND := 1,
    LIBSSH2_SESSION_BLOCK_OUTBOUND := 2, LIBSSH2_INVALID_SOCKET := -1 }

/-- A POSIX build with `gettimeofday`. -/
def posix : Config := { win32 := false, have_gettimeofday := true }

/-- The last call of the history is a `write`. -/
def lastIsWrite (h : List Event) : Bool :=
  match h.getLast? with
  | some (Event.write _ _) => true
  | _ => false

/-- A remote file served in pieces: each read gets at most `chunk` bytes of
what is left of `content` (`0` once nothing is left); with `stutter`, the read
following each delivery answers `-37` instead. -/
def fakeRead (content : List Byte) (chunk : Nat) (stutter : Bool) (h : List Event)
    (amount : Nat) : Int × List Byte :=
  if stutter && lastIsWrite h && decide (amount ≠ 0) then (-37, [])
  else
    (((content.drop (delivered h).toNat).take (min amount chunk)).length,
     (content.drop (delivered h).toNat).take (min amount chunk))

/-- A server on which every call succeeds at once: socket 3, session 1,
channel 2, declared file size `declared`, reads answered by `fakeRead`. -/
def fakeEnv (declared : Int) (content : List Byte) (chunk : Nat) (stutter : Bool) : Env :=
  { WSAStartup := fun _ => 0
    libssh2_init := fun _ => 0
    socket := fun _ => 3
    connect := fun _ => 0
    libssh2_session_init := fun _ => 1
    gettimeofday := fun h => { tv_sec := h.length, tv_usec := 0 }
    libssh2_session_handshake := fun _ => 0
    libssh2_hostkey_hash := fun _ => List.replicate 20 0
    libssh2_userauth_password := fun _ => 0
    libssh2_userauth_publickey_fromfile := fun _ => 0
    libssh2_scp_recv2 := fun _ => (2, declared)
    libssh2_session_last_errno := fun _ => 0
    libssh2_session_last_error := fun _ => []
    libssh2_session_block_directions := fun _ => 1
    select := fun _ => 1
    libssh2_channel_read := fakeRead content chunk stutter }

/-- A server like `fakeEnv` whose `libssh2_session_block_directions` answers
`dir`. -/
def dirEnv (dir : Int) : Env :=
  { fakeEnv 0 [] 0 false with libssh2_session_block_directions := fun _ => dir }

/-- A state at the head of the receive loop with empty history and declared
size `N`. -/
def recvStart (N : Int) : State := { entry with pc := PC.L241, st_size := N }

/-- A server like `fakeEnv` whose file is all zero bytes and never ends: each
read delivers exactly the bytes requested. -/
def zeroFileEnv (declared : Int) : Env :=
  { fakeEnv declared [] 0 false with
    libssh2_channel_read := fun _ amount => (amount, List.replicate amount 0) }

/-! ## Kinds of calls -/

/-- A `libssh2_session_handshake` call. -/
def isHandshake : Event → Bool
  | Event.libssh2_session_handshake _ _ _ => true
  | _ => false

/-- A `libssh2_session_handshake` call that returned `0`. -/
def isHandshakeOk : Event → Bool
  | Event.libssh2_session_handshake _ _ rc => decide (rc = 0)
  | _ => false

/-- A `libssh2_session_handshake` call that returned neither `0` nor
`LIBSSH2_ERROR_EAGAIN`. -/
def isHandshakeFail (K : Libssh2H) : Event → Bool
  | Event.libssh2_session_handshake _ _ rc =>
      decide (rc ≠ 0) && decide (rc ≠ K.LIBSSH2_ERROR_EAGAIN)
  | _ => false

/-- A `libssh2_userauth_*` call. -/
def isAuth : Event → Bool
  | Event.libssh2_userauth_password _ _ => true
  | Event.libssh2_userauth_publickey_fromfile _ _ => true
  | _ => false

/-- A `libssh2_userauth_*` call that returned `0`. -/
def isAuthOk : Event → Bool
  | Event.libssh2_userauth_password _ rc => decide (rc = 0)
  | Event.libssh2_userauth_publickey_fromfile _ rc => decide (rc = 0)
  | _ => false

/-- A `libssh2_userauth_*` call that returned neither `0` nor
`LIBSSH2_ERROR_EAGAIN`. -/
def isAuthFail (K : Libssh2H) : Event → Bool
  | Event.libssh2_userauth_password _ rc =>
      decide (rc ≠ 0) && decide (rc ≠ K.LIBSSH2_ERROR_EAGAIN)
  | Event.libssh2_userauth_publickey_fromfile _ rc =>
      decide (rc ≠ 0) && decide (rc ≠ K.LIBSSH2_ERROR_EAGAIN)
  | _ => false

/-- A `libssh2_scp_recv2` call. -/
def isScpRecv : Event → Bool
  | Event.libssh2_scp_recv2 _ _ _ => true
  | _ => false

/-- A `libssh2_channel_read` call. -/
def isChannelRead : Event → Bool
  | Event.libssh2_channel_read _ _ _ _ => true
  | _ => false

/-- Phase of `main` a program counter belongs to: `0` set-up, `1` handshake
loop, `2` authentication loop, `3` channel operations, `4` clean-up and
after. -/
def phase : PC → Nat
  | PC.L113 | PC.L136 | PC.L145 | PC.L154 | PC.L160 => 0
  | PC.L176 => 1
  | PC.L197 => 2
  | PC.L223 | PC.L241 | PC.L246 | PC.L272 => 3
  | PC.L286 | PC.exited _ => 4

/-- A channel operation: `libssh2_scp_recv2` or `libssh2_channel_read`. -/
def isChannelOp (e : Event) : Bool := isScpRecv e || isChannelRead e

/-- A call that belongs to none of the three phases. -/
def phaseNeutral (e : Event) : Bool := !(isHandshake e || isAuth e || isChannelOp e)

/-- Invariant behind the ordering of the phases, for a history `h` reached
with the program counter in phase `p`. -/
def PhaseInv (K : Libssh2H) (h : List Event) (p : Nat) : Prop :=
  EachAfter (fun pre e => isAuth e = true → pre.any isHandshakeOk = true) h ∧
  EachAfter (fun pre e => isChannelOp e = true → pre.any isAuthOk = true) h ∧
  EachAfter (fun pre e => isHandshake e = true → pre.any isAuth = false) h ∧
  EachAfter (fun pre e => isAuth e = true → pre.any isScpRecv = false) h ∧
  (p = 0 → h.any isHandshake = false) ∧
  (p ≤ 1 → h.any isAuth = false) ∧
  (p ≤ 2 → h.any isChannelOp = false) ∧
  (p = 2 ∨ p = 3 → h.any isHandshakeOk = true) ∧
  (p = 3 → h.any isAuthOk = true) ∧
  (p ≤ 3 → h.any (isHandshakeFail K) = false ∧ h.any (isAuthFail K) = false) ∧
  (h.any (isHandshakeFail K) = true → h.any isAuth = false ∧ h.any isChannelOp = false) ∧
  (h.any (isAuthFail K) = true → h.any isChannelOp = false)

/-- Lines 288-291: the session is disconnected and freed if it was created. -/
def sessionCleanup (s : State) : List Event :=
  if s.session ≠ 0 then
    [Event.libssh2_session_disconnect s.session, Event.libssh2_session_free s.session]
  else []

/-- Lines 293-296: the socket is shut down and closed if it is valid. -/
def socketCleanup (K : Libssh2H) (s : State) : List Event :=
  if s.sock ≠ K.LIBSSH2_INVALID_SOCKET then [Event.shutdown s.sock 2, Event.close s.sock]
  else []

/-- Lines 302-304, compiled only under `_WIN32`. -/
def wsaCleanup (cfg : Config) : List Event :=
  if cfg.win32 then [Event.WSACleanup] else []

/-- The calls of the clean-up at label `shutdown` (lines 286-304). -/
def cleanupEvents (K : Libssh2H) (cfg : Config) (s : State) : List Event :=
  sessionCleanup s ++ socketCleanup K s ++ [Event.fprintf Diag.all_done, Event.libssh2_exit] ++
    wsaCleanup cfg

/-- A failed initialisation: `WSAStartup` or `libssh2_init` returning non-zero. -/
def isInitFail : Event → Bool
  | Event.WSAStartup rc => decide (rc ≠ 0)
  | Event.libssh2_init rc => decide (rc ≠ 0)
  | _ => false

/-- The `libssh2_exit` call. -/
def isExitCall : Event → Bool
  | Event.libssh2_exit => true
  | _ => false

/-- Invariant behind the exit status: before `main` returns no initialisation
has failed and `libssh2_exit` has not been called; it returns 1 with a failed
initialisation and no `libssh2_exit`, or 0 with the opposite. -/
def ExitInv (h : List Event) : PC → Prop
  | PC.exited rc =>
      (rc = 1 ∧ h.any isInitFail = true ∧ h.any isExitCall = false) ∨
      (rc = 0 ∧ h.any isInitFail = false ∧ h.any isExitCall = true)
  | _ => h.any isInitFail = false ∧ h.any isExitCall = false

/-- A server like `fakeEnv` with a three-byte file, whose successive
`libssh2_session_handshake` calls answer the values of `script` and then `0`. -/
def handshakeEnv (script : List Int) : Env :=
  { fakeEnv 3 [1, 2, 3] 2 false with
    libssh2_session_handshake := fun h => script.getD (h.filter isHandshake).length 0 }

/-! ## Waiting between attempts -/

/-- A `libssh2_session_handshake` call that returned `LIBSSH2_ERROR_EAGAIN`. -/
def isHandshakeAgain (K : Libssh2H) : Event → Bool
  | Event.libssh2_session_handshake _ _ rc => decide (rc = K.LIBSSH2_ERROR_EAGAIN)
  | _ => false

/-- A `libssh2_userauth_*` call that returned `LIBSSH2_ERROR_EAGAIN`. -/
def isAuthAgain (K : Libssh2H) : Event → Bool
  | Event.libssh2_userauth_password _ rc => decide (rc = K.LIBSSH2_ERROR_EAGAIN)
  | Event.libssh2_userauth_publickey_fromfile _ rc => decide (rc = K.LIBSSH2_ERROR_EAGAIN)
  | _ => false

/-- A `libssh2_scp_recv2` call that returned `NULL`, as it does when it would
block. -/
def isScpNull : Event → Bool
  | Event.libssh2_scp_recv2 _ channel _ => decide (channel = 0)
  | _ => false

/-- A `libssh2_channel_read` call that returned `LIBSSH2_ERROR_EAGAIN`. -/
def isReadAgain (K : Libssh2H) : Event → Bool
  | Event.libssh2_channel_read _ _ nread _ => decide (nread = K.LIBSSH2_ERROR_EAGAIN)
  | _ => false

/-- Between any two consecutive `isOp` calls of `tr` of which the first
satisfies `isAgain`, `tr` has a `select` call. -/
def WaitBetween (isOp isAgain : Event → Bool) (tr : List Event) : Prop :=
  ∀ pre e1 mid e2 post, tr = pre ++ e1 :: (mid ++ e2 :: post) →
    isOp e1 = true → isAgain e1 = true → isOp e2 = true →
    (∀ m ∈ mid, isOp m = false) → ∃ w ∈ mid, isWait w = true

/-- The last `isOp` call of `h`, when it satisfies `isAgain`, has been
followed by a `select` call. -/
def Settled (isOp isAgain : Event → Bool) (h : List Event) : Prop :=
  ∀ pre e1 mid, h = pre ++ e1 :: mid →
    isOp e1 = true → isAgain e1 = true →
    (∀ m ∈ mid, isOp m = false) → ∃ w ∈ mid, isWait w = true

/-- Invariant for one operation: every `isOp` call found the history settled,
and the history is settled now if another `isOp` call may follow (`again`). -/
def OpInv (isOp isAgain : Event → Bool) (h : List Event) (again : Bool) : Prop :=
  EachAfter (fun pre e => isOp e = true → Settled isOp isAgain pre) h ∧
  (again = true → Settled isOp isAgain h)

/-- Invariant: every `select` call comes after a `libssh2_scp_recv2` call; and
one has been made if `started`. -/
def WaitAfterScp (h : List Event) (started : Bool) : Prop :=
  EachAfter (fun pre e => isWait e = true → pre.any isScpRecv = true) h ∧
  (started = true → h.any isScpRecv = true)

/-- Another `libssh2_scp_recv2` call may follow. -/
def scpOpen : PC → Bool
  | PC.L113 | PC.L136 | PC.L145 | PC.L154 | PC.L160 | PC.L176 | PC.L197 | PC.L223 => true
  | _ => false

/-- Another `libssh2_channel_read` call may follow. -/
def readOpen : PC → Bool
  | PC.L272 | PC.L286 | PC.exited _ => false
  | _ => true

/-- The program counter is in the receive loop, after `libssh2_scp_recv2`
succeeded. -/
def scpDone : PC → Bool
  | PC.L241 | PC.L246 => true
  | _ => false

/-- A call that is neither `libssh2_scp_recv2`, `libssh2_channel_read` nor
`select`. -/
def waitNeutral (e : Event) : Bool := !(isScpRecv e || isChannelRead e || isWait e)

/-- Invariant behind the waits of the two channel loops. -/
def WaitInv (K : Libssh2H) (h : List Event) (a b c : Bool) : Prop :=
  OpInv isScpRecv isScpNull h a ∧ OpInv isChannelRead (isReadAgain K) h b ∧
  WaitAfterScp h c

/-! ## Acquisition and release -/

/-- A call of the clean-up at label `shutdown`. -/
def isCleanup : Event → Bool
  | Event.libssh2_session_disconnect _ => true
  | Event.libssh2_session_free _ => true
  | Event.shutdown _ _ => true
  | Event.close _ => true
  | Event.libssh2_exit => true
  | Event.WSACleanup => true
  | _ => false

/-- A `libssh2_channel_free` call. -/
def isChannelFree : Event → Bool
  | Event.libssh2_channel_free _ => true
  | _ => false

/-- A `libssh2_session_init` call. -/
def isSessionInit : Event → Bool
  | Event.libssh2_session_init _ => true
  | _ => false

/-- A `socket` call. -/
def isSocket : Event → Bool
  | Event.socket _ => true
  | _ => false

/-- A call that operates on the session or on a channel of it. -/
def isSessionOp : Event → Bool
  | Event.libssh2_session_set_blocking _ _ => true
  | Event.libssh2_session_handshake _ _ _ => true
  | Event.libssh2_hostkey_hash _ _ => true
  | Event.libssh2_userauth_password _ _ => true
  | Event.libssh2_userauth_publickey_fromfile _ _ => true
  | Event.libssh2_scp_recv2 _ _ _ => true
  | Event.libssh2_session_last_errno _ _ => true
  | Event.libssh2_session_last_error _ _ => true
  | Event.libssh2_session_block_directions _ _ => true
  | Event.libssh2_channel_read _ _ _ _ => true
  | Event.libssh2_channel_free _ => true
  | Event.libssh2_session_disconnect _ => true
  | Event.libssh2_session_free _ => true
  | _ => false

/-- A call that neither acquires nor releases a resource. -/
def resNeutral (e : Event) : Bool :=
  !(isSessionInit e || isSocket e || isScpRecv e || isChannelFree e || isCleanup e)

/-- In `h` every channel obtained has been freed exactly once and only
channels obtained have been freed. -/
def FinalChan (h : List Event) : Prop :=
  (∀ x ch sz, ch ≠ 0 → Event.libssh2_scp_recv2 x ch sz ∈ h →
    List.count (Event.libssh2_channel_free ch) h = 1) ∧
  (∀ ch, Event.libssh2_channel_free ch ∈ h →
    ch ≠ 0 ∧ ∃ x sz, Event.libssh2_scp_recv2 x ch sz ∈ h)

/-- Invariant behind the release of resources, before the clean-up runs: `h`
is the history, `sess`, `sock`, `chan` the variables `session`, `sock`,
`channel`; `noSock` and `noSess` say that `socket` and `libssh2_session_init`
have not been called yet; `stage` is 0 up to the `libssh2_scp_recv2` loop, 1
while the channel is held, 2 afterwards. -/
def Res (h : List Event) (sess : Nat) (sock : Int) (chan : Nat) (noSock noSess : Bool)
    (stage : Nat) : Prop :=
  h.any isCleanup = false ∧
  (∀ x, Event.libssh2_session_init x ∈ h → x = sess) ∧
  (sess ≠ 0 → Event.libssh2_session_init sess ∈ h) ∧
  (noSess = true → sess = 0 ∧ h.any isSessionInit = false) ∧
  (∀ fd, Event.socket fd ∈ h → fd = sock) ∧
  (noSock = false → Event.socket sock ∈ h) ∧
  (noSock = true → h.any isSocket = false) ∧
  (stage = 0 → h.any isChannelFree = false ∧
    ∀ x ch sz, Event.libssh2_scp_recv2 x ch sz ∈ h → ch = 0) ∧
  (stage = 1 → h.any isChannelFree = false ∧ chan ≠ 0 ∧
    (∃ x sz, Event.libssh2_scp_recv2 x chan sz ∈ h) ∧
    ∀ x ch sz, Event.libssh2_scp_recv2 x ch sz ∈ h → ch ≠ 0 → ch = chan) ∧
  (stage = 2 → FinalChan h)

/-- The `socket` call has not been made yet. -/
def noSock : PC → Bool
  | PC.L113 | PC.L136 | PC.L145 => true
  | _ => false

/-- The `libssh2_session_init` call has not been made yet. -/
def noSess : PC → Bool
  | PC.L113 | PC.L136 | PC.L145 | PC.L154 | PC.L160 => true
  | _ => false

/-- Stage of the channel: 0 before `libssh2_scp_recv2` succeeds, 1 while the
channel is held, 2 from label `shutdown` on. -/
def chanStage : PC → Nat
  | PC.L241 | PC.L246 | PC.L272 => 1
  | PC.L286 | PC.exited _ => 2
  | _ => 0

/-- Invariant behind the release of resources, on states: `Res` before `main`
returns; after `return 0`, the history is that of a state at label `shutdown`
followed by the clean-up calls. -/
def ResInv (K : Libssh2H) (cfg : Config) (s : State) : Prop :=
  match s.pc with
  | PC.exited rc =>
      rc = 0 → ∃ s0 : State, Res s0.hist s0.session s0.sock s0.channel false false 2 ∧
        s.hist = s0.hist ++ cleanupEvents K cfg s0
  | pc => Res s.hist s.session s.sock s.channel (noSock pc) (noSess pc) (chanStage pc)

/-- A `libssh2_init` call. -/
def isInit : Event → Bool
  | Event.libssh2_init _ => true
  | _ => false

/-- A `libssh2_init` call that returned `0`. -/
def isInitOk : Event → Bool
  | Event.libssh2_init rc => decide (rc = 0)
  | _ => false

/-- Invariant: `libssh2_init` is not called before line 136, and `main`
returns non-zero only without a successful `libssh2_init`. -/
def InitInv (h : List Event) : PC → Prop
  | PC.L113 | PC.L136 => h.any isInit = false
  | PC.exited rc => rc ≠ 0 → h.any isInitOk = false
  | _ => True

/-! ## End of file before the declared size -/

/-- The channel serves the file `content` and then reports end of file, to a
receive loop started from history `h0`: while bytes of `content` remain, a
request for `amount > 0` bytes is answered either by `LIBSSH2_ERROR_EAGAIN` or
by a count `k ≥ 1`, at most `amount` and at most what remains, with the next
`k` bytes at the start of `mem`; once all of `content` is delivered every read
returns `0`; a request for `0` bytes is answered by a non-positive value. -/
def ShortRemote (K : Libssh2H) (E : Env) (h0 : List Event) (content : List Byte) : Prop :=
  ∀ (t : List Event) (amount : Nat),
    (amount = 0 → (E.libssh2_channel_read (h0 ++ t) amount).1 ≤ 0) ∧
    (delivered t < content.length → 0 < amount →
      (E.libssh2_channel_read (h0 ++ t) amount).1 = K.LIBSSH2_ERROR_EAGAIN ∨
      (1 ≤ (E.libssh2_channel_read (h0 ++ t) amount).1 ∧
       (E.libssh2_channel_read (h0 ++ t) amount).1 ≤ amount ∧
       delivered t + (E.libssh2_channel_read (h0 ++ t) amount).1 ≤ content.length ∧
       (E.libssh2_channel_read (h0 ++ t) amount).2.take
          (E.libssh2_channel_read (h0 ++ t) amount).1.toNat =
        (content.drop (delivered t).toNat).take
          (E.libssh2_channel_read (h0 ++ t) amount).1.toNat)) ∧
    (delivered t = content.length → (E.libssh2_channel_read (h0 ++ t) amount).1 = 0)

/-- Invariant of the receive loop against a remote that ends early: what has
been written is the part of `content` received, and the loop is left only with
all of `content` received. -/
def ShortInv (h0 : List Event) (content : List Byte) (s : State) : Prop :=
  ∃ t, s.hist = h0 ++ t ∧ written t = content.take (delivered t).toNat ∧
    delivered t ≤ content.length ∧ (s.pc = PC.L272 → delivered t = content.length)

/-- The text of an `fprintf(stderr, ...)` call. -/
def diagOf : Event → Option Diag
  | Event.fprintf d => some d
  | _ => none

/-- The diagnostics of a history: the texts printed to `stderr`, in order. -/
def diagnostics (h : List Event) : List Diag := h.filterMap diagOf

/-- The line of lines 276-280 that reports the byte count. -/
def gotLine (cfg : Config) (total time_ms spin : Int) : Diag :=
  if cfg.have_gettimeofday then Diag.got_timed total time_ms spin else Diag.got total spin

/-- The observable outcome of a run of `main`: the value returned and the
diagnostics printed. -/
def outcome (r : Option Int × List Event) : Option Int × List Diag :=
  (r.1, diagnostics r.2)

/-- The number of `libssh2_channel_read` calls of a history that returned
`LIBSSH2_ERROR_EAGAIN`. -/
def againCount (K : Libssh2H) (t : List Event) : Nat := (t.filter (isReadAgain K)).length

/-- The channel answers `LIBSSH2_ERROR_EAGAIN` at most `B` times to a receive
loop started from history `h0`: once the events `t` since then hold `B` such
answers, no read is answered by it. -/
def BoundedAgain (K : Libssh2H) (E : Env) (h0 : List Event) (B : Nat) : Prop :=
  ∀ (t : List Event) (amount : Nat), B ≤ againCount K t →
    (E.libssh2_channel_read (h0 ++ t) amount).1 ≠ K.LIBSSH2_ERROR_EAGAIN

/-- The texts with which `main` reports a failure (lines 115, 138, 147, 155,
162, 179, 200, 211 and 230). -/
def isFailureDiag : Diag → Bool
  | Diag.wsastartup_failed _ => true
  | Diag.init_failed _ => true
  | Diag.socket_failed => true
  | Diag.connect_failed => true
  | Diag.session_init_failed => true
  | Diag.handshake_failed _ => true
  | Diag.auth_password_failed => true
  | Diag.auth_publickey_failed => true
  | Diag.err_msg _ => true
  | _ => false

/-- An outcome that reports a failure: the value returned is not 0, or one of
the diagnostics is a failure text. -/
def ReportsFailure (o : Option Int × List Diag) : Prop :=
  o.1 ≠ some 0 ∨ o.2.any isFailureDiag = true

instance instDecidableReportsFailure (o : Option Int × List Diag) :
    Decidable (ReportsFailure o) := by
  unfold ReportsFailure
  infer_instance

/-- What `main` does from the exit `a` of a receive loop entered in state `s`
to its final state `b`, as after a transfer of `count` bytes: it reads the
clock where the build has one, prints the byte-count line with `count`, frees
the channel, runs the clean-up of label `shutdown` and returns 0; the
diagnostics since the loop was entered are the byte-count line and
"all done". -/
def FinishesTransfer (K : Libssh2H) (cfg : Config) (s a b : State) (count : Int) : Prop :=
  b.pc = PC.exited 0 ∧
  ∃ (clock : List Event) (time_ms spin : Int),
    (∀ e ∈ clock, ∃ tv, e = Event.gettimeofday tv) ∧
    b.hist = a.hist ++ clock ++
      [Event.fprintf (gotLine cfg count time_ms spin), Event.libssh2_channel_free s.channel] ++
      cleanupEvents K cfg s ∧
    diagnostics (since s.hist b) = [gotLine cfg count time_ms spin, Diag.all_done]

/-- Kept by the receive loop entered in state `s0`: the session, socket and
channel are those of `s0`, and nothing has been printed since. -/
def LoopFrame (s0 x : State) : Prop :=
  x.session = s0.session ∧ x.sock = s0.sock ∧ x.channel = s0.channel ∧
    ∃ t, x.hist = s0.hist ++ t ∧ diagnostics t = []

/-- A remote like that of `fakeRead` without stutter, which first answers `-37`
to `B` reads: a read is answered `-37` while the history holds fewer than `B`
such answers, bytes of `content` remain and the request is not empty. -/
def busyRead (content : List Byte) (chunk B : Nat) (h : List Event) (amount : Nat) :
    Int × List Byte :=
  if decide (againCount libssh2_h h < B) && decide (delivered h < content.length) &&
      decide (amount ≠ 0) then (-37, [])
  else
    (((content.drop (delivered h).toNat).take (min amount chunk)).length,
     (content.drop (delivered h).toNat).take (min amount chunk))

/-- A server like `fakeEnv` whose reads are answered by `busyRead`. -/
def busyEnv (declared : Int) (content : List Byte) (chunk B : Nat) : Env :=
  { fakeEnv declared content chunk false with
    libssh2_channel_read := busyRead content chunk B }

/-- The state `recvStart N` with the socket, session and channel that `fakeEnv`
hands out. -/
def recvOpen (N : Int) : State := { recvStart N with sock := 3, session := 1, channel := 2 }

/-! # Theorems -/

/-! ## Machine integers -/

theorem wrap64_of_inLong {x : Int} (h : InLong x) : wrap64 x = x := by
  obtain ⟨h1, h2⟩ := h
  simp only [wrap64, wrap]
  norm_num at h1 h2 ⊢
  omega

theorem wrap64_eq_self {x : Int} (h1 : -(2 ^ 63) ≤ x) (h2 : x < 2 ^ 63) : wrap64 x = x :=
  wrap64_of_inLong ⟨h1, h2⟩

theorem wrap32_eq_self {x : Int} (h1 : -(2 ^ 31) ≤ x) (h2 : x < 2 ^ 31) : wrap32 x = x := by
  simp only [wrap32, wrap]
  norm_num at h1 h2 ⊢
  omega

theorem toSizeT_of_nonneg {x : Int} (h1 : 0 ≤ x) (h2 : x < 2 ^ 64) :
    (toSizeT x : Int) = x := by
  simp only [toSizeT]
  norm_num at h2 ⊢
  omega

/-- C division by 1000 in terms of floor division, by sign of the dividend. -/
theorem tdiv_1000_cases (d : Int) :
    (0 ≤ d ∧ Int.tdiv d 1000 = d / 1000) ∨ (d < 0 ∧ Int.tdiv d 1000 = -((-d) / 1000)) := by
  rcases le_or_lt 0 d with h | h
  · exact Or.inl ⟨h, Int.tdiv_eq_ediv h (by norm_num)⟩
  · refine Or.inr ⟨h, ?_⟩
    have h' : (0 : Int) ≤ -d := by omega
    have e : Int.tdiv d 1000 = -(Int.tdiv (-d) 1000) := by
      rw [Int.neg_tdiv, neg_neg]
    rw [e, Int.tdiv_eq_ediv h' (by norm_num)]

/-! ## `tvdiff` -/

/-- C10.  With both `tv_usec` fields in `[0, 1000000)` and no `long` overflow,
`tvdiff newer older` is the difference of the seconds times 1000 plus the
difference of the microseconds divided by 1000 with truncation toward zero;
it is within one millisecond of the exact elapsed time; `tvdiff a a = 0`; and
`tvdiff` is antisymmetric when the reversed call does not overflow either. -/
theorem tvdiff_milliseconds (newer older : Timeval)
    (hn : ValidUsec newer) (ho : ValidUsec older)
    (hov : TvdiffNoOverflow newer older) :
    tvdiff newer older =
        (newer.tv_sec - older.tv_sec) * 1000 +
          Int.tdiv (newer.tv_usec - older.tv_usec) 1000 ∧
    |1000 * tvdiff newer older -
        ((newer.tv_sec - older.tv_sec) * 1000000 + newer.tv_usec - older.tv_usec)| < 1000 ∧
    tvdiff newer newer = 0 ∧
    (TvdiffNoOverflow older newer → tvdiff newer older = -tvdiff older newer) := by
  obtain ⟨hn0, hn1⟩ := hn
  obtain ⟨ho0, ho1⟩ := ho
  have hu : ∀ a b : Int, 0 ≤ a → a < 1000000 → 0 ≤ b → b < 1000000 →
      wrap64 (a - b) = a - b := by
    intro a b ha0 ha1 hb0 hb1
    apply wrap64_eq_self <;> norm_num <;> omega
  have key : ∀ a b : Timeval, 0 ≤ a.tv_usec → a.tv_usec < 1000000 →
      0 ≤ b.tv_usec → b.tv_usec < 1000000 → TvdiffNoOverflow a b →
      tvdiff a b = (a.tv_sec - b.tv_sec) * 1000 + Int.tdiv (a.tv_usec - b.tv_usec) 1000 := by
    intro a b ha0 ha1 hb0 hb1 h
    obtain ⟨h1, h2, h3⟩ := h
    simp only [tvdiff]
    rw [wrap64_of_inLong h1, wrap64_of_inLong h2, hu _ _ ha0 ha1 hb0 hb1, wrap64_of_inLong h3]
  have e1 := key newer older hn0 hn1 ho0 ho1 hov
  refine ⟨e1, ?_, ?_, ?_⟩
  · rw [e1, abs_lt]
    rcases tdiv_1000_cases (newer.tv_usec - older.tv_usec) with ⟨_, e⟩ | ⟨_, e⟩ <;>
      rw [e] <;> constructor <;> omega
  · simp [tvdiff, wrap64, wrap]
  · intro hov2
    rw [e1, key older newer ho0 ho1 hn0 hn1 hov2]
    have e : older.tv_usec - newer.tv_usec = -(newer.tv_usec - older.tv_usec) := by ring
    rw [e, Int.neg_tdiv]
    ring

/-- Witness for C10: 2.250000 s against 1.750000 s is 500 ms. -/
theorem tvdiff_milliseconds_witness :
    tvdiff ⟨2, 250000⟩ ⟨1, 750000⟩ = (2 - 1) * 1000 + Int.tdiv (250000 - 750000) 1000 ∧
    |1000 * tvdiff ⟨2, 250000⟩ ⟨1, 750000⟩ -
        ((2 - 1) * 1000000 + 250000 - 750000)| < 1000 ∧
    tvdiff ⟨2, 250000⟩ ⟨2, 250000⟩ = 0 ∧
    (TvdiffNoOverflow ⟨1, 750000⟩ ⟨2, 250000⟩ →
      tvdiff ⟨2, 250000⟩ ⟨1, 750000⟩ = -tvdiff ⟨1, 750000⟩ ⟨2, 250000⟩) :=
  tvdiff_milliseconds ⟨2, 250000⟩ ⟨1, 750000⟩ (by simp [ValidUsec]) (by simp [ValidUsec])
    (by simp [TvdiffNoOverflow, InLong]; decide)

/-! ## `waitsocket` -/

theorem waitsocket_hist (K : Libssh2H) (E : Env) (h : List Event) (socket_fd : Int)
    (session : Nat) :
    (waitsocket K E h socket_fd session).2 =
      h ++ [Event.libssh2_session_block_directions session
              (E.libssh2_session_block_directions h),
            Event.select (wrap32 (socket_fd + 1))
              (if bitand32 (E.libssh2_session_block_directions h)
                  K.LIBSSH2_SESSION_BLOCK_INBOUND ≠ 0 then some [socket_fd] else none)
              (if bitand32 (E.libssh2_session_block_directions h)
                  K.LIBSSH2_SESSION_BLOCK_OUTBOUND ≠ 0 then some [socket_fd] else none)
              none ⟨10, 0⟩
              (E.select (h ++ [Event.libssh2_session_block_directions session
                (E.libssh2_session_block_directions h)]))] := by
  simp only [waitsocket, List.append_assoc, List.singleton_append]

theorem waitsocket_events (K : Libssh2H) (E : Env) (h : List Event) (socket_fd : Int)
    (session : Nat) :
    (waitsocket K E h socket_fd session).2 = h ++ waitEvents K E h socket_fd session :=
  waitsocket_hist K E h socket_fd session

/-- Bit `i` of the 32-bit pattern of `a` is bit `i` of `a`. -/
theorem testBit_word (a : Int) (i : Nat) (hi : i < 32) :
    (a % 2 ^ 32).toNat.testBit i = true ↔ (a / 2 ^ i) % 2 = 1 := by
  rw [Nat.testBit_to_div_mod, decide_eq_true_iff]
  interval_cases i <;> norm_num <;> omega

theorem testBit_word_lt (a : Int) (i : Nat) (h : (a % 2 ^ 32).toNat.testBit i = true) :
    i < 32 := by
  by_contra hge
  have hlt : (a % 2 ^ 32).toNat < 2 ^ i := by
    have h1 : (a % 2 ^ 32).toNat < 2 ^ 32 := by
      norm_num
      omega
    exact lt_of_lt_of_le h1 (Nat.pow_le_pow_right (by decide) (by omega))
  rw [Nat.testBit_lt_two_pow hlt] at h
  cases h

/-- The C condition `a & b` on two `int` values holds exactly when they share a
set bit. -/
theorem bitand32_ne_zero_iff (a b : Int) : bitand32 a b ≠ 0 ↔ FlagSet a b := by
  constructor
  · intro h
    obtain ⟨i, hi⟩ := Nat.ne_zero_implies_bit_true h
    have hi' : ((a % 2 ^ 32).toNat &&& (b % 2 ^ 32).toNat).testBit i = true := hi
    rw [Nat.testBit_and, Bool.and_eq_true] at hi'
    have hlt := testBit_word_lt a i hi'.1
    exact ⟨i, hlt, (testBit_word a i hlt).mp hi'.1, (testBit_word b i hlt).mp hi'.2⟩
  · rintro ⟨i, hlt, ha, hb⟩ h0
    have hi : ((a % 2 ^ 32).toNat &&& (b % 2 ^ 32).toNat).testBit i = true := by
      rw [Nat.testBit_and, Bool.and_eq_true]
      exact ⟨(testBit_word a i hlt).mpr ha, (testBit_word b i hlt).mpr hb⟩
    have h0' : (a % 2 ^ 32).toNat &&& (b % 2 ^ 32).toNat = 0 := h0
    rw [h0'] at hi
    simp at hi

theorem pow_bit (i j : Nat) (hi : i < 32) (hj : j < 32) :
    ((2 : Int) ^ i / 2 ^ j) % 2 = 1 ↔ j = i := by
  rw [← testBit_word _ j hj]
  have e : (((2 : Int) ^ i) % 2 ^ 32).toNat = 2 ^ i := by
    have h1 : (2 : Int) ^ i < 2 ^ 32 := by
      exact_mod_cast Nat.pow_lt_pow_right (by decide : 1 < 2) hi
    rw [Int.emod_eq_of_lt (by positivity) h1]
    exact_mod_cast Int.toNat_natCast (2 ^ i)
  rw [e, Nat.testBit_two_pow, decide_eq_true_iff]
  exact eq_comm

/-- For a flag of one bit, `FlagSet` is that bit of `dir`. -/
theorem flagSet_bit (dir : Int) (i : Nat) (hi : i < 32) :
    FlagSet dir (2 ^ i) ↔ (dir / 2 ^ i) % 2 = 1 := by
  constructor
  · rintro ⟨j, hj, h1, h2⟩
    obtain rfl := (pow_bit i j hi hj).mp h2
    exact h1
  · intro h
    exact ⟨i, hi, h, (pow_bit i i hi hi).mpr rfl⟩

/-- C4.  For a socket descriptor that `FD_SET` accepts (`0 ≤ socket_fd <
FD_SETSIZE`; the constant of `<sys/select.h>` is a parameter, an `int`),
`waitsocket` asks for the block directions `dir` once and then
calls `select` once, with `socket_fd + 1`, no exception set and a timeout of
10 s.  The read set holds just the socket exactly when the inbound flag is set
in `dir` and is `NULL` exactly when it is not, likewise the write set for the
outbound flag; with the outbound flag set and the inbound flag clear it passes
a write set and no read set; for a flag that is the single bit `2 ^ i` the set
is passed exactly when bit `i` of `dir` is 1; and `waitsocket` returns what
`select` returned. -/
theorem waitsocket_direction (K : Libssh2H) (E : Env) (h : List Event)
    (socket_fd : Int) (session : Nat) (FD_SETSIZE : Int)
    (hfd0 : 0 ≤ socket_fd) (hfd1 : socket_fd < FD_SETSIZE) (hmax : FD_SETSIZE < 2 ^ 31) :
    ∃ (readfds writefds : Option (List Int)) (rc : Int),
      (waitsocket K E h socket_fd session).2 =
        h ++ [Event.libssh2_session_block_directions session
                (E.libssh2_session_block_directions h),
              Event.select (socket_fd + 1) readfds writefds none ⟨10, 0⟩ rc] ∧
      (waitsocket K E h socket_fd session).1 = rc ∧
      rc = E.select (h ++ [Event.libssh2_session_block_directions session
                (E.libssh2_session_block_directions h)]) ∧
      (readfds = some [socket_fd] ↔
        FlagSet (E.libssh2_session_block_directions h) K.LIBSSH2_SESSION_BLOCK_INBOUND) ∧
      (readfds = none ↔
        ¬ FlagSet (E.libssh2_session_block_directions h) K.LIBSSH2_SESSION_BLOCK_INBOUND) ∧
      (writefds = some [socket_fd] ↔
        FlagSet (E.libssh2_session_block_directions h) K.LIBSSH2_SESSION_BLOCK_OUTBOUND) ∧
      (writefds = none ↔
        ¬ FlagSet (E.libssh2_session_block_directions h) K.LIBSSH2_SESSION_BLOCK_OUTBOUND) ∧
      (FlagSet (E.libssh2_session_block_directions h) K.LIBSSH2_SESSION_BLOCK_OUTBOUND →
        ¬ FlagSet (E.libssh2_session_block_directions h) K.LIBSSH2_SESSION_BLOCK_INBOUND →
        writefds = some [socket_fd] ∧ readfds = none) ∧
      (∀ i, i < 32 → K.LIBSSH2_SESSION_BLOCK_INBOUND = 2 ^ i →
        (readfds = some [socket_fd] ↔ (E.libssh2_session_block_directions h / 2 ^ i) % 2 = 1)) ∧
      (∀ i, i < 32 → K.LIBSSH2_SESSION_BLOCK_OUTBOUND = 2 ^ i →
        (writefds = some [socket_fd] ↔
          (E.libssh2_session_block_directions h / 2 ^ i) % 2 = 1)) := by
  have hn : wrap32 (socket_fd + 1) = socket_fd + 1 :=
    wrap32_eq_self (by omega) (by omega)
  have hr : ∀ mask : Int,
      ((if bitand32 (E.libssh2_session_block_directions h) mask ≠ 0
          then some [socket_fd] else none) = some [socket_fd] ↔
        FlagSet (E.libssh2_session_block_directions h) mask) ∧
      ((if bitand32 (E.libssh2_session_block_directions h) mask ≠ 0
          then some [socket_fd] else none) = none ↔
        ¬ FlagSet (E.libssh2_session_block_directions h) mask) := by
    intro mask
    rw [← bitand32_ne_zero_iff]
    by_cases hf : bitand32 (E.libssh2_session_block_directions h) mask = 0 <;> simp [hf]
  refine ⟨if bitand32 (E.libssh2_session_block_directions h)
              K.LIBSSH2_SESSION_BLOCK_INBOUND ≠ 0 then some [socket_fd] else none,
          if bitand32 (E.libssh2_session_block_directions h)
              K.LIBSSH2_SESSION_BLOCK_OUTBOUND ≠ 0 then some [socket_fd] else none,
          E.select (h ++ [Event.libssh2_session_block_directions session
                (E.libssh2_session_block_directions h)]),
          ?_, rfl, rfl, (hr _).1, (hr _).2, (hr _).1, (hr _).2, ?_, ?_, ?_⟩
  · rw [waitsocket_hist, hn]
  · intro ho hi
    exact ⟨(hr _).1.mpr ho, (hr _).2.mpr hi⟩
  · intro i hi hK
    rw [(hr _).1, hK]
    exact flagSet_bit _ i hi
  · intro i hi hK
    rw [(hr _).1, hK]
    exact flagSet_bit _ i hi

set_option maxRecDepth 100000 in
/-- Witness for C4 with the upstream flag values (inbound 1, outbound 2) and
socket 3: `dir = 2` gives a write set and no read set, `dir = 1` a read set and
no write set, `dir = 3` both, `dir = 0` neither. -/
theorem waitsocket_direction_witness :
    waitsocket libssh2_h (dirEnv 2) [] 3 1 =
      (1, [Event.libssh2_session_block_directions 1 2,
           Event.select 4 none (some [3]) none ⟨10, 0⟩ 1]) ∧
    (waitsocket libssh2_h (dirEnv 1) [] 3 1).2 =
      [Event.libssh2_session_block_directions 1 1,
       Event.select 4 (some [3]) none none ⟨10, 0⟩ 1] ∧
    (waitsocket libssh2_h (dirEnv 3) [] 3 1).2 =
      [Event.libssh2_session_block_directions 1 3,
       Event.select 4 (some [3]) (some [3]) none ⟨10, 0⟩ 1] ∧
    (waitsocket libssh2_h (dirEnv 0) [] 3 1).2 =
      [Event.libssh2_session_block_directions 1 0,
       Event.select 4 none none none ⟨10, 0⟩ 1] := by
  refine ⟨?_, ?_, ?_, ?_⟩
  · obtain ⟨r, w, rc, hh, h1, h2, _, hr, hw, _, _, _, _⟩ :=
      waitsocket_direction libssh2_h (dirEnv 2) [] 3 1 1024 (by decide) (by decide) (by decide)
    obtain rfl := hr.mpr (by decide)
    obtain rfl := hw.mpr (by decide)
    obtain rfl : rc = 1 := h2
    exact Prod.ext h1 hh
  · obtain ⟨r, w, rc, hh, h1, h2, hr, _, _, hw, _, _, _⟩ :=
      waitsocket_direction libssh2_h (dirEnv 1) [] 3 1 1024 (by decide) (by decide) (by decide)
    obtain rfl := hr.mpr (by decide)
    obtain rfl := hw.mpr (by decide)
    obtain rfl : rc = 1 := h2
    exact hh
  · obtain ⟨r, w, rc, hh, h1, h2, hr, _, hw, _, _, _, _⟩ :=
      waitsocket_direction libssh2_h (dirEnv 3) [] 3 1 1024 (by decide) (by decide) (by decide)
    obtain rfl := hr.mpr (by decide)
    obtain rfl := hw.mpr (by decide)
    obtain rfl : rc = 1 := h2
    exact hh
  · obtain ⟨r, w, rc, hh, h1, h2, _, hr, _, hw, _, _, _⟩ :=
      waitsocket_direction libssh2_h (dirEnv 0) [] 3 1 1024 (by decide) (by decide) (by decide)
    obtain rfl := hr.mpr (by decide)
    obtain rfl := hw.mpr (by decide)
    obtain rfl : rc = 1 := h2
    exact hh

/-! ## Running `main` -/

theorem run_succ (K : Libssh2H) (cfg : Config) (E : Env) (auth_pw : Bool) (n : Nat)
    (s : State) :
    run K cfg E auth_pw (n + 1) s = step K cfg E auth_pw (run K cfg E auth_pw n s) := by
  induction n generalizing s with
  | zero => rfl
  | succ n ih =>
    show run K cfg E auth_pw (n + 1) (step K cfg E auth_pw s) = _
    rw [ih]
    rfl

theorem run_add (K : Libssh2H) (cfg : Config) (E : Env) (auth_pw : Bool) (m n : Nat)
    (s : State) :
    run K cfg E auth_pw (m + n) s = run K cfg E auth_pw n (run K cfg E auth_pw m s) := by
  induction m generalizing s with
  | zero => simp [run]
  | succ m ih =>
    rw [Nat.succ_add]
    show run K cfg E auth_pw (m + n) (step K cfg E auth_pw s) = _
    rw [ih]
    rfl

/-- A property kept by every step holds after any number of steps. -/
theorem run_invariant (K : Libssh2H) (cfg : Config) (E : Env) (auth_pw : Bool)
    (Inv : State → Prop) (hstep : ∀ s, Inv s → Inv (step K cfg E auth_pw s))
    (s : State) (h0 : Inv s) (n : Nat) : Inv (run K cfg E auth_pw n s) := by
  induction n generalizing s with
  | zero => exact h0
  | succ n ih => exact ih _ (hstep s h0)

/-! ## The receive loop on one full buffer -/

/-- C8.  With a declared size of 24576 and a channel that delivers every byte
requested, the receive loop entered at line 241 leaves at line 272 after three
steps: its first read requests 24576 bytes and returns them, they are written
once, the only further call is a read of 0 bytes that returns 0, no
`waitsocket` call is made, and `got = total = 24576` with `spin = 0`. -/
theorem recv_one_buffer (K : Libssh2H) (cfg : Config) (E : Env) (auth_pw : Bool)
    (s : State)
    (hE : ∀ h amount, (E.libssh2_channel_read h amount).1 = amount ∧
      amount ≤ (E.libssh2_channel_read h amount).2.length)
    (hs : RecvEntry s 24576) :
    ∃ mem mem' : List Byte,
      (run K cfg E auth_pw 3 s).pc = PC.L272 ∧
      (run K cfg E auth_pw 3 s).got = 24576 ∧
      (run K cfg E auth_pw 3 s).total = 24576 ∧
      (run K cfg E auth_pw 3 s).spin = 0 ∧
      (run K cfg E auth_pw 3 s).hist =
        s.hist ++ [Event.libssh2_channel_read s.channel 24576 24576 mem,
                   Event.write 1 (mem.take 24576),
                   Event.libssh2_channel_read s.channel 0 0 mem'] ∧
      (mem.take 24576).length = 24576 ∧
      (∀ e ∈ since s.hist (run K cfg E auth_pw 3 s), isWait e = false) ∧
      ((since s.hist (run K cfg E auth_pw 3 s)).filter isDataRead).length = 1 := by
  obtain ⟨hpc, hgot, htot, hspin, hN⟩ := hs
  have a1 : readAmount 24576 0 = 24576 := by decide
  have a2 : readAmount 24576 24576 = 0 := by decide
  have t1 : toSizeT 24576 = 24576 := by decide
  have t0 : toSizeT 0 = 0 := by decide
  have w1 : wrap64 24576 = 24576 := by decide
  have r1 := hE s.hist 24576
  obtain ⟨r1a, r1b⟩ := r1
  have e1 : step K cfg E auth_pw s = { s with pc := PC.L246 } := by
    simp [step, hpc, hgot, hN]
  have e2 : step K cfg E auth_pw { s with pc := PC.L246 } =
      { s with pc := PC.L246,
               hist := s.hist ++ [Event.libssh2_channel_read s.channel 24576 24576
                          (E.libssh2_channel_read s.hist 24576).2,
                        Event.write 1 ((E.libssh2_channel_read s.hist 24576).2.take 24576)],
               got := 24576, total := 24576 } := by
    simp [step, hgot, htot, hN, a1, t1, r1a, w1]
  have r0 := (hE (s.hist ++ [Event.libssh2_channel_read s.channel 24576 24576
                          (E.libssh2_channel_read s.hist 24576).2,
                        Event.write 1 ((E.libssh2_channel_read s.hist 24576).2.take 24576)]) 0).1
  have e3 : run K cfg E auth_pw 3 s =
      { s with pc := PC.L272,
               hist := s.hist ++ [Event.libssh2_channel_read s.channel 24576 24576
                          (E.libssh2_channel_read s.hist 24576).2,
                        Event.write 1 ((E.libssh2_channel_read s.hist 24576).2.take 24576),
                        Event.libssh2_channel_read s.channel 0 0
                          (E.libssh2_channel_read (s.hist ++
                            [Event.libssh2_channel_read s.channel 24576 24576
                              (E.libssh2_channel_read s.hist 24576).2,
                             Event.write 1
                              ((E.libssh2_channel_read s.hist 24576).2.take 24576)]) 0).2],
               got := 24576, total := 24576 } := by
    simp only [run, e1, e2]
    simp [step, hN, a2, t0, r0]
  refine ⟨(E.libssh2_channel_read s.hist 24576).2,
    (E.libssh2_channel_read (s.hist ++
        [Event.libssh2_channel_read s.channel 24576 24576
          (E.libssh2_channel_read s.hist 24576).2,
         Event.write 1 ((E.libssh2_channel_read s.hist 24576).2.take 24576)]) 0).2, ?_⟩
  rw [e3]
  refine ⟨rfl, rfl, rfl, hspin, rfl, ?_, ?_, ?_⟩
  · simp only [List.length_take]
    omega
  · simp [since, isWait]
  · simp [since, isDataRead]

/-! ## Histories -/

theorem eachAfter_nil (P : List Event → Event → Prop) : EachAfter P [] := by
  intro pre e post h
  simp at h

theorem eachAfter_append {P : List Event → Event → Prop} {t u : List Event}
    (ht : EachAfter P t) (hu : EachAfter (fun pre e => P (t ++ pre) e) u) :
    EachAfter P (t ++ u) := by
  intro pre e post h
  rcases List.append_eq_append_iff.mp h with ⟨a, h1, h2⟩ | ⟨c, h1, h2⟩
  · subst h1
    exact hu a e post h2
  · cases c with
    | nil =>
      simp only [List.nil_append, List.append_nil] at h1 h2
      subst h1
      have := hu [] e post h2.symm
      simpa using this
    | cons x c =>
      simp only [List.cons_append, List.cons.injEq] at h2
      obtain ⟨rfl, _⟩ := h2
      exact ht pre e c h1

theorem eachAfter_cons {Q : List Event → Event → Prop} {e : Event} {u : List Event}
    (he : Q [] e) (hu : EachAfter (fun pre x => Q (e :: pre) x) u) :
    EachAfter Q (e :: u) := by
  intro pre x post h
  cases pre with
  | nil =>
    simp only [List.nil_append, List.cons.injEq] at h
    obtain ⟨rfl, _⟩ := h
    exact he
  | cons y pre =>
    simp only [List.cons_append, List.cons.injEq] at h
    obtain ⟨rfl, h⟩ := h
    exact hu pre x post h

theorem delivered_append (a b : List Event) :
    delivered (a ++ b) = delivered a + delivered b := by
  simp [delivered]

theorem delivered_nil : delivered [] = 0 := rfl

theorem delivered_cons (e : Event) (t : List Event) :
    delivered (e :: t) = readCount e + delivered t := by
  simp [delivered]

theorem written_append (a b : List Event) : written (a ++ b) = written a ++ written b := by
  induction a with
  | nil => rfl
  | cons e a ih => simp [written, ih]

theorem readAmount_eq {N got : Int} (h0 : 0 ≤ got) (h1 : got ≤ N) (h2 : N < 2 ^ 63) :
    readAmount N got = min sizeof_mem (N - got) := by
  have e : wrap64 (N - got) = N - got := by
    apply wrap64_eq_self <;> omega
  simp only [readAmount, e, sizeof_mem]
  split
  · rename_i h
    rw [wrap32_eq_self (by omega) (by norm_num at h ⊢; omega)]
    norm_num at h ⊢
    omega
  · rename_i h
    norm_num at h ⊢
    omega

/-! ## The receive loop: counting invariant -/

theorem recvInv_intro {h0 : List Event} {N : Int} {s : State} (t : List Event)
    (hsz : s.st_size = N) (ht : s.hist = h0 ++ t) (hgot : s.got = delivered t)
    (htot : s.total = delivered t) (hd0 : 0 ≤ delivered t) (hdN : delivered t ≤ N)
    (hreq : EachAfter (RequestOK N) t)
    (hcnt : ((t.filter isDataRead).length : Int) ≤ delivered t) : RecvInv h0 N s :=
  ⟨hsz, t, ht, hgot, htot, hd0, hdN, hreq, hcnt⟩

theorem recvInv_step (K : Libssh2H) (cfg : Config) (E : Env) (auth_pw : Bool)
    (h0 : List Event) (N : Int) (hN : N < 2 ^ 63)
    (hE : ∀ (t : List Event) (amount : Nat), delivered t + amount ≤ N →
      (E.libssh2_channel_read (h0 ++ t) amount).1 ≤ amount)
    (s : State) (hs : FromRecvLoop s ∧ (InRecvLoop s → RecvInv h0 N s)) :
    FromRecvLoop (step K cfg E auth_pw s) ∧
      (InRecvLoop (step K cfg E auth_pw s) → RecvInv h0 N (step K cfg E auth_pw s)) := by
  obtain ⟨hpc, hinv⟩ := hs
  rcases hpc with (hpc | hpc | hpc) | hpc | ⟨rc, hpc⟩
  · -- line 241
    have hI := hinv (Or.inl hpc)
    by_cases hc : s.got < s.st_size
    · have e : step K cfg E auth_pw s = { s with pc := PC.L246 } := by
        simp [step, hpc, hc]
      rw [e]
      exact ⟨Or.inl (Or.inr (Or.inl rfl)), fun _ => hI⟩
    · have e : step K cfg E auth_pw s = { s with pc := PC.L272 } := by
        simp [step, hpc, hc]
      rw [e]
      exact ⟨Or.inl (Or.inr (Or.inr rfl)), fun _ => hI⟩
  · -- line 246
    obtain ⟨hsz, t, ht, hgot, htot, hd0, hdN, hreq, hcnt⟩ := hinv (Or.inr (Or.inl hpc))
    have ha := @readAmount_eq N s.got (by omega) (by omega) hN
    have ha0 : 0 ≤ readAmount N s.got := by
      rw [ha]; simp only [sizeof_mem]; omega
    have ha1 : readAmount N s.got ≤ N - s.got := by
      rw [ha]; exact min_le_right _ _
    have hts : (toSizeT (readAmount N s.got) : Int) = readAmount N s.got := by
      apply toSizeT_of_nonneg ha0
      have : readAmount N s.got ≤ sizeof_mem := by rw [ha]; exact min_le_left _ _
      simp only [sizeof_mem] at this
      omega
    have hr := hE t (toSizeT (readAmount N s.got)) (by omega)
    rw [← ht, hts] at hr
    rcases hrd : E.libssh2_channel_read s.hist (toSizeT (readAmount N s.got)) with ⟨nread, mem⟩
    rw [hrd] at hr
    simp only at hr
    have hreq1 : RequestOK N (t ++ [])
        (Event.libssh2_channel_read s.channel (toSizeT (readAmount N s.got)) nread mem) := by
      show ((toSizeT (readAmount N s.got) : Nat) : Int) = min sizeof_mem (N - delivered (t ++ []))
      rw [hts, ha, hgot, List.append_nil]
    by_cases hp : nread > 0
    · have e : step K cfg E auth_pw s =
          { s with hist := s.hist ++
                    [Event.libssh2_channel_read s.channel (toSizeT (readAmount N s.got))
                      nread mem, Event.write 1 (mem.take (toSizeT nread))],
                   got := wrap64 (s.got + nread), total := wrap64 (s.total + nread) } := by
        simp [step, hpc, hsz, hrd, hp]
      rw [e]
      refine ⟨Or.inl (Or.inr (Or.inl hpc)), fun _ => recvInv_intro
        (t ++ [Event.libssh2_channel_read s.channel (toSizeT (readAmount N s.got)) nread mem,
               Event.write 1 (mem.take (toSizeT nread))]) hsz ?_ ?_ ?_ ?_ ?_ ?_ ?_⟩
      · simp only [ht, List.append_assoc]
      · simp only [delivered_append, delivered_cons, delivered_nil, readCount, hp, if_true]
        rw [wrap64_eq_self (by omega) (by omega)]
        omega
      · simp only [delivered_append, delivered_cons, delivered_nil, readCount, hp, if_true]
        rw [wrap64_eq_self (by omega) (by omega)]
        omega
      · simp only [delivered_append, delivered_cons, delivered_nil, readCount, hp, if_true]
        omega
      · simp only [delivered_append, delivered_cons, delivered_nil, readCount, hp, if_true]
        omega
      · exact eachAfter_append hreq
          (eachAfter_cons hreq1 (eachAfter_cons trivial (eachAfter_nil _)))
      · simp only [delivered_append, delivered_cons, delivered_nil, readCount, hp, if_true,
          List.filter_append, List.length_append]
        simp [isDataRead, hp]
        omega
    · by_cases hq : nread = K.LIBSSH2_ERROR_EAGAIN ∧ s.got < N
      · have e : step K cfg E auth_pw s =
            { s with hist := (waitsocket K E (s.hist ++
                      [Event.libssh2_channel_read s.channel (toSizeT (readAmount N s.got))
                        nread mem]) s.sock s.session).2,
                     spin := wrap32 (s.spin + 1), pc := PC.L241 } := by
          simp only [step, hpc, hsz, hrd]
          rw [if_neg hp, if_pos hq]
        rw [e, waitsocket_events]
        refine ⟨Or.inl (Or.inl rfl), fun _ => recvInv_intro
          (t ++ (Event.libssh2_channel_read s.channel (toSizeT (readAmount N s.got)) nread mem
            :: waitEvents K E (s.hist ++ [Event.libssh2_channel_read s.channel
                (toSizeT (readAmount N s.got)) nread mem]) s.sock s.session))
          hsz ?_ ?_ ?_ ?_ ?_ ?_ ?_⟩
        all_goals simp only [waitEvents]
        · simp only [ht, List.append_assoc, List.singleton_append]
        · simp only [delivered_append, delivered_cons, delivered_nil, readCount, hp, if_false]
          omega
        · simp only [delivered_append, delivered_cons, delivered_nil, readCount, hp, if_false]
          omega
        · simp only [delivered_append, delivered_cons, delivered_nil, readCount, hp, if_false]
          omega
        · simp only [delivered_append, delivered_cons, delivered_nil, readCount, hp, if_false]
          omega
        · exact eachAfter_append hreq
            (eachAfter_cons hreq1 (eachAfter_cons trivial
              (eachAfter_cons trivial (eachAfter_nil _))))
        · simp only [delivered_append, delivered_cons, delivered_nil, readCount, hp, if_false,
            List.filter_append, List.length_append]
          simp [isDataRead, hp]
          omega
      · have e : step K cfg E auth_pw s =
            { s with hist := s.hist ++
                      [Event.libssh2_channel_read s.channel (toSizeT (readAmount N s.got))
                        nread mem],
                     pc := PC.L272 } := by
          simp only [step, hpc, hsz, hrd]
          rw [if_neg hp, if_neg hq]
        rw [e]
        refine ⟨Or.inl (Or.inr (Or.inr rfl)), fun _ => recvInv_intro
          (t ++ [Event.libssh2_channel_read s.channel (toSizeT (readAmount N s.got)) nread mem])
          hsz ?_ ?_ ?_ ?_ ?_ ?_ ?_⟩
        · simp only [ht, List.append_assoc]
        · simp only [delivered_append, delivered_cons, delivered_nil, readCount, hp, if_false]
          omega
        · simp only [delivered_append, delivered_cons, delivered_nil, readCount, hp, if_false]
          omega
        · simp only [delivered_append, delivered_cons, delivered_nil, readCount, hp, if_false]
          omega
        · simp only [delivered_append, delivered_cons, delivered_nil, readCount, hp, if_false]
          omega
        · exact eachAfter_append hreq (eachAfter_cons hreq1 (eachAfter_nil _))
        · simp only [delivered_append, delivered_cons, delivered_nil, readCount, hp, if_false,
            List.filter_append, List.length_append]
          simp [isDataRead, hp]
          omega
  · -- line 272
    have hnext : (step K cfg E auth_pw s).pc = PC.L286 := by
      simp only [step, hpc]
      split <;> rfl
    refine ⟨Or.inr (Or.inl hnext), ?_⟩
    rintro (h | h | h) <;> rw [hnext] at h <;> cases h
  · -- line 286
    have hnext : (step K cfg E auth_pw s).pc = PC.exited 0 := by
      simp only [step, hpc, shutdownLabel]
    refine ⟨Or.inr (Or.inr ⟨0, hnext⟩), ?_⟩
    rintro (h | h | h) <;> rw [hnext] at h <;> cases h
  · -- returned
    have e : step K cfg E auth_pw s = s := by
      simp only [step, hpc]
    rw [e]
    refine ⟨Or.inr (Or.inr ⟨rc, hpc⟩), ?_⟩
    rintro (h | h | h) <;> rw [hpc] at h <;> cases h

theorem since_eq {h0 t : List Event} {s : State} (h : s.hist = h0 ++ t) : since h0 s = t := by
  simp [since, h]

theorem recvInv_run (K : Libssh2H) (cfg : Config) (E : Env) (auth_pw : Bool)
    (s : State) (N : Int) (hN0 : 0 ≤ N) (hN1 : N < 2 ^ 63)
    (hE : ∀ (t : List Event) (amount : Nat), delivered t + amount ≤ N →
      (E.libssh2_channel_read (s.hist ++ t) amount).1 ≤ amount)
    (hs : RecvEntry s N) (n : Nat) :
    FromRecvLoop (run K cfg E auth_pw n s) ∧
      (InRecvLoop (run K cfg E auth_pw n s) → RecvInv s.hist N (run K cfg E auth_pw n s)) := by
  apply run_invariant K cfg E auth_pw
    (fun x => FromRecvLoop x ∧ (InRecvLoop x → RecvInv s.hist N x))
    (recvInv_step K cfg E auth_pw s.hist N hN1 hE)
  obtain ⟨hpc, hgot, htot, _, hsz⟩ := hs
  refine ⟨Or.inl (Or.inl hpc), fun _ => recvInv_intro [] hsz ?_ ?_ ?_ ?_ ?_ ?_ ?_⟩
  · simp
  · simpa [delivered] using hgot
  · simpa [delivered] using htot
  · simp [delivered]
  · simpa [delivered] using hN0
  · exact eachAfter_nil _
  · simp [delivered]

/-- C9.  From the entry of the receive loop with declared size `0 ≤ N` (a
64-bit value) and a `libssh2_channel_read` whose result never exceeds the
amount requested, at every point of the loop: `0 ≤ got ≤ N`, `got = total`,
`got` is the sum of the positive read results so far, every read issued so far
requested `min(sizeof(mem), N - got)` bytes for the `got` of that moment, hence
at most `sizeof(mem)`, and the number of reads that returned data is at most
`N`. -/
theorem recv_request_bound (K : Libssh2H) (cfg : Config) (E : Env) (auth_pw : Bool)
    (s : State) (N : Int) (n : Nat) (hN0 : 0 ≤ N) (hN1 : N < 2 ^ 63)
    (hE : ∀ t amount, (E.libssh2_channel_read (s.hist ++ t) amount).1 ≤ amount)
    (hs : RecvEntry s N) (hin : InRecvLoop (run K cfg E auth_pw n s)) :
    (run K cfg E auth_pw n s).hist = s.hist ++ since s.hist (run K cfg E auth_pw n s) ∧
    0 ≤ (run K cfg E auth_pw n s).got ∧
    (run K cfg E auth_pw n s).got ≤ N ∧
    (run K cfg E auth_pw n s).got = (run K cfg E auth_pw n s).total ∧
    (run K cfg E auth_pw n s).got = delivered (since s.hist (run K cfg E auth_pw n s)) ∧
    (∀ pre post channel amount nread mem,
      since s.hist (run K cfg E auth_pw n s) =
        pre ++ Event.libssh2_channel_read channel amount nread mem :: post →
      (amount : Int) = min sizeof_mem (N - delivered pre) ∧ (amount : Int) ≤ sizeof_mem) ∧
    (((since s.hist (run K cfg E auth_pw n s)).filter isDataRead).length : Int) ≤ N := by
  obtain ⟨_, t, ht, hgot, htot, hd0, hdN, hreq, hcnt⟩ :=
    (recvInv_run K cfg E auth_pw s N hN0 hN1 (fun t a _ => hE t a) hs n).2 hin
  rw [since_eq ht]
  refine ⟨ht, by omega, by omega, by omega, hgot, ?_, by omega⟩
  intro pre post channel amount nread mem hsplit
  have h := hreq pre _ post hsplit
  simp only [RequestOK] at h
  exact ⟨h, by rw [h]; exact min_le_left _ _⟩

/-! ## The receive loop against a faithful remote -/

theorem faithful_le_amount {K : Libssh2H} {E : Env} {h0 : List Event} {content : List Byte}
    (hK : K.LIBSSH2_ERROR_EAGAIN ≤ 0) (hF : FaithfulRemote K E h0 content)
    (t : List Event) (amount : Nat) (hle : delivered t + amount ≤ content.length) :
    (E.libssh2_channel_read (h0 ++ t) amount).1 ≤ amount := by
  obtain ⟨h1, h2⟩ := hF t amount hle
  rcases Nat.eq_zero_or_pos amount with h | h
  · have := h1 h
    omega
  · rcases h2 h with h3 | ⟨_, h3, _⟩
    · omega
    · exact h3

theorem writtenInv_step (K : Libssh2H) (cfg : Config) (E : Env) (auth_pw : Bool)
    (h0 : List Event) (N : Int) (content : List Byte) (hN : N < 2 ^ 63)
    (hlen : (content.length : Int) = N)
    (hK : K.LIBSSH2_ERROR_EAGAIN ≤ 0) (hF : FaithfulRemote K E h0 content)
    (s : State)
    (hs : (FromRecvLoop s ∧ (InRecvLoop s → RecvInv h0 N s)) ∧
      (InRecvLoop s → WrittenInv h0 N content s)) :
    (FromRecvLoop (step K cfg E auth_pw s) ∧
      (InRecvLoop (step K cfg E auth_pw s) → RecvInv h0 N (step K cfg E auth_pw s))) ∧
    (InRecvLoop (step K cfg E auth_pw s) →
      WrittenInv h0 N content (step K cfg E auth_pw s)) := by
  obtain ⟨hR, hW⟩ := hs
  refine ⟨recvInv_step K cfg E auth_pw h0 N hN
    (fun t a h => faithful_le_amount hK hF t a (hlen ▸ h)) s hR, ?_⟩
  obtain ⟨hpc, hinv⟩ := hR
  rcases hpc with (hpc | hpc | hpc) | hpc | ⟨rc, hpc⟩
  · -- line 241
    obtain ⟨hsz, t', ht', hgot, htot, hd0, hdN, hreq, hcnt⟩ := hinv (Or.inl hpc)
    obtain ⟨t, ht, hw, _⟩ := hW (Or.inl hpc)
    obtain rfl : t' = t := List.append_cancel_left (ht'.symm.trans ht)
    by_cases hc : s.got < s.st_size
    · have e : step K cfg E auth_pw s = { s with pc := PC.L246 } := by
        simp [step, hpc, hc]
      rw [e]
      exact fun _ => ⟨t', ht, hw, fun h => by cases h⟩
    · have e : step K cfg E auth_pw s = { s with pc := PC.L272 } := by
        simp [step, hpc, hc]
      rw [e]
      exact fun _ => ⟨t', ht, hw, fun _ => by omega⟩
  · -- line 246
    obtain ⟨hsz, t', ht', hgot, htot, hd0, hdN, hreq, hcnt⟩ := hinv (Or.inr (Or.inl hpc))
    obtain ⟨t, ht, hw, _⟩ := hW (Or.inr (Or.inl hpc))
    obtain rfl : t' = t := List.append_cancel_left (ht'.symm.trans ht)
    have ha := @readAmount_eq N s.got (by omega) (by omega) hN
    have ha0 : 0 ≤ readAmount N s.got := by
      rw [ha]; simp only [sizeof_mem]; omega
    have ha1 : readAmount N s.got ≤ N - s.got := by
      rw [ha]; exact min_le_right _ _
    have ha2 : readAmount N s.got ≤ 24576 := by
      have : readAmount N s.got ≤ sizeof_mem := by rw [ha]; exact min_le_left _ _
      simpa [sizeof_mem] using this
    have ha3 : s.got < N → 0 < readAmount N s.got := by
      intro h
      rw [ha]
      simp only [sizeof_mem, lt_min_iff]
      omega
    have hts : (toSizeT (readAmount N s.got) : Int) = readAmount N s.got :=
      toSizeT_of_nonneg ha0 (by omega)
    obtain ⟨hf0, hf1⟩ := hF t' (toSizeT (readAmount N s.got)) (by omega)
    rw [← ht] at hf0 hf1
    rcases hrd : E.libssh2_channel_read s.hist (toSizeT (readAmount N s.got)) with ⟨nread, mem⟩
    rw [hrd] at hf0 hf1
    simp only at hf0 hf1
    by_cases hp : nread > 0
    · have e : step K cfg E auth_pw s =
          { s with hist := s.hist ++
                    [Event.libssh2_channel_read s.channel (toSizeT (readAmount N s.got))
                      nread mem, Event.write 1 (mem.take (toSizeT nread))],
                   got := wrap64 (s.got + nread), total := wrap64 (s.total + nread) } := by
        simp [step, hpc, hsz, hrd, hp]
      rw [e]
      have hpos : 0 < toSizeT (readAmount N s.got) := by
        rcases Nat.eq_zero_or_pos (toSizeT (readAmount N s.got)) with h | h
        · have := hf0 h
          omega
        · exact h
      obtain ⟨hk1, hk2, hdata⟩ : 1 ≤ nread ∧ nread ≤ (toSizeT (readAmount N s.got) : Int) ∧
          mem.take nread.toNat = (content.drop (delivered t').toNat).take nread.toNat := by
        rcases hf1 hpos with h | h
        · omega
        · exact h
      have hsz' : toSizeT nread = nread.toNat := by
        simp only [toSizeT]
        congr 1
        norm_num
        omega
      refine fun _ => ⟨t' ++ [Event.libssh2_channel_read s.channel
          (toSizeT (readAmount N s.got)) nread mem,
          Event.write 1 (mem.take (toSizeT nread))], ?_, ?_, ?_⟩
      · simp only [ht, List.append_assoc]
      · simp only [written_append, written, writeBytes, if_true, List.nil_append,
          List.append_nil, delivered_append, delivered_cons, delivered_nil, readCount, hp,
          add_zero, hw, hsz', hdata]
        rw [Int.toNat_add hd0 (by omega), List.take_add]
      · intro h
        rw [hpc] at h
        cases h
    · by_cases hq : nread = K.LIBSSH2_ERROR_EAGAIN ∧ s.got < N
      · have e : step K cfg E auth_pw s =
            { s with hist := (waitsocket K E (s.hist ++
                      [Event.libssh2_channel_read s.channel (toSizeT (readAmount N s.got))
                        nread mem]) s.sock s.session).2,
                     spin := wrap32 (s.spin + 1), pc := PC.L241 } := by
          simp only [step, hpc, hsz, hrd]
          rw [if_neg hp, if_pos hq]
        rw [e, waitsocket_events]
        refine fun _ => ⟨t' ++ (Event.libssh2_channel_read s.channel
            (toSizeT (readAmount N s.got)) nread mem
            :: waitEvents K E (s.hist ++ [Event.libssh2_channel_read s.channel
                (toSizeT (readAmount N s.got)) nread mem]) s.sock s.session), ?_, ?_, ?_⟩
        · simp only [ht, List.append_assoc, List.singleton_append]
        · simp only [waitEvents, written_append, written, writeBytes, List.nil_append,
            List.append_nil, delivered_append, delivered_cons, delivered_nil, readCount, hp,
            if_false, add_zero, hw]
        · intro h
          cases h
      · have e : step K cfg E auth_pw s =
            { s with hist := s.hist ++
                      [Event.libssh2_channel_read s.channel (toSizeT (readAmount N s.got))
                        nread mem],
                     pc := PC.L272 } := by
          simp only [step, hpc, hsz, hrd]
          rw [if_neg hp, if_neg hq]
        rw [e]
        refine fun _ => ⟨t' ++ [Event.libssh2_channel_read s.channel
            (toSizeT (readAmount N s.got)) nread mem], ?_, ?_, ?_⟩
        · simp only [ht, List.append_assoc]
        · simp only [written_append, written, writeBytes, List.nil_append,
            List.append_nil, delivered_append, delivered_cons, delivered_nil, readCount, hp,
            if_false, add_zero, hw]
        · intro _
          simp only [delivered_append, delivered_cons, delivered_nil, readCount, hp,
            if_false, add_zero]
          by_contra hne
          have hlt : s.got < N := by omega
          have hpos : 0 < toSizeT (readAmount N s.got) := by
            have := ha3 hlt
            omega
          rcases hf1 hpos with h | ⟨h, _⟩
          · exact hq ⟨h, hlt⟩
          · omega
  · intro h
    have hnext : (step K cfg E auth_pw s).pc = PC.L286 := by
      simp only [step, hpc]
      split <;> rfl
    rcases h with h | h | h <;> rw [hnext] at h <;> cases h
  · intro h
    have hnext : (step K cfg E auth_pw s).pc = PC.exited 0 := by
      simp only [step, hpc, shutdownLabel]
    rcases h with h | h | h <;> rw [hnext] at h <;> cases h
  · intro h
    have e : step K cfg E auth_pw s = s := by
      simp only [step, hpc]
    rw [e] at h
    rcases h with h | h | h <;> rw [hpc] at h <;> cases h

/-- C1.  For every file `content` (its length the declared size, a 64-bit
value) and every channel that serves it faithfully, however it fragments the
delivery and wherever it answers `LIBSSH2_ERROR_EAGAIN`: if the receive loop
entered at line 241 is left (line 272 is reached), then `got = total` is the
declared size and the bytes passed to `write(1, ...)`, in call order, are
exactly `content`. -/
theorem recv_round_trip (K : Libssh2H) (cfg : Config) (E : Env) (auth_pw : Bool)
    (s : State) (content : List Byte) (n : Nat)
    (hK : K.LIBSSH2_ERROR_EAGAIN ≤ 0)
    (hN : (content.length : Int) < 2 ^ 63)
    (hs : RecvEntry s content.length)
    (hF : FaithfulRemote K E s.hist content)
    (hdone : (run K cfg E auth_pw n s).pc = PC.L272) :
    (run K cfg E auth_pw n s).got = content.length ∧
    (run K cfg E auth_pw n s).total = content.length ∧
    written (since s.hist (run K cfg E auth_pw n s)) = content := by
  have hinv := run_invariant K cfg E auth_pw
    (fun x => (FromRecvLoop x ∧ (InRecvLoop x → RecvInv s.hist content.length x)) ∧
      (InRecvLoop x → WrittenInv s.hist content.length content x))
    (writtenInv_step K cfg E auth_pw s.hist content.length content hN rfl hK hF) s
    (by
      obtain ⟨hpc, hgot, htot, _, hsz⟩ := hs
      refine ⟨⟨Or.inl (Or.inl hpc), fun _ => recvInv_intro [] hsz ?_ ?_ ?_ ?_ ?_ ?_ ?_⟩,
        fun _ => ⟨[], ?_, ?_, ?_⟩⟩
      · simp
      · simpa [delivered] using hgot
      · simpa [delivered] using htot
      · simp [delivered]
      · simp [delivered]
      · exact eachAfter_nil _
      · simp [delivered]
      · simp
      · simp [written, delivered]
      · intro h
        rw [hpc] at h
        cases h) n
  obtain ⟨⟨_, hR⟩, hW⟩ := hinv
  have hin : InRecvLoop (run K cfg E auth_pw n s) := Or.inr (Or.inr hdone)
  obtain ⟨_, t', ht', hgot, htot, _, _, _, _⟩ := hR hin
  obtain ⟨t, ht, hw, hfin⟩ := hW hin
  obtain rfl : t' = t := List.append_cancel_left (ht'.symm.trans ht)
  have hd := hfin hdone
  rw [since_eq ht]
  refine ⟨by omega, by omega, ?_⟩
  rw [hw, hd]
  simp

/-! ## Concrete runs of the receive loop -/

theorem delivered_nonneg (t : List Event) : 0 ≤ delivered t := by
  induction t with
  | nil => simp [delivered]
  | cons e t ih =>
    rw [delivered_cons]
    have : 0 ≤ readCount e := by
      cases e <;> simp only [readCount] <;> try exact le_refl 0
      split
      · omega
      · exact le_refl 0
    omega

theorem fakeRead_le (content : List Byte) (chunk : Nat) (stutter : Bool) (h : List Event)
    (amount : Nat) : (fakeRead content chunk stutter h amount).1 ≤ amount := by
  simp only [fakeRead]
  split
  · show (-37 : Int) ≤ amount
    omega
  · simp only [List.length_take, List.length_drop]
    omega

theorem fakeRead_faithful (declared : Int) (content : List Byte) (chunk : Nat)
    (stutter : Bool) (hc : 1 ≤ chunk) :
    FaithfulRemote libssh2_h (fakeEnv declared content chunk stutter) [] content := by
  intro t amount hle
  have hd := delivered_nonneg t
  simp only [fakeEnv, List.nil_append, fakeRead, libssh2_h]
  constructor
  · intro h0
    subst h0
    simp
  · intro hpos
    split
    · exact Or.inl rfl
    · right
      simp only [List.length_take, List.length_drop, Int.toNat_ofNat]
      have e : min (min amount chunk) (content.length - (delivered t).toNat) =
          min amount chunk := by omega
      rw [e]
      refine ⟨by omega, by omega, ?_⟩
      rw [List.take_take]
      simp

set_option maxRecDepth 100000 in
/-- Witness for C1: a three-byte file served one byte at a time, with an
`EAGAIN` after each delivery. -/
theorem recv_round_trip_witness :
    (run libssh2_h posix (fakeEnv 3 [1, 2, 3] 1 true) true 9 (recvStart 3)).got =
      ([1, 2, 3] : List Byte).length ∧
    (run libssh2_h posix (fakeEnv 3 [1, 2, 3] 1 true) true 9 (recvStart 3)).total =
      ([1, 2, 3] : List Byte).length ∧
    written (since (recvStart 3).hist
      (run libssh2_h posix (fakeEnv 3 [1, 2, 3] 1 true) true 9 (recvStart 3))) = [1, 2, 3] :=
  recv_round_trip libssh2_h posix (fakeEnv 3 [1, 2, 3] 1 true) true (recvStart 3) [1, 2, 3] 9
    (by decide) (by decide) ⟨rfl, rfl, rfl, rfl, rfl⟩
    (fakeRead_faithful 3 [1, 2, 3] 1 true (le_refl 1)) (by decide)

set_option maxRecDepth 100000 in
/-- Witness for C9: the same run, looked at after five steps. -/
theorem recv_request_bound_witness :
    (run libssh2_h posix (fakeEnv 3 [1, 2, 3] 1 true) true 5 (recvStart 3)).got = 2 ∧
    0 ≤ (run libssh2_h posix (fakeEnv 3 [1, 2, 3] 1 true) true 5 (recvStart 3)).got ∧
    (run libssh2_h posix (fakeEnv 3 [1, 2, 3] 1 true) true 5 (recvStart 3)).got ≤ 3 :=
  ⟨by decide,
   (recv_request_bound libssh2_h posix (fakeEnv 3 [1, 2, 3] 1 true) true (recvStart 3) 3 5
      (by decide) (by decide) (fun t amount => fakeRead_le [1, 2, 3] 1 true _ amount)
      ⟨rfl, rfl, rfl, rfl, rfl⟩ (Or.inr (Or.inl (by decide)))).2.1,
   (recv_request_bound libssh2_h posix (fakeEnv 3 [1, 2, 3] 1 true) true (recvStart 3) 3 5
      (by decide) (by decide) (fun t amount => fakeRead_le [1, 2, 3] 1 true _ amount)
      ⟨rfl, rfl, rfl, rfl, rfl⟩ (Or.inr (Or.inl (by decide)))).2.2.1⟩

/-- Witness for C8: a channel that fills every request with zero bytes. -/
theorem recv_one_buffer_witness :
    ∃ mem mem' : List Byte,
      (run libssh2_h posix (zeroFileEnv 24576) true 3 (recvStart 24576)).pc = PC.L272 ∧
      (run libssh2_h posix (zeroFileEnv 24576) true 3 (recvStart 24576)).got = 24576 ∧
      (run libssh2_h posix (zeroFileEnv 24576) true 3 (recvStart 24576)).total = 24576 ∧
      (run libssh2_h posix (zeroFileEnv 24576) true 3 (recvStart 24576)).spin = 0 ∧
      (run libssh2_h posix (zeroFileEnv 24576) true 3 (recvStart 24576)).hist =
        (recvStart 24576).hist ++
          [Event.libssh2_channel_read (recvStart 24576).channel 24576 24576 mem,
           Event.write 1 (mem.take 24576),
           Event.libssh2_channel_read (recvStart 24576).channel 0 0 mem'] ∧
      (mem.take 24576).length = 24576 ∧
      (∀ e ∈ since (recvStart 24576).hist
          (run libssh2_h posix (zeroFileEnv 24576) true 3 (recvStart 24576)),
        isWait e = false) ∧
      ((since (recvStart 24576).hist
          (run libssh2_h posix (zeroFileEnv 24576) true 3 (recvStart 24576))).filter
        isDataRead).length = 1 :=
  recv_one_buffer libssh2_h posix (zeroFileEnv 24576) true (recvStart 24576)
    (fun _ amount => ⟨rfl, by simp [zeroFileEnv]⟩) ⟨rfl, rfl, rfl, rfl, rfl⟩

/-! ## Histories, continued -/

theorem eachAfter_nil_iff (P : List Event → Event → Prop) : EachAfter P [] ↔ True :=
  ⟨fun _ => trivial, fun _ => eachAfter_nil P⟩

theorem eachAfter_append_iff (P : List Event → Event → Prop) (t u : List Event) :
    EachAfter P (t ++ u) ↔ EachAfter P t ∧ EachAfter (fun pre e => P (t ++ pre) e) u := by
  constructor
  · intro h
    constructor
    · intro pre e post ht
      exact h pre e (post ++ u) (by simp [ht])
    · intro pre e post hu
      exact h (t ++ pre) e post (by simp [hu])
  · rintro ⟨ht, hu⟩
    exact eachAfter_append ht hu

theorem eachAfter_cons_iff (Q : List Event → Event → Prop) (e : Event) (u : List Event) :
    EachAfter Q (e :: u) ↔ Q [] e ∧ EachAfter (fun pre x => Q (e :: pre) x) u := by
  constructor
  · intro h
    constructor
    · exact h [] e u rfl
    · intro pre x post hu
      exact h (e :: pre) x post (by simp [hu])
  · rintro ⟨he, hu⟩
    exact eachAfter_cons he hu

theorem mem_fingerprintEvents {fp : List Byte} {e : Event} (h : e ∈ fingerprintEvents fp) :
    ∃ b, e = Event.fprintf (Diag.fingerprint_byte b) := by
  simp only [fingerprintEvents, List.mem_map] at h
  obtain ⟨i, _, rfl⟩ := h
  exact ⟨_, rfl⟩

theorem any_fingerprintEvents (fp : List Byte) (p : Event → Bool)
    (hp : ∀ b, p (Event.fprintf (Diag.fingerprint_byte b)) = false) :
    (fingerprintEvents fp).any p = false := by
  rw [List.any_eq_false]
  intro e he
  obtain ⟨b, rfl⟩ := mem_fingerprintEvents he
  simp [hp b]

/-! ## Order of the phases -/

theorem eachAfter_snoc {P : List Event → Event → Prop} {t : List Event} {e : Event}
    (ht : EachAfter P t) (he : P t e) : EachAfter P (t ++ [e]) :=
  eachAfter_append ht (eachAfter_cons (by simpa using he) (eachAfter_nil _))

theorem eachAfter_append_untriggered {B : Event → Bool} {C : List Event → Prop}
    {t u : List Event} (ht : EachAfter (fun pre e => B e = true → C pre) t)
    (hu : ∀ e ∈ u, B e = false) :
    EachAfter (fun pre e => B e = true → C pre) (t ++ u) := by
  apply eachAfter_append ht
  intro pre e post h hB
  have he : e ∈ u := by
    rw [h]
    simp
  rw [hu e he] at hB
  cases hB

theorem shutdownLabel_hist (K : Libssh2H) (cfg : Config) (s : State) :
    (shutdownLabel K cfg s).hist = s.hist ++ cleanupEvents K cfg s := by
  simp only [shutdownLabel, cleanupEvents, sessionCleanup, socketCleanup, wsaCleanup]
  split_ifs <;> simp

theorem shutdownLabel_pc (K : Libssh2H) (cfg : Config) (s : State) :
    (shutdownLabel K cfg s).pc = PC.exited 0 := rfl

theorem phaseNeutral_cleanupEvents (K : Libssh2H) (cfg : Config) (s : State) :
    (cleanupEvents K cfg s).all phaseNeutral = true := by
  simp only [cleanupEvents, sessionCleanup, socketCleanup, wsaCleanup]
  split_ifs <;> rfl

theorem phaseNeutral_fingerprintEvents (fp : List Byte) :
    (fingerprintEvents fp).all phaseNeutral = true := by
  rw [List.all_eq_true]
  intro e he
  obtain ⟨b, rfl⟩ := mem_fingerprintEvents he
  rfl

theorem phaseNeutral_waitEvents (K : Libssh2H) (E : Env) (h : List Event) (fd : Int) (x : Nat) :
    (waitEvents K E h fd x).all phaseNeutral = true := rfl

theorem any_false_of_neutral {u : List Event} {p : Event → Bool}
    (hu : u.all phaseNeutral = true) (hp : ∀ e, p e = true → phaseNeutral e = false) :
    u.any p = false := by
  rw [List.any_eq_false]
  rw [List.all_eq_true] at hu
  intro e he hpe
  have := hu e he
  rw [hp e hpe] at this
  cases this

theorem phaseInv_neutral {K : Libssh2H} {h : List Event} {p : Nat} (u : List Event) (p' : Nat)
    (hI : PhaseInv K h p) (hu : u.all phaseNeutral = true)
    (hp : p' = p ∨ p' = 4 ∨ (p = 0 ∧ p' = 1)) : PhaseInv K (h ++ u) p' := by
  obtain ⟨h1, h2, h3, h4, h5, h6, h7, h8, h9, h10, h11, h12⟩ := hI
  have n1 : u.any isHandshake = false :=
    any_false_of_neutral hu (fun e he => by simp [phaseNeutral, he])
  have n2 : u.any isAuth = false :=
    any_false_of_neutral hu (fun e he => by simp [phaseNeutral, he])
  have n3 : u.any isChannelOp = false :=
    any_false_of_neutral hu (fun e he => by simp [phaseNeutral, he])
  have n4 : u.any (isHandshakeFail K) = false :=
    any_false_of_neutral hu (fun e he => by
      cases e <;> simp [isHandshakeFail] at he <;> rfl)
  have n5 : u.any (isAuthFail K) = false :=
    any_false_of_neutral hu (fun e he => by
      cases e <;> simp [isAuthFail] at he <;> rfl)
  have n6 : u.any isHandshakeOk = false :=
    any_false_of_neutral hu (fun e he => by
      cases e <;> simp [isHandshakeOk] at he <;> rfl)
  have n7 : u.any isAuthOk = false :=
    any_false_of_neutral hu (fun e he => by
      cases e <;> simp [isAuthOk] at he <;> rfl)
  rw [List.any_eq_false] at n1 n2 n3
  refine ⟨eachAfter_append_untriggered h1 (fun e he => by simpa using n2 e he),
    eachAfter_append_untriggered h2 (fun e he => by simpa using n3 e he),
    eachAfter_append_untriggered h3 (fun e he => by simpa using n1 e he),
    eachAfter_append_untriggered h4 (fun e he => by simpa using n2 e he), ?_⟩
  have m1 : u.any isHandshake = false := List.any_eq_false.mpr n1
  have m2 : u.any isAuth = false := List.any_eq_false.mpr n2
  have m3 : u.any isChannelOp = false := List.any_eq_false.mpr n3
  simp only [List.any_append, m1, m2, m3, n4, n5, n6, n7, Bool.or_false]
  refine ⟨?_, ?_, ?_, ?_, ?_, ?_, h11, h12⟩
  · intro h; exact h5 (by omega)
  · intro h; exact h6 (by omega)
  · intro h; exact h7 (by omega)
  · intro h; exact h8 (by omega)
  · intro h; exact h9 (by omega)
  · intro h; exact h10 (by omega)

theorem phaseInv_handshake {K : Libssh2H} {h : List Event} (x : Nat) (fd rc : Int) (p' : Nat)
    (hI : PhaseInv K h 1)
    (hp : (rc = K.LIBSSH2_ERROR_EAGAIN ∧ p' = 1) ∨
      (rc ≠ K.LIBSSH2_ERROR_EAGAIN ∧ rc ≠ 0 ∧ p' = 4) ∨
      (rc ≠ K.LIBSSH2_ERROR_EAGAIN ∧ rc = 0 ∧ p' = 2)) :
    PhaseInv K (h ++ [Event.libssh2_session_handshake x fd rc]) p' := by
  obtain ⟨h1, h2, h3, h4, h5, h6, h7, h8, h9, h10, h11, h12⟩ := hI
  have a6 := h6 (le_refl 1)
  have a7 := h7 (by omega)
  obtain ⟨a10, b10⟩ := h10 (by omega)
  refine ⟨eachAfter_append_untriggered h1 (by simp [isAuth]),
    eachAfter_append_untriggered h2 (by simp [isChannelOp, isScpRecv, isChannelRead]),
    eachAfter_snoc h3 (fun _ => a6),
    eachAfter_append_untriggered h4 (by simp [isAuth]), ?_⟩
  simp only [List.any_append, List.any_cons, List.any_nil, Bool.or_false, a6, a7, a10, b10,
    isHandshake, isAuth, isChannelOp, isScpRecv, isChannelRead, isHandshakeOk,
    isHandshakeFail, isAuthFail, Bool.false_or, Bool.or_self]
  rcases hp with ⟨hrc, rfl⟩ | ⟨hrc, hrc0, rfl⟩ | ⟨hrc, hrc0, rfl⟩
  · simp [hrc]
  · simp [hrc, hrc0]
  · simp [hrc, hrc0]

theorem phaseInv_password {K : Libssh2H} {h : List Event} (x : Nat) (rc : Int)
    (p' : Nat) (hI : PhaseInv K h 2)
    (hp : (rc = K.LIBSSH2_ERROR_EAGAIN ∧ p' = 2) ∨
      (rc ≠ K.LIBSSH2_ERROR_EAGAIN ∧ rc ≠ 0 ∧ p' = 4) ∨
      (rc ≠ K.LIBSSH2_ERROR_EAGAIN ∧ rc = 0 ∧ p' = 3)) :
    PhaseInv K (h ++ [Event.libssh2_userauth_password x rc]) p' := by
  obtain ⟨h1, h2, h3, h4, h5, h6, h7, h8, h9, h10, h11, h12⟩ := hI
  have a7 := h7 (le_refl 2)
  have a8 := h8 (Or.inl rfl)
  obtain ⟨a10, b10⟩ := h10 (by omega)
  have a7' : h.any isScpRecv = false := by
    rw [List.any_eq_false] at a7 ⊢
    intro y hy hs
    exact a7 y hy (by simp [isChannelOp, hs])
  refine ⟨eachAfter_snoc h1 (fun _ => a8),
    eachAfter_append_untriggered h2 (by simp [isChannelOp, isScpRecv, isChannelRead]),
    eachAfter_append_untriggered h3 (by simp [isHandshake]),
    eachAfter_snoc h4 (fun _ => a7'), ?_⟩
  simp only [List.any_append, List.any_cons, List.any_nil, Bool.or_false, a7, a8, a10, b10,
    isHandshake, isAuth, isChannelOp, isScpRecv, isChannelRead, isHandshakeOk, isAuthOk,
    isHandshakeFail, isAuthFail, Bool.false_or, Bool.or_self]
  rcases hp with ⟨hrc, rfl⟩ | ⟨hrc, hrc0, rfl⟩ | ⟨hrc, hrc0, rfl⟩
  · simp [hrc]
  · simp [hrc, hrc0]
  · simp [hrc, hrc0]

theorem phaseInv_publickey {K : Libssh2H} {h : List Event} (x : Nat) (rc : Int)
    (p' : Nat) (hI : PhaseInv K h 2)
    (hp : (rc = K.LIBSSH2_ERROR_EAGAIN ∧ p' = 2) ∨
      (rc ≠ K.LIBSSH2_ERROR_EAGAIN ∧ rc ≠ 0 ∧ p' = 4) ∨
      (rc ≠ K.LIBSSH2_ERROR_EAGAIN ∧ rc = 0 ∧ p' = 3)) :
    PhaseInv K (h ++ [Event.libssh2_userauth_publickey_fromfile x rc]) p' := by
  obtain ⟨h1, h2, h3, h4, h5, h6, h7, h8, h9, h10, h11, h12⟩ := hI
  have a7 := h7 (le_refl 2)
  have a8 := h8 (Or.inl rfl)
  obtain ⟨a10, b10⟩ := h10 (by omega)
  have a7' : h.any isScpRecv = false := by
    rw [List.any_eq_false] at a7 ⊢
    intro y hy hs
    exact a7 y hy (by simp [isChannelOp, hs])
  refine ⟨eachAfter_snoc h1 (fun _ => a8),
    eachAfter_append_untriggered h2 (by simp [isChannelOp, isScpRecv, isChannelRead]),
    eachAfter_append_untriggered h3 (by simp [isHandshake]),
    eachAfter_snoc h4 (fun _ => a7'), ?_⟩
  simp only [List.any_append, List.any_cons, List.any_nil, Bool.or_false, a7, a8, a10, b10,
    isHandshake, isAuth, isChannelOp, isScpRecv, isChannelRead, isHandshakeOk, isAuthOk,
    isHandshakeFail, isAuthFail, Bool.false_or, Bool.or_self]
  rcases hp with ⟨hrc, rfl⟩ | ⟨hrc, hrc0, rfl⟩ | ⟨hrc, hrc0, rfl⟩
  · simp [hrc]
  · simp [hrc, hrc0]
  · simp [hrc, hrc0]

theorem phaseInv_channelOp {K : Libssh2H} {h : List Event} (e : Event)
    (hI : PhaseInv K h 3) (he : isChannelOp e = true) :
    PhaseInv K (h ++ [e]) 3 := by
  obtain ⟨h1, h2, h3, h4, h5, h6, h7, h8, h9, h10, h11, h12⟩ := hI
  have a8 := h8 (Or.inr rfl)
  have a9 := h9 rfl
  obtain ⟨a10, b10⟩ := h10 (le_refl 3)
  have e1 : isAuth e = false := by
    cases e <;> simp [isChannelOp, isScpRecv, isChannelRead] at he <;> rfl
  have e2 : isHandshake e = false := by
    cases e <;> simp [isChannelOp, isScpRecv, isChannelRead] at he <;> rfl
  have e3 : isHandshakeFail K e = false := by
    cases e <;> simp [isChannelOp, isScpRecv, isChannelRead] at he <;> rfl
  have e4 : isAuthFail K e = false := by
    cases e <;> simp [isChannelOp, isScpRecv, isChannelRead] at he <;> rfl
  refine ⟨eachAfter_append_untriggered h1 (by simp [e1]),
    eachAfter_snoc h2 (fun _ => a9),
    eachAfter_append_untriggered h3 (by simp [e2]),
    eachAfter_append_untriggered h4 (by simp [e1]), ?_⟩
  simp [List.any_append, a8, a9, a10, b10, e3, e4]
theorem phaseInv_phase {K : Libssh2H} {h : List Event} {p : Nat} (p' : Nat)
    (hI : PhaseInv K h p) (hp : p' = p ∨ p' = 4 ∨ (p = 0 ∧ p' = 1)) : PhaseInv K h p' := by
  simpa using phaseInv_neutral [] p' hI rfl hp

theorem phaseInv_step (K : Libssh2H) (cfg : Config) (E : Env) (auth_pw : Bool)
    (s : State) (h : PhaseInv K s.hist (phase s.pc)) :
    PhaseInv K (step K cfg E auth_pw s).hist (phase (step K cfg E auth_pw s).pc) := by
  cases hpc : s.pc <;> rw [hpc] at h <;> simp only [step, hpc]
  case L113 =>
    split_ifs
    · exact phaseInv_neutral _ _ h rfl (Or.inr (Or.inl rfl))
    · exact phaseInv_neutral _ _ h rfl (Or.inl rfl)
    · exact phaseInv_phase _ h (Or.inl rfl)
  case L136 =>
    split_ifs
    · exact phaseInv_neutral _ _ h rfl (Or.inr (Or.inl rfl))
    · exact phaseInv_neutral _ _ h rfl (Or.inl rfl)
  case L145 =>
    split_ifs
    · exact phaseInv_neutral _ _ h rfl (Or.inr (Or.inl rfl))
    · exact phaseInv_neutral _ _ h rfl (Or.inl rfl)
  case L154 =>
    split_ifs
    · exact phaseInv_neutral _ _ h rfl (Or.inr (Or.inl rfl))
    · exact phaseInv_neutral _ _ h rfl (Or.inl rfl)
  case L160 =>
    split_ifs
    · exact phaseInv_neutral _ _ (phaseInv_neutral _ _ h rfl (Or.inl rfl)) rfl
        (Or.inr (Or.inl rfl))
    · exact phaseInv_neutral _ _ (phaseInv_neutral _ _
        (phaseInv_neutral _ _ h rfl (Or.inl rfl)) rfl (Or.inl rfl)) rfl
        (Or.inr (Or.inr ⟨rfl, rfl⟩))
    · exact phaseInv_neutral _ _ (phaseInv_neutral _ _ h rfl (Or.inl rfl)) rfl
        (Or.inr (Or.inr ⟨rfl, rfl⟩))
  case L176 =>
    split_ifs with c1 c2
    · simp only [hpc]
      exact phaseInv_handshake _ _ _ _ h (Or.inl ⟨c1, rfl⟩)
    · exact phaseInv_neutral _ _
        (phaseInv_handshake _ _ _ 4 h (Or.inr (Or.inl ⟨c1, c2, rfl⟩))) rfl (Or.inl rfl)
    · exact phaseInv_neutral _ _ (phaseInv_neutral _ _ (phaseInv_neutral _ _
        (phaseInv_handshake _ _ _ 2 h (Or.inr (Or.inr ⟨c1, not_not.mp c2, rfl⟩)))
        rfl (Or.inl rfl)) (phaseNeutral_fingerprintEvents _) (Or.inl rfl)) rfl (Or.inl rfl)
  case L197 =>
    split_ifs with c0 c1 c2 c1 c2
    · simp only [hpc]
      exact phaseInv_password _ _ _ h (Or.inl ⟨c1, rfl⟩)
    · exact phaseInv_neutral _ _
        (phaseInv_password _ _ 4 h (Or.inr (Or.inl ⟨c1, c2, rfl⟩))) rfl (Or.inl rfl)
    · exact phaseInv_neutral _ _
        (phaseInv_password _ _ 3 h (Or.inr (Or.inr ⟨c1, not_not.mp c2, rfl⟩))) rfl (Or.inl rfl)
    · simp only [hpc]
      exact phaseInv_publickey _ _ _ h (Or.inl ⟨c1, rfl⟩)
    · exact phaseInv_neutral _ _
        (phaseInv_publickey _ _ 4 h (Or.inr (Or.inl ⟨c1, c2, rfl⟩))) rfl (Or.inl rfl)
    · exact phaseInv_neutral _ _
        (phaseInv_publickey _ _ 3 h (Or.inr (Or.inr ⟨c1, not_not.mp c2, rfl⟩))) rfl
        (Or.inl rfl)
  case L223 =>
    split_ifs with c0 c1
    · exact phaseInv_neutral _ _ (phaseInv_neutral _ _ (phaseInv_channelOp _ h rfl)
        rfl (Or.inl rfl)) rfl (Or.inr (Or.inl rfl))
    · simp only [hpc, waitsocket_events]
      exact phaseInv_neutral _ _ (phaseInv_neutral _ _ (phaseInv_neutral _ _
        (phaseInv_channelOp _ h rfl) rfl (Or.inl rfl)) rfl (Or.inl rfl))
        (phaseNeutral_waitEvents _ _ _ _ _) (Or.inl rfl)
    · exact phaseInv_neutral _ _ (phaseInv_channelOp _ h rfl) rfl (Or.inl rfl)
  case L241 =>
    split_ifs
    · exact phaseInv_phase _ h (Or.inl rfl)
    · exact phaseInv_phase _ h (Or.inl rfl)
  case L246 =>
    split_ifs with c0 c1
    · simp only [hpc]
      exact phaseInv_neutral _ _ (phaseInv_channelOp _ h rfl) rfl (Or.inl rfl)
    · simp only [waitsocket_events]
      exact phaseInv_neutral _ _ (phaseInv_channelOp _ h rfl)
        (phaseNeutral_waitEvents _ _ _ _ _) (Or.inl rfl)
    · exact phaseInv_channelOp _ h rfl
  case L272 =>
    split_ifs
    · exact phaseInv_neutral _ _ h rfl (Or.inr (Or.inl rfl))
    · exact phaseInv_neutral _ _ h rfl (Or.inr (Or.inl rfl))
  case L286 =>
    rw [shutdownLabel_hist]
    exact phaseInv_neutral _ _ h (phaseNeutral_cleanupEvents _ _ _) (Or.inl rfl)
  case exited rc =>
    simpa only [hpc] using h
theorem main_hist (K : Libssh2H) (cfg : Config) (E : Env) (auth_pw : Bool) (fuel : Nat) :
    (main K cfg E auth_pw fuel).2 = (run K cfg E auth_pw fuel entry).hist := rfl

theorem phaseInv_entry (K : Libssh2H) : PhaseInv K entry.hist (phase entry.pc) := by
  refine ⟨eachAfter_nil _, eachAfter_nil _, eachAfter_nil _, eachAfter_nil _, ?_⟩
  simp [entry, phase]

theorem any_false_iff {l : List Event} {p : Event → Bool} :
    l.any p = false ↔ ∀ e ∈ l, p e = false := by
  rw [List.any_eq_false]
  simp

/-- C3.  In every execution of `main`, whatever the library answers: every
authentication call comes after a handshake call that returned 0; every
`libssh2_scp_recv2` or `libssh2_channel_read` call comes after an
authentication call that returned 0; no handshake call comes after an
authentication call and no authentication call after a `libssh2_scp_recv2`
call; and when a handshake call returns a value other than 0 and
`LIBSSH2_ERROR_EAGAIN` no authentication or channel call is made, when an
authentication call does, no channel call is made. -/
theorem main_phase_order (K : Libssh2H) (cfg : Config) (E : Env) (auth_pw : Bool)
    (fuel : Nat) :
    (∀ pre e post, (main K cfg E auth_pw fuel).2 = pre ++ e :: post → isAuth e = true →
      ∃ a ∈ pre, isHandshakeOk a = true) ∧
    (∀ pre e post, (main K cfg E auth_pw fuel).2 = pre ++ e :: post → isChannelOp e = true →
      ∃ a ∈ pre, isAuthOk a = true) ∧
    (∀ pre e post, (main K cfg E auth_pw fuel).2 = pre ++ e :: post → isHandshake e = true →
      ∀ a ∈ pre, isAuth a = false) ∧
    (∀ pre e post, (main K cfg E auth_pw fuel).2 = pre ++ e :: post → isAuth e = true →
      ∀ a ∈ pre, isScpRecv a = false) ∧
    ((∃ e ∈ (main K cfg E auth_pw fuel).2, isHandshakeFail K e = true) →
      ∀ e ∈ (main K cfg E auth_pw fuel).2, isAuth e = false ∧ isChannelOp e = false) ∧
    ((∃ e ∈ (main K cfg E auth_pw fuel).2, isAuthFail K e = true) →
      ∀ e ∈ (main K cfg E auth_pw fuel).2, isChannelOp e = false) := by
  have hinv := run_invariant K cfg E auth_pw (fun s => PhaseInv K s.hist (phase s.pc))
    (phaseInv_step K cfg E auth_pw) entry (phaseInv_entry K) fuel
  rw [main_hist]
  obtain ⟨h1, h2, h3, h4, _, _, _, _, _, _, h11, h12⟩ := hinv
  refine ⟨?_, ?_, ?_, ?_, ?_, ?_⟩
  · intro pre e post hsplit he
    exact List.any_eq_true.mp (h1 pre e post hsplit he)
  · intro pre e post hsplit he
    exact List.any_eq_true.mp (h2 pre e post hsplit he)
  · intro pre e post hsplit he
    exact any_false_iff.mp (h3 pre e post hsplit he)
  · intro pre e post hsplit he
    exact any_false_iff.mp (h4 pre e post hsplit he)
  · intro hf e he
    obtain ⟨a, b⟩ := h11 (List.any_eq_true.mpr hf)
    exact ⟨any_false_iff.mp a e he, any_false_iff.mp b e he⟩
  · intro hf e he
    exact any_false_iff.mp (h12 (List.any_eq_true.mpr hf)) e he

/-! ## Exit status -/

theorem exitInv_append {h : List Event} (u : List Event)
    (hI : h.any isInitFail = false ∧ h.any isExitCall = false)
    (h1 : u.any isInitFail = false) (h2 : u.any isExitCall = false) :
    (h ++ u).any isInitFail = false ∧ (h ++ u).any isExitCall = false := by
  simp [List.any_append, hI.1, hI.2, h1, h2]

theorem exitInv_fail {h : List Event} (u : List Event)
    (hI : h.any isInitFail = false ∧ h.any isExitCall = false)
    (h1 : u.any isInitFail = true) (h2 : u.any isExitCall = false) :
    ExitInv (h ++ u) (PC.exited 1) := by
  left
  simp [List.any_append, hI.2, h1, h2]

theorem any_cleanupEvents_initFail (K : Libssh2H) (cfg : Config) (s : State) :
    (cleanupEvents K cfg s).any isInitFail = false := by
  simp only [cleanupEvents, sessionCleanup, socketCleanup, wsaCleanup]
  split_ifs <;> rfl

theorem any_cleanupEvents_exitCall (K : Libssh2H) (cfg : Config) (s : State) :
    (cleanupEvents K cfg s).any isExitCall = true := by
  simp only [cleanupEvents, sessionCleanup, socketCleanup, wsaCleanup]
  split_ifs <;> rfl

theorem exitInv_step (K : Libssh2H) (cfg : Config) (E : Env) (auth_pw : Bool)
    (s : State) (h : ExitInv s.hist s.pc) :
    ExitInv (step K cfg E auth_pw s).hist (step K cfg E auth_pw s).pc := by
  cases hpc : s.pc <;> rw [hpc] at h <;> simp only [step, hpc]
  case L113 =>
    split_ifs with c0 c1
    · exact exitInv_fail _ h (by simp [isInitFail, c1]) rfl
    · exact exitInv_append _ h (by simpa [isInitFail] using c1) rfl
    · exact h
  case L136 =>
    split_ifs with c1
    · exact exitInv_fail _ h (by simp [isInitFail, c1]) rfl
    · exact exitInv_append _ h (by simpa [isInitFail] using c1) rfl
  case L145 =>
    split_ifs <;> exact exitInv_append _ h rfl rfl
  case L154 =>
    split_ifs <;> exact exitInv_append _ h rfl rfl
  case L160 =>
    split_ifs
    · exact exitInv_append _ (exitInv_append _ h rfl rfl) rfl rfl
    · exact exitInv_append _ (exitInv_append _ (exitInv_append _ h rfl rfl) rfl rfl) rfl rfl
    · exact exitInv_append _ (exitInv_append _ h rfl rfl) rfl rfl
  case L176 =>
    split_ifs
    · simp only [hpc]
      exact exitInv_append _ h rfl rfl
    · exact exitInv_append _ (exitInv_append _ h rfl rfl) rfl rfl
    · exact exitInv_append _ (exitInv_append _ (exitInv_append _ (exitInv_append _ h rfl rfl)
        rfl rfl) (any_fingerprintEvents _ _ (fun _ => rfl))
        (any_fingerprintEvents _ _ (fun _ => rfl))) rfl rfl
  case L197 =>
    split_ifs
    · simp only [hpc]
      exact exitInv_append _ h rfl rfl
    · exact exitInv_append _ (exitInv_append _ h rfl rfl) rfl rfl
    · exact exitInv_append _ (exitInv_append _ h rfl rfl) rfl rfl
    · simp only [hpc]
      exact exitInv_append _ h rfl rfl
    · exact exitInv_append _ (exitInv_append _ h rfl rfl) rfl rfl
    · exact exitInv_append _ (exitInv_append _ h rfl rfl) rfl rfl
  case L223 =>
    split_ifs
    · exact exitInv_append _ (exitInv_append _ (exitInv_append _ h rfl rfl) rfl rfl) rfl rfl
    · simp only [hpc, waitsocket_events]
      exact exitInv_append _ (exitInv_append _ (exitInv_append _ (exitInv_append _ h rfl rfl)
        rfl rfl) rfl rfl) rfl rfl
    · exact exitInv_append _ (exitInv_append _ h rfl rfl) rfl rfl
  case L241 =>
    split_ifs <;> exact h
  case L246 =>
    split_ifs
    · simp only [hpc]
      exact exitInv_append _ (exitInv_append _ h rfl rfl) rfl rfl
    · simp only [waitsocket_events]
      exact exitInv_append _ (exitInv_append _ h rfl rfl) rfl rfl
    · exact exitInv_append _ h rfl rfl
  case L272 =>
    split_ifs <;> exact exitInv_append _ h rfl rfl
  case L286 =>
    rw [shutdownLabel_hist]
    right
    refine ⟨rfl, ?_, ?_⟩
    · simp [List.any_append, h.1, any_cleanupEvents_initFail]
    · simp [List.any_append, any_cleanupEvents_exitCall]
  case exited rc =>
    simpa only [hpc] using h

theorem main_ret_iff (K : Libssh2H) (cfg : Config) (E : Env) (auth_pw : Bool) (fuel : Nat)
    (rc : Int) :
    (main K cfg E auth_pw fuel).1 = some rc ↔
      (run K cfg E auth_pw fuel entry).pc = PC.exited rc := by
  simp only [main]
  cases (run K cfg E auth_pw fuel entry).pc <;> simp

theorem step_exited (K : Libssh2H) (cfg : Config) (E : Env) (auth_pw : Bool) (s : State)
    (rc : Int) (h : s.pc = PC.exited rc) : step K cfg E auth_pw s = s := by
  simp only [step, h]

theorem run_exited (K : Libssh2H) (cfg : Config) (E : Env) (auth_pw : Bool) (s : State)
    (rc : Int) (h : s.pc = PC.exited rc) (n : Nat) : run K cfg E auth_pw n s = s := by
  induction n with
  | zero => rfl
  | succ n ih =>
    show run K cfg E auth_pw n (step K cfg E auth_pw s) = s
    rw [step_exited K cfg E auth_pw s rc h, ih]

theorem step_L286 (K : Libssh2H) (cfg : Config) (E : Env) (auth_pw : Bool) (s : State)
    (h : s.pc = PC.L286) : (step K cfg E auth_pw s).pc = PC.exited 0 := by
  simp only [step, h, shutdownLabel]

theorem step_pc_exited_zero (K : Libssh2H) (cfg : Config) (E : Env) (auth_pw : Bool)
    (s : State) (h : (step K cfg E auth_pw s).pc = PC.exited 0) :
    s.pc = PC.L286 ∨ s.pc = PC.exited 0 := by
  cases hpc : s.pc <;> simp only [step, hpc] at h
  case L286 => exact Or.inl rfl
  case exited rc =>
    exact Or.inr h
  all_goals (split_ifs at h <;> first | cases h | (rw [hpc] at h; cases h))

theorem visited_L286 (K : Libssh2H) (cfg : Config) (E : Env) (auth_pw : Bool) (n : Nat)
    (h : (run K cfg E auth_pw n entry).pc = PC.exited 0) :
    ∃ k, k < n ∧ (run K cfg E auth_pw k entry).pc = PC.L286 := by
  induction n with
  | zero => cases h
  | succ n ih =>
    rw [run_succ] at h
    rcases step_pc_exited_zero K cfg E auth_pw _ h with h' | h'
    · exact ⟨n, Nat.lt_succ_self n, h'⟩
    · obtain ⟨k, hk, hk'⟩ := ih h'
      exact ⟨k, Nat.lt_succ_of_lt hk, hk'⟩

/-- C5.  The clean-up at label `shutdown` always ends in `return 0`.  When
`main` returns `rc`: `rc` is 0 or 1; it is 1 exactly when `WSAStartup` or
`libssh2_init` returned non-zero; it is 0 exactly when the execution passed
through label `shutdown`; and with 1 `libssh2_exit` was never called. -/
theorem main_exit_status (K : Libssh2H) (cfg : Config) (E : Env) (auth_pw : Bool)
    (fuel : Nat) (rc : Int) (hret : (main K cfg E auth_pw fuel).1 = some rc) :
    (∀ s : State, s.pc = PC.L286 → (step K cfg E auth_pw s).pc = PC.exited 0) ∧
    (rc = 0 ∨ rc = 1) ∧
    (rc = 1 ↔ ∃ e ∈ (main K cfg E auth_pw fuel).2, isInitFail e = true) ∧
    (rc = 0 ↔ ∃ k, k < fuel ∧ (run K cfg E auth_pw k entry).pc = PC.L286) ∧
    (rc = 1 → ∀ e ∈ (main K cfg E auth_pw fuel).2, isExitCall e = false) := by
  have hinv := run_invariant K cfg E auth_pw (fun s => ExitInv s.hist s.pc)
    (exitInv_step K cfg E auth_pw) entry (by simp [entry, ExitInv]) fuel
  rw [main_ret_iff] at hret
  rw [main_hist]
  simp only [hret, ExitInv] at hinv
  refine ⟨step_L286 K cfg E auth_pw, ?_, ?_, ?_, ?_⟩
  · rcases hinv with ⟨h, _⟩ | ⟨h, _⟩
    · exact Or.inr h
    · exact Or.inl h
  · rcases hinv with ⟨h, hf, _⟩ | ⟨h, hf, _⟩
    · exact ⟨fun _ => List.any_eq_true.mp hf, fun _ => h⟩
    · constructor
      · intro h1
        omega
      · intro hex
        rw [List.any_eq_true.mpr hex] at hf
        cases hf
  · constructor
    · intro h0
      subst h0
      exact visited_L286 K cfg E auth_pw fuel hret
    · rintro ⟨k, hk, hpc⟩
      have h1 : (run K cfg E auth_pw (k + 1) entry).pc = PC.exited 0 := by
        rw [run_succ]
        exact step_L286 K cfg E auth_pw _ hpc
      have h2 : run K cfg E auth_pw fuel entry = run K cfg E auth_pw (k + 1) entry := by
        have e : fuel = (k + 1) + (fuel - (k + 1)) := by omega
        rw [e, run_add]
        exact run_exited K cfg E auth_pw _ 0 h1 _
      rw [h2, h1] at hret
      cases hret
      rfl
  · intro h1
    rcases hinv with ⟨_, _, hx⟩ | ⟨h, _, _⟩
    · exact any_false_iff.mp hx
    · omega

set_option maxRecDepth 100000 in
/-- Witness for C5: a handshake that fails with -5 leads through the clean-up
to `return 0`. -/
theorem main_exit_status_witness :
    (main libssh2_h posix (handshakeEnv [-5]) true 8).1 = some 0 ∧
    ((0 : Int) = 0 ↔ ∃ k, k < 8 ∧
      (run libssh2_h posix (handshakeEnv [-5]) true k entry).pc = PC.L286) :=
  ⟨by decide,
   (main_exit_status libssh2_h posix (handshakeEnv [-5]) true 8 0 (by decide)).2.2.2.1⟩

/-! ## Waiting between attempts -/

theorem settled_nil (isOp isAgain : Event → Bool) : Settled isOp isAgain [] := by
  intro pre e1 mid h
  simp at h

theorem settled_append_nonop {isOp isAgain : Event → Bool} {h : List Event} (u : List Event)
    (hS : Settled isOp isAgain h) (hu : ∀ e ∈ u, isOp e = false) :
    Settled isOp isAgain (h ++ u) := by
  intro pre e1 mid heq hop hag hmid
  rcases List.append_eq_append_iff.mp heq with ⟨a, h1, h2⟩ | ⟨c, h1, h2⟩
  · -- e1 lies in u
    have : e1 ∈ u := by rw [h2]; simp
    rw [hu e1 this] at hop
    cases hop
  · cases c with
    | nil =>
      simp only [List.nil_append] at h2
      have : e1 ∈ u := by rw [← h2]; simp
      rw [hu e1 this] at hop
      cases hop
    | cons x c =>
      simp only [List.cons_append, List.cons.injEq] at h2
      obtain ⟨rfl, rfl⟩ := h2
      obtain ⟨w, hw, hw'⟩ := hS pre e1 c h1 hop hag
        (fun m hm => hmid m (List.mem_append_left _ hm))
      exact ⟨w, List.mem_append_left _ hw, hw'⟩

theorem split_snoc {pre mid h : List Event} {e e1 : Event}
    (heq : h ++ [e] = pre ++ e1 :: mid) :
    (pre = h ∧ e1 = e ∧ mid = []) ∨ (∃ mid', mid = mid' ++ [e] ∧ h = pre ++ e1 :: mid') := by
  rcases List.eq_nil_or_concat' mid with rfl | ⟨mid', x, rfl⟩
  · left
    have : h ++ [e] = pre ++ [e1] := heq
    obtain ⟨h1, h2⟩ := List.append_inj' this rfl
    simp only [List.cons.injEq, and_true] at h2
    exact ⟨h1.symm, h2.symm, rfl⟩
  · right
    have : h ++ [e] = (pre ++ e1 :: mid') ++ [x] := by simpa using heq
    obtain ⟨h1, h2⟩ := List.append_inj' this rfl
    simp only [List.cons.injEq, and_true] at h2
    subst h2
    exact ⟨mid', rfl, h1⟩

theorem settled_snoc_notagain {isOp isAgain : Event → Bool} (h : List Event) (e : Event)
    (hop : isOp e = true) (hag : isAgain e = false) :
    Settled isOp isAgain (h ++ [e]) := by
  intro pre e1 mid heq hop1 hag1 hmid
  rcases split_snoc heq with ⟨_, rfl, _⟩ | ⟨mid', rfl, _⟩
  · rw [hag] at hag1
    cases hag1
  · have := hmid e (by simp)
    rw [hop] at this
    cases this

theorem settled_snoc_wait {isOp isAgain : Event → Bool} (h : List Event) (w : Event)
    (hw : isWait w = true) (hop : isOp w = false) :
    Settled isOp isAgain (h ++ [w]) := by
  intro pre e1 mid heq hop1 hag1 hmid
  rcases split_snoc heq with ⟨_, rfl, _⟩ | ⟨mid', rfl, _⟩
  · rw [hop] at hop1
    cases hop1
  · exact ⟨w, by simp, hw⟩

theorem opInv_nonop {isOp isAgain : Event → Bool} {h : List Event} {b : Bool}
    (u : List Event) (b' : Bool) (hI : OpInv isOp isAgain h b)
    (hu : u.all (fun e => !isOp e) = true) (hb : b' = true → b = true) :
    OpInv isOp isAgain (h ++ u) b' := by
  have hu' : ∀ e ∈ u, isOp e = false := by
    rw [List.all_eq_true] at hu
    intro e he
    simpa using hu e he
  exact ⟨eachAfter_append_untriggered hI.1 hu',
    fun hb' => settled_append_nonop u (hI.2 (hb hb')) hu'⟩

theorem opInv_op {isOp isAgain : Event → Bool} {h : List Event}
    (e : Event) (b' : Bool) (hI : OpInv isOp isAgain h true)
    (hop : isOp e = true) (hb : b' = true → isAgain e = false) :
    OpInv isOp isAgain (h ++ [e]) b' :=
  ⟨eachAfter_snoc hI.1 (fun _ => hI.2 rfl),
    fun hb' => settled_snoc_notagain h e hop (hb hb')⟩

theorem opInv_waitEvents {isOp isAgain : Event → Bool} {h : List Event} {b : Bool}
    (K : Libssh2H) (E : Env) (h' : List Event) (fd : Int) (x : Nat) (b' : Bool)
    (hI : OpInv isOp isAgain h b)
    (hu : (waitEvents K E h' fd x).all (fun e => !isOp e) = true) :
    OpInv isOp isAgain (h ++ waitEvents K E h' fd x) b' := by
  refine ⟨(opInv_nonop _ false hI hu (fun hf => by cases hf)).1, fun _ => ?_⟩
  simp only [waitEvents] at hu ⊢
  simp only [List.all_cons, List.all_nil, Bool.and_true, Bool.and_eq_true,
    Bool.not_eq_true'] at hu
  rw [List.append_cons]
  exact settled_snoc_wait _ _ rfl hu.2

theorem waitBetween_of_opInv {isOp isAgain : Event → Bool} {h : List Event} {b : Bool}
    (hI : OpInv isOp isAgain h b) : WaitBetween isOp isAgain h := by
  intro pre e1 mid e2 post heq hop1 hag1 hop2 hmid
  have heq' : h = (pre ++ e1 :: mid) ++ e2 :: post := by simpa using heq
  exact hI.1 (pre ++ e1 :: mid) e2 post heq' hop2 pre e1 mid rfl hop1 hag1 hmid

theorem all_not_of_waitNeutral {u : List Event} {p : Event → Bool}
    (hu : u.all waitNeutral = true) (hp : ∀ e, p e = true → waitNeutral e = false) :
    u.all (fun e => !p e) = true := by
  rw [List.all_eq_true] at hu ⊢
  intro e he
  have h1 := hu e he
  cases hpe : p e
  · rfl
  · rw [hp e hpe] at h1
    cases h1

theorem waitNeutral_cleanupEvents (K : Libssh2H) (cfg : Config) (s : State) :
    (cleanupEvents K cfg s).all waitNeutral = true := by
  simp only [cleanupEvents, sessionCleanup, socketCleanup, wsaCleanup]
  split_ifs <;> rfl

theorem waitNeutral_fingerprintEvents (fp : List Byte) :
    (fingerprintEvents fp).all waitNeutral = true := by
  rw [List.all_eq_true]
  intro e he
  obtain ⟨b, rfl⟩ := mem_fingerprintEvents he
  rfl

theorem waitInv_neutral {K : Libssh2H} {h : List Event} {a b c : Bool} (u : List Event)
    (a' b' c' : Bool) (hI : WaitInv K h a b c) (hu : u.all waitNeutral = true)
    (ha : a' = true → a = true) (hb : b' = true → b = true) (hc : c' = true → c = true) :
    WaitInv K (h ++ u) a' b' c' := by
  obtain ⟨h1, h2, h3, h4⟩ := hI
  have n1 : u.all (fun e => !isScpRecv e) = true :=
    all_not_of_waitNeutral hu (fun e he => by simp [waitNeutral, he])
  have n2 : u.all (fun e => !isChannelRead e) = true :=
    all_not_of_waitNeutral hu (fun e he => by simp [waitNeutral, he])
  have n3 : ∀ e ∈ u, isWait e = false := by
    have := all_not_of_waitNeutral (p := isWait) hu (fun e he => by simp [waitNeutral, he])
    rw [List.all_eq_true] at this
    intro e he
    simpa using this e he
  refine ⟨opInv_nonop u a' h1 n1 ha, opInv_nonop u b' h2 n2 hb,
    eachAfter_append_untriggered h3 n3, fun hc' => ?_⟩
  simp [List.any_append, h4 (hc hc')]

theorem waitInv_scp {K : Libssh2H} {h : List Event} {b c : Bool} (e : Event)
    (a' b' c' : Bool) (hI : WaitInv K h true b c) (he : isScpRecv e = true)
    (ha : a' = true → isScpNull e = false) (hb : b' = true → b = true) :
    WaitInv K (h ++ [e]) a' b' c' := by
  obtain ⟨h1, h2, h3, h4⟩ := hI
  have e1 : isChannelRead e = false := by
    cases e <;> simp [isScpRecv] at he <;> rfl
  have e2 : isWait e = false := by
    cases e <;> simp [isScpRecv] at he <;> rfl
  refine ⟨opInv_op e a' h1 he ha, opInv_nonop [e] b' h2 (by simp [e1]) hb,
    eachAfter_append_untriggered h3 (by simp [e2]), fun _ => ?_⟩
  simp [List.any_append, he]

theorem waitInv_read {K : Libssh2H} {h : List Event} {a c : Bool} (e : Event)
    (a' b' c' : Bool) (hI : WaitInv K h a true c) (he : isChannelRead e = true)
    (hb : b' = true → isReadAgain K e = false) (ha : a' = true → a = true)
    (hc : c' = true → c = true) :
    WaitInv K (h ++ [e]) a' b' c' := by
  obtain ⟨h1, h2, h3, h4⟩ := hI
  have e1 : isScpRecv e = false := by
    cases e <;> simp [isChannelRead] at he <;> rfl
  have e2 : isWait e = false := by
    cases e <;> simp [isChannelRead] at he <;> rfl
  refine ⟨opInv_nonop [e] a' h1 (by simp [e1]) ha, opInv_op e b' h2 he hb,
    eachAfter_append_untriggered h3 (by simp [e2]), fun hc' => ?_⟩
  simp [List.any_append, h4 (hc hc')]

theorem waitInv_waitEvents {K : Libssh2H} {h : List Event} {a b : Bool}
    (E : Env) (h' : List Event) (fd : Int) (x : Nat) (a' b' c' : Bool)
    (hI : WaitInv K h a b true) :
    WaitInv K (h ++ waitEvents K E h' fd x) a' b' c' := by
  obtain ⟨h1, h2, h3, h4⟩ := hI
  have hs := h4 rfl
  refine ⟨opInv_waitEvents K E h' fd x a' h1 rfl, opInv_waitEvents K E h' fd x b' h2 rfl,
    ?_, fun _ => ?_⟩
  · apply eachAfter_append h3
    simp only [waitEvents]
    refine eachAfter_cons (fun hw => by cases hw) (eachAfter_cons (fun _ => ?_)
      (eachAfter_nil _))
    simp [List.any_append, hs]
  · simp [List.any_append, hs]

theorem waitInv_flags {K : Libssh2H} {h : List Event} {a b c : Bool}
    (a' b' c' : Bool) (hI : WaitInv K h a b c)
    (ha : a' = true → a = true) (hb : b' = true → b = true) (hc : c' = true → c = true) :
    WaitInv K h a' b' c' := by
  simpa using waitInv_neutral [] a' b' c' hI rfl ha hb hc

theorem false_eq_true_elim {P : Prop} : false = true → P := fun h => by cases h

theorem waitInv_step (K : Libssh2H) (cfg : Config) (E : Env) (auth_pw : Bool)
    (hK : K.LIBSSH2_ERROR_EAGAIN ≤ 0) (s : State)
    (h : WaitInv K s.hist (scpOpen s.pc) (readOpen s.pc) (scpDone s.pc)) :
    WaitInv K (step K cfg E auth_pw s).hist (scpOpen (step K cfg E auth_pw s).pc)
      (readOpen (step K cfg E auth_pw s).pc) (scpDone (step K cfg E auth_pw s).pc) := by
  cases hpc : s.pc <;> rw [hpc] at h <;> simp only [step, hpc]
  case L113 =>
    split_ifs
    · exact waitInv_neutral _ _ _ _ h rfl false_eq_true_elim false_eq_true_elim id
    · exact waitInv_neutral _ _ _ _ h rfl id id id
    · exact h
  case L136 =>
    split_ifs
    · exact waitInv_neutral _ _ _ _ h rfl false_eq_true_elim false_eq_true_elim id
    · exact waitInv_neutral _ _ _ _ h rfl id id id
  case L145 =>
    split_ifs
    · exact waitInv_neutral _ _ _ _ h rfl false_eq_true_elim false_eq_true_elim id
    · exact waitInv_neutral _ _ _ _ h rfl id id id
  case L154 =>
    split_ifs
    · exact waitInv_neutral _ _ _ _ h rfl false_eq_true_elim false_eq_true_elim id
    · exact waitInv_neutral _ _ _ _ h rfl id id id
  case L160 =>
    split_ifs
    · exact waitInv_neutral _ _ _ _ (waitInv_neutral _ _ _ _ h rfl id id id) rfl false_eq_true_elim false_eq_true_elim id
    · exact waitInv_neutral _ _ _ _ (waitInv_neutral _ _ _ _
        (waitInv_neutral _ _ _ _ h rfl id id id) rfl id id id) rfl id id id
    · exact waitInv_neutral _ _ _ _ (waitInv_neutral _ _ _ _ h rfl id id id) rfl id id id
  case L176 =>
    split_ifs
    · simp only [hpc]
      exact waitInv_neutral _ _ _ _ h rfl id id id
    · exact waitInv_neutral _ _ _ _ (waitInv_neutral _ _ _ _ h rfl id id id) rfl false_eq_true_elim false_eq_true_elim id
    · exact waitInv_neutral _ _ _ _ (waitInv_neutral _ _ _ _ (waitInv_neutral _ _ _ _
        (waitInv_neutral _ _ _ _ h rfl id id id) rfl id id id)
        (waitNeutral_fingerprintEvents _) id id id) rfl id id id
  case L197 =>
    split_ifs
    · simp only [hpc]
      exact waitInv_neutral _ _ _ _ h rfl id id id
    · exact waitInv_neutral _ _ _ _ (waitInv_neutral _ _ _ _ h rfl id id id) rfl false_eq_true_elim false_eq_true_elim id
    · exact waitInv_neutral _ _ _ _ (waitInv_neutral _ _ _ _ h rfl id id id) rfl id id id
    · simp only [hpc]
      exact waitInv_neutral _ _ _ _ h rfl id id id
    · exact waitInv_neutral _ _ _ _ (waitInv_neutral _ _ _ _ h rfl id id id) rfl false_eq_true_elim false_eq_true_elim id
    · exact waitInv_neutral _ _ _ _ (waitInv_neutral _ _ _ _ h rfl id id id) rfl id id id
  case L223 =>
    split_ifs with c0 c1
    · exact waitInv_neutral _ _ _ _ (waitInv_neutral _ _ _ _
        (waitInv_scp _ false false false h rfl false_eq_true_elim false_eq_true_elim) rfl id id id) rfl id id id
    · simp only [hpc, waitsocket_events]
      exact waitInv_waitEvents _ _ _ _ _ _ _ (waitInv_neutral _ _ _ _
        (waitInv_neutral _ _ _ _ (waitInv_scp _ false false true h rfl false_eq_true_elim false_eq_true_elim)
          rfl id id id) rfl id id id)
    · exact waitInv_neutral _ _ _ _
        (waitInv_scp _ false true true h rfl false_eq_true_elim id) rfl id id id
  case L241 =>
    split_ifs
    · exact h
    · exact waitInv_flags _ _ _ h id false_eq_true_elim false_eq_true_elim
  case L246 =>
    split_ifs with c0 c1
    · simp only [hpc]
      refine waitInv_neutral _ _ _ _ (waitInv_read _ false true true h rfl (fun _ => ?_)
        id id) rfl id id id
      simp only [isReadAgain, decide_eq_false_iff_not]
      omega
    · simp only [waitsocket_events]
      exact waitInv_waitEvents _ _ _ _ _ _ _ (waitInv_read _ false false true h rfl false_eq_true_elim id id)
    · exact waitInv_read _ false false false h rfl false_eq_true_elim id false_eq_true_elim
  case L272 =>
    split_ifs
    · exact waitInv_neutral _ _ _ _ h rfl id id id
    · exact waitInv_neutral _ _ _ _ h rfl id id id
  case L286 =>
    rw [shutdownLabel_hist]
    exact waitInv_neutral _ _ _ _ h (waitNeutral_cleanupEvents _ _ _) id id id
  case exited rc =>
    simpa only [hpc] using h

theorem waitInv_entry (K : Libssh2H) :
    WaitInv K entry.hist (scpOpen entry.pc) (readOpen entry.pc) (scpDone entry.pc) :=
  ⟨⟨eachAfter_nil _, fun _ => settled_nil _ _⟩, ⟨eachAfter_nil _, fun _ => settled_nil _ _⟩,
    eachAfter_nil _, false_eq_true_elim⟩

/-- C7, as the code has it.  In every execution of `main`: between any two
consecutive `libssh2_scp_recv2` calls of which the first returned `NULL`, and
between any two consecutive `libssh2_channel_read` calls of which the first
returned `LIBSSH2_ERROR_EAGAIN`, `waitsocket` is called (a `select` call is
made); and no `select` call is made before the first `libssh2_scp_recv2` call,
so the handshake and authentication loops retry without waiting. -/
theorem main_wait_between (K : Libssh2H) (cfg : Config) (E : Env) (auth_pw : Bool)
    (fuel : Nat) (hK : K.LIBSSH2_ERROR_EAGAIN ≤ 0) :
    WaitBetween isScpRecv isScpNull (main K cfg E auth_pw fuel).2 ∧
    WaitBetween isChannelRead (isReadAgain K) (main K cfg E auth_pw fuel).2 ∧
    (∀ pre e post, (main K cfg E auth_pw fuel).2 = pre ++ e :: post → isWait e = true →
      ∃ a ∈ pre, isScpRecv a = true) := by
  have hinv := run_invariant K cfg E auth_pw
    (fun s => WaitInv K s.hist (scpOpen s.pc) (readOpen s.pc) (scpDone s.pc))
    (waitInv_step K cfg E auth_pw hK) entry (waitInv_entry K) fuel
  rw [main_hist]
  obtain ⟨h1, h2, h3, _⟩ := hinv
  refine ⟨waitBetween_of_opInv h1, waitBetween_of_opInv h2, ?_⟩
  intro pre e post hsplit he
  exact List.any_eq_true.mp (h3 pre e post hsplit he)

set_option maxRecDepth 100000 in
/-- Witness for the amended C7: a three-byte file served with an `EAGAIN`
after the first delivery. -/
theorem main_wait_between_witness :
    WaitBetween isChannelRead (isReadAgain libssh2_h)
      (main libssh2_h posix (fakeEnv 3 [1, 2, 3] 2 true) true 30).2 ∧
    (main libssh2_h posix (fakeEnv 3 [1, 2, 3] 2 true) true 30).1 = some 0 :=
  ⟨(main_wait_between libssh2_h posix (fakeEnv 3 [1, 2, 3] 2 true) true 30 (by decide)).2.1,
   by decide⟩

set_option maxRecDepth 100000 in
/-- C7 fails as stated: when the first `libssh2_session_handshake` call
answers `LIBSSH2_ERROR_EAGAIN`, the second call follows it directly, with
no `select` call between them. -/
theorem wait_between_counterexample :
    ¬ (WaitBetween isHandshake (isHandshakeAgain libssh2_h)
          (main libssh2_h posix (handshakeEnv [-37]) true 7).2 ∧
        WaitBetween isAuth (isAuthAgain libssh2_h)
          (main libssh2_h posix (handshakeEnv [-37]) true 7).2 ∧
        WaitBetween isScpRecv isScpNull
          (main libssh2_h posix (handshakeEnv [-37]) true 7).2 ∧
        WaitBetween isChannelRead (isReadAgain libssh2_h)
          (main libssh2_h posix (handshakeEnv [-37]) true 7).2) := by
  rintro ⟨h, _⟩
  obtain ⟨w, hw, _⟩ := h
    ((main libssh2_h posix (handshakeEnv [-37]) true 7).2.take 6)
    (Event.libssh2_session_handshake 1 3 (-37)) []
    (Event.libssh2_session_handshake 1 3 0)
    ((main libssh2_h posix (handshakeEnv [-37]) true 7).2.drop 8)
    (by decide) rfl rfl rfl (by simp)
  cases hw

/-! ## Acquisition and release -/

theorem resNeutral_of_mem {u : List Event} (hu : u.all resNeutral = true) {e : Event}
    (he : e ∈ u) : resNeutral e = true :=
  List.all_eq_true.mp hu e he

theorem any_false_of_resNeutral {u : List Event} {p : Event → Bool}
    (hu : u.all resNeutral = true) (hp : ∀ e, p e = true → resNeutral e = false) :
    u.any p = false := by
  rw [any_false_iff]
  intro e he
  cases hpe : p e
  · rfl
  · have := resNeutral_of_mem hu he
    rw [hp e hpe] at this
    cases this

theorem not_mem_of_resNeutral {u : List Event} (hu : u.all resNeutral = true) (e : Event)
    (he : resNeutral e = false) : e ∉ u := by
  intro hm
  have := resNeutral_of_mem hu hm
  rw [he] at this
  cases this

theorem res_neutral {h : List Event} {sess : Nat} {sock : Int} {chan : Nat} {ns nss : Bool}
    {st : Nat} (u : List Event) (nss' : Bool) (st' : Nat)
    (hI : Res h sess sock chan ns nss st) (hu : u.all resNeutral = true)
    (hnss : nss' = true → nss = true)
    (hst : st' = st ∨ (st' = 2 ∧ st = 0)) :
    Res (h ++ u) sess sock chan ns nss' st' := by
  obtain ⟨h1, h2, h3, h4, h5, h6, h7, h8, h9, h10⟩ := hI
  have n1 : u.any isCleanup = false :=
    any_false_of_resNeutral hu (fun e he => by simp [resNeutral, he])
  have n2 : u.any isSessionInit = false :=
    any_false_of_resNeutral hu (fun e he => by simp [resNeutral, he])
  have n3 : u.any isSocket = false :=
    any_false_of_resNeutral hu (fun e he => by simp [resNeutral, he])
  have n4 : u.any isChannelFree = false :=
    any_false_of_resNeutral hu (fun e he => by simp [resNeutral, he])
  have m1 : ∀ x, Event.libssh2_session_init x ∉ u :=
    fun x => not_mem_of_resNeutral hu _ rfl
  have m2 : ∀ fd, Event.socket fd ∉ u := fun fd => not_mem_of_resNeutral hu _ rfl
  have m3 : ∀ x ch sz, Event.libssh2_scp_recv2 x ch sz ∉ u :=
    fun x ch sz => not_mem_of_resNeutral hu _ rfl
  have m4 : ∀ ch, Event.libssh2_channel_free ch ∉ u :=
    fun ch => not_mem_of_resNeutral hu _ rfl
  have c4 : ∀ ch, List.count (Event.libssh2_channel_free ch) u = 0 :=
    fun ch => List.count_eq_zero.mpr (m4 ch)
  refine ⟨?_, ?_, ?_, ?_, ?_, ?_, ?_, ?_, ?_, ?_⟩
  · simp [List.any_append, h1, n1]
  · intro x hx
    rcases List.mem_append.mp hx with hx | hx
    · exact h2 x hx
    · exact absurd hx (m1 x)
  · intro hs
    exact List.mem_append_left _ (h3 hs)
  · intro hf
    obtain ⟨a, b⟩ := h4 (hnss hf)
    exact ⟨a, by simp [List.any_append, b, n2]⟩
  · intro fd hfd
    rcases List.mem_append.mp hfd with hx | hx
    · exact h5 fd hx
    · exact absurd hx (m2 fd)
  · intro hf
    exact List.mem_append_left _ (h6 hf)
  · intro hf
    simp [List.any_append, h7 hf, n3]
  · intro hs
    have hst0 : st = 0 := by omega
    obtain ⟨a, b⟩ := h8 hst0
    refine ⟨by simp [List.any_append, a, n4], ?_⟩
    intro x ch sz hm
    rcases List.mem_append.mp hm with hx | hx
    · exact b x ch sz hx
    · exact absurd hx (m3 x ch sz)
  · intro hs
    have hst1 : st = 1 := by omega
    obtain ⟨a, b, ⟨x, sz, c⟩, d⟩ := h9 hst1
    refine ⟨by simp [List.any_append, a, n4], b, ⟨x, sz, List.mem_append_left _ c⟩, ?_⟩
    intro x ch sz hm
    rcases List.mem_append.mp hm with hx | hx
    · exact d x ch sz hx
    · exact absurd hx (m3 x ch sz)
  · intro hs
    rcases hst with hst2 | ⟨_, hst0⟩
    · obtain ⟨a, b⟩ := h10 (by omega)
      constructor
      · intro x ch sz hch hm
        rcases List.mem_append.mp hm with hx | hx
        · rw [List.count_append, a x ch sz hch hx, c4]
        · exact absurd hx (m3 x ch sz)
      · intro ch hm
        rcases List.mem_append.mp hm with hx | hx
        · obtain ⟨p, x, sz, q⟩ := b ch hx
          exact ⟨p, x, sz, List.mem_append_left _ q⟩
        · exact absurd hx (m4 ch)
    · obtain ⟨a, b⟩ := h8 hst0
      rw [any_false_iff] at a
      constructor
      · intro x ch sz hch hm
        rcases List.mem_append.mp hm with hx | hx
        · exact absurd (b x ch sz hx) hch
        · exact absurd hx (m3 x ch sz)
      · intro ch hm
        rcases List.mem_append.mp hm with hx | hx
        · have := a _ hx
          cases this
        · exact absurd hx (m4 ch)

theorem res_socket {h : List Event} {sess : Nat} {sock : Int} {chan : Nat} {nss : Bool}
    {st : Nat} (fd : Int) (nss' : Bool)
    (hI : Res h sess sock chan true nss st) (hnss : nss' = true → nss = true) :
    Res (h ++ [Event.socket fd]) sess fd chan false nss' st := by
  obtain ⟨h1, h2, h3, h4, h5, h6, h7, h8, h9, h10⟩ := hI
  have h7' := any_false_iff.mp (h7 rfl)
  refine ⟨?_, ?_, ?_, ?_, ?_, ?_, ?_, ?_, ?_, ?_⟩
  · simp [List.any_append, h1, isCleanup]
  · intro x hx
    simp only [List.mem_append, List.mem_singleton, reduceCtorEq, or_false] at hx
    exact h2 x hx
  · intro hs
    exact List.mem_append_left _ (h3 hs)
  · intro hf
    obtain ⟨a, b⟩ := h4 (hnss hf)
    exact ⟨a, by simp [List.any_append, b, isSessionInit]⟩
  · intro fd' hfd
    simp only [List.mem_append, List.mem_singleton, Event.socket.injEq] at hfd
    rcases hfd with hx | hx
    · have := h7' _ hx
      cases this
    · exact hx
  · intro _
    simp
  · intro hf
    cases hf
  · intro hs
    obtain ⟨a, b⟩ := h8 hs
    refine ⟨by simp [List.any_append, a, isChannelFree], ?_⟩
    intro x ch sz hm
    simp only [List.mem_append, List.mem_singleton, reduceCtorEq, or_false] at hm
    exact b x ch sz hm
  · intro hs
    obtain ⟨a, b, ⟨x, sz, c⟩, d⟩ := h9 hs
    refine ⟨by simp [List.any_append, a, isChannelFree], b,
      ⟨x, sz, List.mem_append_left _ c⟩, ?_⟩
    intro x ch sz hm
    simp only [List.mem_append, List.mem_singleton, reduceCtorEq, or_false] at hm
    exact d x ch sz hm
  · intro hs
    obtain ⟨a, b⟩ := h10 hs
    constructor
    · intro x ch sz hch hm
      simp only [List.mem_append, List.mem_singleton, reduceCtorEq, or_false] at hm
      rw [List.count_append, a x ch sz hch hm]
      simp
    · intro ch hm
      simp only [List.mem_append, List.mem_singleton, reduceCtorEq, or_false] at hm
      obtain ⟨p, x, sz, q⟩ := b ch hm
      exact ⟨p, x, sz, List.mem_append_left _ q⟩

theorem res_session_init {h : List Event} {sess : Nat} {sock : Int} {chan : Nat} {ns : Bool}
    {st : Nat} (x : Nat)
    (hI : Res h sess sock chan ns true st) :
    Res (h ++ [Event.libssh2_session_init x]) x sock chan ns false st := by
  obtain ⟨h1, h2, h3, h4, h5, h6, h7, h8, h9, h10⟩ := hI
  obtain ⟨_, h4'⟩ := h4 rfl
  rw [any_false_iff] at h4'
  refine ⟨?_, ?_, ?_, ?_, ?_, ?_, ?_, ?_, ?_, ?_⟩
  · simp [List.any_append, h1, isCleanup]
  · intro y hy
    simp only [List.mem_append, List.mem_singleton, Event.libssh2_session_init.injEq] at hy
    rcases hy with hy | hy
    · have := h4' _ hy
      cases this
    · exact hy
  · intro _
    simp
  · intro hf
    cases hf
  · intro fd' hfd
    simp only [List.mem_append, List.mem_singleton, reduceCtorEq, or_false] at hfd
    exact h5 fd' hfd
  · intro hf
    exact List.mem_append_left _ (h6 hf)
  · intro hf
    simp [List.any_append, h7 hf, isSocket]
  · intro hs
    obtain ⟨a, b⟩ := h8 hs
    refine ⟨by simp [List.any_append, a, isChannelFree], ?_⟩
    intro x ch sz hm
    simp only [List.mem_append, List.mem_singleton, reduceCtorEq, or_false] at hm
    exact b x ch sz hm
  · intro hs
    obtain ⟨a, b, ⟨x, sz, c⟩, d⟩ := h9 hs
    refine ⟨by simp [List.any_append, a, isChannelFree], b,
      ⟨x, sz, List.mem_append_left _ c⟩, ?_⟩
    intro x ch sz hm
    simp only [List.mem_append, List.mem_singleton, reduceCtorEq, or_false] at hm
    exact d x ch sz hm
  · intro hs
    obtain ⟨a, b⟩ := h10 hs
    constructor
    · intro x ch sz hch hm
      simp only [List.mem_append, List.mem_singleton, reduceCtorEq, or_false] at hm
      rw [List.count_append, a x ch sz hch hm]
      simp
    · intro ch hm
      simp only [List.mem_append, List.mem_singleton, reduceCtorEq, or_false] at hm
      obtain ⟨p, x, sz, q⟩ := b ch hm
      exact ⟨p, x, sz, List.mem_append_left _ q⟩

theorem res_scp {h : List Event} {sess : Nat} {sock : Int} {chan : Nat} {ns nss : Bool}
    (x ch : Nat) (sz : Int) (chan' : Nat) (nss' : Bool) (st' : Nat)
    (hI : Res h sess sock chan ns nss 0) (hnss : nss' = true → nss = true)
    (hst : (ch = 0 ∧ st' = 0) ∨ (ch ≠ 0 ∧ st' = 1 ∧ chan' = ch)) :
    Res (h ++ [Event.libssh2_scp_recv2 x ch sz]) sess sock chan' ns nss' st' := by
  obtain ⟨h1, h2, h3, h4, h5, h6, h7, h8, h9, h10⟩ := hI
  obtain ⟨a8, b8⟩ := h8 rfl
  refine ⟨?_, ?_, ?_, ?_, ?_, ?_, ?_, ?_, ?_, ?_⟩
  · simp [List.any_append, h1, isCleanup]
  · intro y hy
    simp only [List.mem_append, List.mem_singleton, reduceCtorEq, or_false] at hy
    exact h2 y hy
  · intro hs
    exact List.mem_append_left _ (h3 hs)
  · intro hf
    obtain ⟨a, b⟩ := h4 (hnss hf)
    exact ⟨a, by simp [List.any_append, b, isSessionInit]⟩
  · intro fd' hfd
    simp only [List.mem_append, List.mem_singleton, reduceCtorEq, or_false] at hfd
    exact h5 fd' hfd
  · intro hf
    exact List.mem_append_left _ (h6 hf)
  · intro hf
    simp [List.any_append, h7 hf, isSocket]
  · intro hs
    have hch : ch = 0 := by
      rcases hst with ⟨a, _⟩ | ⟨_, b, _⟩
      · exact a
      · omega
    refine ⟨by simp [List.any_append, a8, isChannelFree], ?_⟩
    intro x' ch' sz' hm
    simp only [List.mem_append, List.mem_singleton, Event.libssh2_scp_recv2.injEq] at hm
    rcases hm with hm | ⟨_, rfl, _⟩
    · exact b8 x' ch' sz' hm
    · exact hch
  · intro hs
    obtain ⟨hch, hc⟩ : ch ≠ 0 ∧ chan' = ch := by
      rcases hst with ⟨_, b⟩ | ⟨a, _, c⟩
      · omega
      · exact ⟨a, c⟩
    subst hc
    refine ⟨by simp [List.any_append, a8, isChannelFree], hch, ⟨x, sz, by simp⟩, ?_⟩
    intro x' ch' sz' hm hne
    simp only [List.mem_append, List.mem_singleton, Event.libssh2_scp_recv2.injEq] at hm
    rcases hm with hm | ⟨_, rfl, _⟩
    · exact absurd (b8 x' ch' sz' hm) hne
    · rfl
  · intro hs
    rcases hst with ⟨_, b⟩ | ⟨_, b, _⟩ <;> omega

theorem res_channel_free {h : List Event} {sess : Nat} {sock : Int} {chan : Nat}
    {ns nss : Bool} (chan' : Nat) (nss' : Bool)
    (hI : Res h sess sock chan ns nss 1) (hnss : nss' = true → nss = true) :
    Res (h ++ [Event.libssh2_channel_free chan]) sess sock chan' ns nss' 2 := by
  obtain ⟨h1, h2, h3, h4, h5, h6, h7, h8, h9, h10⟩ := hI
  obtain ⟨a9, b9, ⟨x9, sz9, c9⟩, d9⟩ := h9 rfl
  have a9' := any_false_iff.mp a9
  refine ⟨?_, ?_, ?_, ?_, ?_, ?_, ?_, ?_, ?_, ?_⟩
  · simp [List.any_append, h1, isCleanup]
  · intro y hy
    simp only [List.mem_append, List.mem_singleton, reduceCtorEq, or_false] at hy
    exact h2 y hy
  · intro hs
    exact List.mem_append_left _ (h3 hs)
  · intro hf
    obtain ⟨a, b⟩ := h4 (hnss hf)
    exact ⟨a, by simp [List.any_append, b, isSessionInit]⟩
  · intro fd' hfd
    simp only [List.mem_append, List.mem_singleton, reduceCtorEq, or_false] at hfd
    exact h5 fd' hfd
  · intro hf
    exact List.mem_append_left _ (h6 hf)
  · intro hf
    simp [List.any_append, h7 hf, isSocket]
  · intro hs
    cases hs
  · intro hs
    cases hs
  · intro _
    constructor
    · intro x ch sz hch hm
      simp only [List.mem_append, List.mem_singleton, reduceCtorEq, or_false] at hm
      have hc := d9 x ch sz hm hch
      subst hc
      have hz : List.count (Event.libssh2_channel_free ch) h = 0 := by
        rw [List.count_eq_zero]
        intro hmem
        have := a9' _ hmem
        cases this
      rw [List.count_append, hz]
      simp
    · intro ch hm
      simp only [List.mem_append, List.mem_singleton, Event.libssh2_channel_free.injEq] at hm
      rcases hm with hm | rfl
      · have := a9' _ hm
        cases this
      · exact ⟨b9, x9, sz9, List.mem_append_left _ c9⟩

theorem res_flags {h : List Event} {sess : Nat} {sock : Int} {chan : Nat} {ns nss : Bool}
    {st : Nat} (nss' : Bool) (st' : Nat)
    (hI : Res h sess sock chan ns nss st) (hnss : nss' = true → nss = true)
    (hst : st' = st ∨ (st' = 2 ∧ st = 0)) :
    Res h sess sock chan ns nss' st' := by
  simpa using res_neutral [] nss' st' hI rfl hnss hst

theorem resInv_of_res {K : Libssh2H} {cfg : Config} {s : State}
    (hpc : ∀ rc, s.pc ≠ PC.exited rc)
    (h : Res s.hist s.session s.sock s.channel (noSock s.pc) (noSess s.pc) (chanStage s.pc)) :
    ResInv K cfg s := by
  unfold ResInv
  split
  · rename_i rc hrc
    exact absurd hrc (hpc rc)
  · exact h

theorem resNeutral_fingerprintEvents (fp : List Byte) :
    (fingerprintEvents fp).all resNeutral = true := by
  rw [List.all_eq_true]
  intro e he
  obtain ⟨b, rfl⟩ := mem_fingerprintEvents he
  rfl

theorem one_ne_zero_elim {P : Prop} : (1 : Int) = 0 → P := fun h => absurd h (by decide)

theorem resInv_step (K : Libssh2H) (cfg : Config) (E : Env) (auth_pw : Bool)
    (s : State) (h : ResInv K cfg s) : ResInv K cfg (step K cfg E auth_pw s) := by
  cases hpc : s.pc <;> simp only [ResInv, hpc] at h <;> simp only [step, hpc]
  case L113 =>
    split_ifs
    · exact one_ne_zero_elim
    · exact resInv_of_res (fun _ hh => by cases hh)
        (res_neutral _ _ _ h rfl id (Or.inl rfl))
    · exact resInv_of_res (fun _ hh => by cases hh)
        (res_flags _ _ h id (Or.inl rfl))
  case L136 =>
    split_ifs
    · exact one_ne_zero_elim
    · exact resInv_of_res (fun _ hh => by cases hh)
        (res_neutral _ _ _ h rfl id (Or.inl rfl))
  case L145 =>
    split_ifs
    · refine resInv_of_res (fun _ hh => by cases hh) ?_
      have := res_neutral [Event.fprintf Diag.socket_failed] false 2
        (res_socket (E.socket s.hist) true h id) rfl false_eq_true_elim (Or.inr ⟨rfl, rfl⟩)
      simpa only [List.append_assoc, List.cons_append, List.nil_append] using this
    · exact resInv_of_res (fun _ hh => by cases hh) (res_socket _ true h id)
  case L154 =>
    split_ifs
    · exact resInv_of_res (fun _ hh => by cases hh)
        (res_neutral _ _ _ h rfl false_eq_true_elim (Or.inr ⟨rfl, rfl⟩))
    · exact resInv_of_res (fun _ hh => by cases hh)
        (res_neutral _ _ _ h rfl id (Or.inl rfl))
  case L160 =>
    split_ifs
    · exact resInv_of_res (fun _ hh => by cases hh)
        (res_neutral _ _ _ (res_session_init _ h) rfl id (Or.inr ⟨rfl, rfl⟩))
    · exact resInv_of_res (fun _ hh => by cases hh)
        (res_neutral _ _ _ (res_neutral _ _ _ (res_session_init _ h) rfl id
          (Or.inl rfl)) rfl id
          (Or.inl rfl))
    · exact resInv_of_res (fun _ hh => by cases hh)
        (res_neutral _ _ _ (res_session_init _ h) rfl id
          (Or.inl rfl))
  case L176 =>
    split_ifs
    · exact resInv_of_res (fun _ hh => by cases hh)
        (res_neutral _ _ _ h rfl id (Or.inl rfl))
    · exact resInv_of_res (fun _ hh => by cases hh)
        (res_neutral _ _ _ (res_neutral _ _ _ h rfl id
          (Or.inl rfl)) rfl id (Or.inr ⟨rfl, rfl⟩))
    · exact resInv_of_res (fun _ hh => by cases hh)
        (res_neutral _ _ _ (res_neutral _ _ _ (res_neutral _ _ _
          (res_neutral _ _ _ h rfl id (Or.inl rfl)) rfl id
          (Or.inl rfl)) (resNeutral_fingerprintEvents _) id
          (Or.inl rfl)) rfl id
          (Or.inl rfl))
  case L197 =>
    split_ifs
    · exact resInv_of_res (fun _ hh => by cases hh)
        (res_neutral _ _ _ h rfl id (Or.inl rfl))
    · exact resInv_of_res (fun _ hh => by cases hh)
        (res_neutral _ _ _ (res_neutral _ _ _ h rfl id
          (Or.inl rfl)) rfl id (Or.inr ⟨rfl, rfl⟩))
    · exact resInv_of_res (fun _ hh => by cases hh)
        (res_neutral _ _ _ (res_neutral _ _ _ h rfl id
          (Or.inl rfl)) rfl id
          (Or.inl rfl))
    · exact resInv_of_res (fun _ hh => by cases hh)
        (res_neutral _ _ _ h rfl id (Or.inl rfl))
    · exact resInv_of_res (fun _ hh => by cases hh)
        (res_neutral _ _ _ (res_neutral _ _ _ h rfl id
          (Or.inl rfl)) rfl id (Or.inr ⟨rfl, rfl⟩))
    · exact resInv_of_res (fun _ hh => by cases hh)
        (res_neutral _ _ _ (res_neutral _ _ _ h rfl id
          (Or.inl rfl)) rfl id
          (Or.inl rfl))
  case L223 =>
    split_ifs with c0 c1
    · exact resInv_of_res (fun _ hh => by cases hh)
        (res_neutral _ _ _ (res_neutral _ _ _
          (res_scp _ _ _ _ _ 0 h id (Or.inl ⟨c0, rfl⟩)) rfl id
          (Or.inl rfl)) rfl id (Or.inr ⟨rfl, rfl⟩))
    · exact resInv_of_res (fun _ hh => by cases hh)
        (by simp only [waitsocket_events]
            exact res_neutral _ _ _ (res_neutral _ _ _ (res_neutral _ _ _
              (res_scp _ _ _ _ _ 0 h id (Or.inl ⟨c0, rfl⟩)) rfl id
              (Or.inl rfl)) rfl id
              (Or.inl rfl)) rfl id
              (Or.inl rfl))
    · exact resInv_of_res (fun _ hh => by cases hh)
        (res_neutral _ _ _ (res_scp _ _ _ _ _ 1 h id (Or.inr ⟨c0, rfl, rfl⟩)) rfl id
          (Or.inl rfl))
  case L241 =>
    split_ifs
    · exact resInv_of_res (fun _ hh => by cases hh) h
    · exact resInv_of_res (fun _ hh => by cases hh) h
  case L246 =>
    split_ifs
    · exact resInv_of_res (fun _ hh => by cases hh)
        (res_neutral _ _ _ (res_neutral _ _ _ h rfl id (Or.inl rfl)) rfl id (Or.inl rfl))
    · exact resInv_of_res (fun _ hh => by cases hh)
        (by simp only [waitsocket_events]
            exact res_neutral _ _ _ (res_neutral _ _ _ h rfl id
              (Or.inl rfl)) rfl id (Or.inl rfl))
    · exact resInv_of_res (fun _ hh => by cases hh)
        (res_neutral _ _ _ h rfl id (Or.inl rfl))
  case L272 =>
    split_ifs
    · refine resInv_of_res (fun _ hh => by cases hh) ?_
      have := res_channel_free 0 false (res_neutral
        [Event.gettimeofday (E.gettimeofday s.hist),
         Event.fprintf (Diag.got_timed (wrap64 s.total)
           (tvdiff (E.gettimeofday s.hist) s.start) s.spin)] _ _ h rfl id
        (Or.inl rfl)) id
      simpa only [List.append_assoc, List.cons_append, List.nil_append] using this
    · refine resInv_of_res (fun _ hh => by cases hh) ?_
      have := res_channel_free 0 false (res_neutral
        [Event.fprintf (Diag.got (wrap64 s.total) s.spin)] _ _ h rfl id
        (Or.inl rfl)) id
      simpa only [List.append_assoc, List.cons_append, List.nil_append] using this
  case L286 =>
    simp only [ResInv, shutdownLabel_pc]
    intro _
    exact ⟨s, h, shutdownLabel_hist K cfg s⟩
  case exited rc =>
    simpa only [ResInv, hpc] using h

/-! ## Release by the clean-up -/

theorem mem_prefix_of_split {t pre post : List Event} {e a : Event}
    (h : t = pre ++ e :: post) (ha : a ∈ pre) : a ∈ t := by
  rw [h]
  exact List.mem_append_left _ ha

theorem mem_sessionCleanup (s : State) (e : Event) :
    e ∈ sessionCleanup s ↔ s.session ≠ 0 ∧
      (e = Event.libssh2_session_disconnect s.session ∨
        e = Event.libssh2_session_free s.session) := by
  simp only [sessionCleanup]
  split_ifs with h <;> simp [h]

theorem mem_socketCleanup (K : Libssh2H) (s : State) (e : Event) :
    e ∈ socketCleanup K s ↔ s.sock ≠ K.LIBSSH2_INVALID_SOCKET ∧
      (e = Event.shutdown s.sock 2 ∨ e = Event.close s.sock) := by
  simp only [socketCleanup]
  split_ifs with h <;> simp [h]

theorem mem_wsaCleanup (cfg : Config) (e : Event) :
    e ∈ wsaCleanup cfg ↔ cfg.win32 = true ∧ e = Event.WSACleanup := by
  simp only [wsaCleanup]
  split_ifs with h <;> simp [h]

theorem mem_cleanupEvents (K : Libssh2H) (cfg : Config) (s : State) (e : Event) :
    e ∈ cleanupEvents K cfg s ↔
      (s.session ≠ 0 ∧ (e = Event.libssh2_session_disconnect s.session ∨
        e = Event.libssh2_session_free s.session)) ∨
      (s.sock ≠ K.LIBSSH2_INVALID_SOCKET ∧
        (e = Event.shutdown s.sock 2 ∨ e = Event.close s.sock)) ∨
      e = Event.fprintf Diag.all_done ∨ e = Event.libssh2_exit ∨
      (cfg.win32 = true ∧ e = Event.WSACleanup) := by
  simp only [cleanupEvents, List.mem_append, mem_sessionCleanup, mem_socketCleanup,
    mem_wsaCleanup, List.mem_cons, List.mem_singleton, List.not_mem_nil, or_false, or_assoc]

theorem count_cleanupEvents (K : Libssh2H) (cfg : Config) (s : State) (e : Event) :
    List.count e (cleanupEvents K cfg s) =
      List.count e (sessionCleanup s) + List.count e (socketCleanup K s) +
        List.count e [Event.fprintf Diag.all_done, Event.libssh2_exit] +
        List.count e (wsaCleanup cfg) := by
  simp only [cleanupEvents, List.count_append]

/-- What the clean-up adds to a history that satisfies `Res` at label
`shutdown`: each resource held is released exactly once. -/
theorem release_final (K : Libssh2H) (cfg : Config) (s0 : State)
    (hI : Res s0.hist s0.session s0.sock s0.channel false false 2) :
    (∀ x, x ≠ 0 → Event.libssh2_session_init x ∈ s0.hist ++ cleanupEvents K cfg s0 →
      List.count (Event.libssh2_session_disconnect x) (s0.hist ++ cleanupEvents K cfg s0) = 1 ∧
      List.count (Event.libssh2_session_free x) (s0.hist ++ cleanupEvents K cfg s0) = 1) ∧
    (∀ fd, fd ≠ K.LIBSSH2_INVALID_SOCKET →
      Event.socket fd ∈ s0.hist ++ cleanupEvents K cfg s0 →
      List.count (Event.shutdown fd 2) (s0.hist ++ cleanupEvents K cfg s0) = 1 ∧
      List.count (Event.close fd) (s0.hist ++ cleanupEvents K cfg s0) = 1) ∧
    (∀ x ch sz, ch ≠ 0 →
      Event.libssh2_scp_recv2 x ch sz ∈ s0.hist ++ cleanupEvents K cfg s0 →
      List.count (Event.libssh2_channel_free ch) (s0.hist ++ cleanupEvents K cfg s0) = 1) ∧
    List.count Event.libssh2_exit (s0.hist ++ cleanupEvents K cfg s0) = 1 := by
  obtain ⟨h1, h2, h3, h4, h5, h6, h7, h8, h9, h10⟩ := hI
  have nc := any_false_iff.mp h1
  have z : ∀ e, isCleanup e = true → List.count e s0.hist = 0 := by
    intro e he
    rw [List.count_eq_zero]
    intro hm
    rw [nc e hm] at he
    cases he
  obtain ⟨fc1, fc2⟩ := h10 rfl
  have c0 : ∀ (e : Event) (l : List Event), e ∉ l → List.count e l = 0 :=
    fun e l => List.count_eq_zero.mpr
  refine ⟨?_, ?_, ?_, ?_⟩
  · intro x hx hm
    rcases List.mem_append.mp hm with hm | hm
    · have hxs := h2 x hm
      subst hxs
      rw [List.count_append, List.count_append, z (Event.libssh2_session_disconnect _) rfl,
        z (Event.libssh2_session_free _) rfl, count_cleanupEvents, count_cleanupEvents,
        c0 _ (socketCleanup K s0) (by simp [mem_socketCleanup]),
        c0 _ (socketCleanup K s0) (by simp [mem_socketCleanup]),
        c0 _ (wsaCleanup cfg) (by simp [mem_wsaCleanup]),
        c0 _ (wsaCleanup cfg) (by simp [mem_wsaCleanup])]
      simp [sessionCleanup, hx]
    · simp [mem_cleanupEvents] at hm
  · intro fd hfd hm
    rcases List.mem_append.mp hm with hm | hm
    · have hxs := h5 fd hm
      subst hxs
      rw [List.count_append, List.count_append, z (Event.shutdown _ _) rfl,
        z (Event.close _) rfl, count_cleanupEvents, count_cleanupEvents,
        c0 _ (sessionCleanup s0) (by simp [mem_sessionCleanup]),
        c0 _ (sessionCleanup s0) (by simp [mem_sessionCleanup]),
        c0 _ (wsaCleanup cfg) (by simp [mem_wsaCleanup]),
        c0 _ (wsaCleanup cfg) (by simp [mem_wsaCleanup])]
      simp [socketCleanup, hfd]
    · simp [mem_cleanupEvents] at hm
  · intro x ch sz hch hm
    rcases List.mem_append.mp hm with hm | hm
    · rw [List.count_append, fc1 x ch sz hch hm,
        c0 _ (cleanupEvents K cfg s0) (by simp [mem_cleanupEvents])]
    · simp [mem_cleanupEvents] at hm
  · rw [List.count_append, z Event.libssh2_exit rfl, count_cleanupEvents,
      c0 _ (sessionCleanup s0) (by simp [mem_sessionCleanup]),
      c0 _ (socketCleanup K s0) (by simp [mem_socketCleanup]),
      c0 _ (wsaCleanup cfg) (by simp [mem_wsaCleanup])]
    simp

theorem eachAfter_of_forall_mem {P : List Event → Event → Prop} {u : List Event}
    (h : ∀ e ∈ u, ∀ pre, P pre e) : EachAfter P u := by
  intro pre e post hsplit
  exact h e (by rw [hsplit]; simp) pre

/-- Order of the clean-up calls after a history that satisfies `Res` at label
`shutdown`. -/
theorem release_order (K : Libssh2H) (cfg : Config) (s0 : State)
    (hI : Res s0.hist s0.session s0.sock s0.channel false false 2) :
    EachAfter (fun pre e => ∀ x, e = Event.libssh2_session_free x →
      Event.libssh2_session_disconnect x ∈ pre) (s0.hist ++ cleanupEvents K cfg s0) ∧
    EachAfter (fun pre e => isSessionOp e = true →
      ∀ x, Event.libssh2_session_free x ∉ pre) (s0.hist ++ cleanupEvents K cfg s0) ∧
    EachAfter (fun pre e => ∀ fd, e = Event.close fd →
      Event.shutdown fd 2 ∈ pre) (s0.hist ++ cleanupEvents K cfg s0) ∧
    EachAfter (fun pre e => ∀ x, e = Event.libssh2_session_disconnect x →
      ∀ ch, Event.libssh2_channel_free ch ∈ s0.hist ++ cleanupEvents K cfg s0 →
        Event.libssh2_channel_free ch ∈ pre) (s0.hist ++ cleanupEvents K cfg s0) := by
  obtain ⟨h1, h2, h3, h4, h5, h6, h7, h8, h9, h10⟩ := hI
  have nc := any_false_iff.mp h1
  have nfree : ∀ x, Event.libssh2_session_free x ∉ s0.hist := fun x hm => by
    have := nc _ hm
    cases this
  refine ⟨eachAfter_append ?_ ?_, eachAfter_append ?_ ?_, eachAfter_append ?_ ?_,
    eachAfter_append ?_ ?_⟩
  · intro pre e post hsplit x hx
    subst hx
    have := nc (Event.libssh2_session_free x) (by rw [hsplit]; simp)
    cases this
  · simp only [cleanupEvents, eachAfter_append_iff]
    refine ⟨⟨⟨?_, ?_⟩, ?_⟩, ?_⟩
    · simp only [sessionCleanup]
      split_ifs <;> simp [eachAfter_cons_iff, eachAfter_nil_iff]
    · refine eachAfter_of_forall_mem (fun e he pre x hx => ?_)
      subst hx
      simp [mem_socketCleanup] at he
    · refine eachAfter_of_forall_mem (fun e he pre x hx => ?_)
      subst hx
      simp at he
    · refine eachAfter_of_forall_mem (fun e he pre x hx => ?_)
      subst hx
      simp [mem_wsaCleanup] at he
  · intro pre e post hsplit _ x hx
    exact nfree x (mem_prefix_of_split hsplit hx)
  · simp only [cleanupEvents, eachAfter_append_iff]
    refine ⟨⟨⟨?_, ?_⟩, ?_⟩, ?_⟩
    · simp only [sessionCleanup]
      split_ifs <;> simp [eachAfter_cons_iff, eachAfter_nil_iff, nfree]
    · refine eachAfter_of_forall_mem (fun e he pre hop => ?_)
      rw [mem_socketCleanup] at he
      rcases he with ⟨_, rfl | rfl⟩ <;> cases hop
    · refine eachAfter_of_forall_mem (fun e he pre hop => ?_)
      simp only [List.mem_cons, List.mem_singleton, List.not_mem_nil, or_false] at he
      rcases he with rfl | rfl <;> cases hop
    · refine eachAfter_of_forall_mem (fun e he pre hop => ?_)
      rw [mem_wsaCleanup] at he
      obtain ⟨_, rfl⟩ := he
      cases hop
  · intro pre e post hsplit x hx
    subst hx
    have := nc (Event.close x) (by rw [hsplit]; simp)
    cases this
  · simp only [cleanupEvents, eachAfter_append_iff]
    refine ⟨⟨⟨?_, ?_⟩, ?_⟩, ?_⟩
    · refine eachAfter_of_forall_mem (fun e he pre x hx => ?_)
      subst hx
      simp [mem_sessionCleanup] at he
    · simp only [socketCleanup]
      split_ifs <;> simp [eachAfter_cons_iff, eachAfter_nil_iff]
    · refine eachAfter_of_forall_mem (fun e he pre x hx => ?_)
      subst hx
      simp at he
    · refine eachAfter_of_forall_mem (fun e he pre x hx => ?_)
      subst hx
      simp [mem_wsaCleanup] at he
  · intro pre e post hsplit x hx
    subst hx
    have := nc (Event.libssh2_session_disconnect x) (by rw [hsplit]; simp)
    cases this
  · intro pre e post hsplit x hx ch hm
    rcases List.mem_append.mp hm with hm | hm
    · exact List.mem_append_left _ hm
    · simp [mem_cleanupEvents] at hm

/-- Only what was acquired is released by the clean-up. -/
theorem release_only_acquired (K : Libssh2H) (cfg : Config) (s0 : State)
    (hI : Res s0.hist s0.session s0.sock s0.channel false false 2) :
    (∀ x, Event.libssh2_session_disconnect x ∈ s0.hist ++ cleanupEvents K cfg s0 ∨
        Event.libssh2_session_free x ∈ s0.hist ++ cleanupEvents K cfg s0 →
      x ≠ 0 ∧ Event.libssh2_session_init x ∈ s0.hist ++ cleanupEvents K cfg s0) ∧
    (∀ fd how, Event.shutdown fd how ∈ s0.hist ++ cleanupEvents K cfg s0 ∨
        Event.close fd ∈ s0.hist ++ cleanupEvents K cfg s0 →
      fd ≠ K.LIBSSH2_INVALID_SOCKET ∧
        Event.socket fd ∈ s0.hist ++ cleanupEvents K cfg s0) ∧
    (∀ ch, Event.libssh2_channel_free ch ∈ s0.hist ++ cleanupEvents K cfg s0 →
      ch ≠ 0 ∧ ∃ x sz, Event.libssh2_scp_recv2 x ch sz ∈ s0.hist ++ cleanupEvents K cfg s0) := by
  obtain ⟨h1, h2, h3, h4, h5, h6, h7, h8, h9, h10⟩ := hI
  have nc := any_false_iff.mp h1
  have nm : ∀ e, isCleanup e = true → e ∉ s0.hist := fun e he hm => by
    rw [nc e hm] at he
    cases he
  obtain ⟨fc1, fc2⟩ := h10 rfl
  have hsock := h6 rfl
  refine ⟨?_, ?_, ?_⟩
  · intro x hx
    have hx' : s0.session ≠ 0 ∧ x = s0.session := by
      rcases hx with hx | hx <;> rcases List.mem_append.mp hx with hm | hm
      · exact absurd hm (nm _ rfl)
      · simpa [mem_cleanupEvents] using hm
      · exact absurd hm (nm _ rfl)
      · simpa [mem_cleanupEvents] using hm
    obtain ⟨hs, rfl⟩ := hx'
    exact ⟨hs, List.mem_append_left _ (h3 hs)⟩
  · intro fd how hx
    have hx' : s0.sock ≠ K.LIBSSH2_INVALID_SOCKET ∧ fd = s0.sock := by
      rcases hx with hx | hx <;> rcases List.mem_append.mp hx with hm | hm
      · exact absurd hm (nm _ rfl)
      · simp only [mem_cleanupEvents, reduceCtorEq, Event.shutdown.injEq, or_false,
          false_or, and_false, false_and] at hm
        exact ⟨hm.1, hm.2.1⟩
      · exact absurd hm (nm _ rfl)
      · simpa [mem_cleanupEvents] using hm
    obtain ⟨hs, rfl⟩ := hx'
    exact ⟨hs, List.mem_append_left _ hsock⟩
  · intro ch hm
    rcases List.mem_append.mp hm with hm | hm
    · obtain ⟨a, x, sz, b⟩ := fc2 ch hm
      exact ⟨a, x, sz, List.mem_append_left _ b⟩
    · simp [mem_cleanupEvents] at hm

/-! ## Guaranteed release -/

theorem initInv_step (K : Libssh2H) (cfg : Config) (E : Env) (auth_pw : Bool)
    (s : State) (h : InitInv s.hist s.pc) :
    InitInv (step K cfg E auth_pw s).hist (step K cfg E auth_pw s).pc := by
  cases hpc : s.pc <;> rw [hpc] at h <;> simp only [step, hpc]
  case L113 =>
    have h' : s.hist.any isInit = false := h
    have h'' : s.hist.any isInitOk = false := by
      rw [any_false_iff] at h' ⊢
      intro e he
      have := h' e he
      cases e <;> first | rfl | cases this
    split_ifs
    · intro _
      simp [List.any_append, h'', isInitOk]
    · have : (s.hist ++ [Event.WSAStartup (E.WSAStartup s.hist)]).any isInit = false := by
        simp [List.any_append, h', isInit]
      exact this
    · exact h
  case L136 =>
    have h' : s.hist.any isInit = false := h
    have h'' : s.hist.any isInitOk = false := by
      rw [any_false_iff] at h' ⊢
      intro e he
      have := h' e he
      cases e <;> first | rfl | cases this
    split_ifs with c
    · intro _
      simp [List.any_append, h'', isInitOk, c]
    · trivial
  case L286 =>
    rw [shutdownLabel_pc]
    intro hne
    exact absurd rfl hne
  case exited rc =>
    simpa only [hpc] using h
  all_goals (split_ifs <;> trivial)

theorem returns_zero_of_init (K : Libssh2H) (cfg : Config) (E : Env) (auth_pw : Bool)
    (fuel : Nat) (rc : Int) (hret : (main K cfg E auth_pw fuel).1 = some rc)
    (hinit : Event.libssh2_init 0 ∈ (main K cfg E auth_pw fuel).2) : rc = 0 := by
  have hinv := run_invariant K cfg E auth_pw (fun s => InitInv s.hist s.pc)
    (initInv_step K cfg E auth_pw) entry (by simp [entry, InitInv]) fuel
  rw [main_ret_iff] at hret
  rw [main_hist] at hinit
  simp only [hret, InitInv] at hinv
  by_contra hne
  have := any_false_iff.mp (hinv hne) _ hinit
  simp [isInitOk] at this

/-- C6.  When `main` returns and `libssh2_init` returned 0: a session that
was created is disconnected once and then freed once, and no call on the
session or a channel follows; a valid socket that was created is shut down
once and then closed once; a channel that was obtained is freed once, before
the session is disconnected; `libssh2_exit` is called once; and only a session
created, a valid socket created and a channel obtained are released. -/
theorem main_release (K : Libssh2H) (cfg : Config) (E : Env) (auth_pw : Bool)
    (fuel : Nat) (rc : Int) (hret : (main K cfg E auth_pw fuel).1 = some rc)
    (hinit : Event.libssh2_init 0 ∈ (main K cfg E auth_pw fuel).2) :
    (∀ x, x ≠ 0 → Event.libssh2_session_init x ∈ (main K cfg E auth_pw fuel).2 →
      List.count (Event.libssh2_session_disconnect x) (main K cfg E auth_pw fuel).2 = 1 ∧
      List.count (Event.libssh2_session_free x) (main K cfg E auth_pw fuel).2 = 1) ∧
    (∀ x pre post, (main K cfg E auth_pw fuel).2 = pre ++ Event.libssh2_session_free x :: post →
      Event.libssh2_session_disconnect x ∈ pre) ∧
    (∀ x pre e post, (main K cfg E auth_pw fuel).2 = pre ++ e :: post →
      isSessionOp e = true → Event.libssh2_session_free x ∉ pre) ∧
    (∀ fd, fd ≠ K.LIBSSH2_INVALID_SOCKET → Event.socket fd ∈ (main K cfg E auth_pw fuel).2 →
      List.count (Event.shutdown fd 2) (main K cfg E auth_pw fuel).2 = 1 ∧
      List.count (Event.close fd) (main K cfg E auth_pw fuel).2 = 1) ∧
    (∀ fd pre post, (main K cfg E auth_pw fuel).2 = pre ++ Event.close fd :: post →
      Event.shutdown fd 2 ∈ pre) ∧
    (∀ x ch sz, ch ≠ 0 → Event.libssh2_scp_recv2 x ch sz ∈ (main K cfg E auth_pw fuel).2 →
      List.count (Event.libssh2_channel_free ch) (main K cfg E auth_pw fuel).2 = 1) ∧
    (∀ x ch pre post,
      (main K cfg E auth_pw fuel).2 = pre ++ Event.libssh2_session_disconnect x :: post →
      Event.libssh2_channel_free ch ∈ (main K cfg E auth_pw fuel).2 →
      Event.libssh2_channel_free ch ∈ pre) ∧
    List.count Event.libssh2_exit (main K cfg E auth_pw fuel).2 = 1 ∧
    (∀ x, Event.libssh2_session_disconnect x ∈ (main K cfg E auth_pw fuel).2 ∨
        Event.libssh2_session_free x ∈ (main K cfg E auth_pw fuel).2 →
      x ≠ 0 ∧ Event.libssh2_session_init x ∈ (main K cfg E auth_pw fuel).2) ∧
    (∀ fd how, Event.shutdown fd how ∈ (main K cfg E auth_pw fuel).2 ∨
        Event.close fd ∈ (main K cfg E auth_pw fuel).2 →
      fd ≠ K.LIBSSH2_INVALID_SOCKET ∧ Event.socket fd ∈ (main K cfg E auth_pw fuel).2) ∧
    (∀ ch, Event.libssh2_channel_free ch ∈ (main K cfg E auth_pw fuel).2 →
      ch ≠ 0 ∧ ∃ x sz, Event.libssh2_scp_recv2 x ch sz ∈ (main K cfg E auth_pw fuel).2) := by
  have hrc := returns_zero_of_init K cfg E auth_pw fuel rc hret hinit
  subst hrc
  have hinv := run_invariant K cfg E auth_pw (ResInv K cfg)
    (resInv_step K cfg E auth_pw) entry
    (resInv_of_res (fun _ hh => by cases hh) (by simp [entry, Res, noSock, chanStage])) fuel
  rw [main_ret_iff] at hret
  simp only [ResInv, hret] at hinv
  obtain ⟨s0, hres, htr⟩ := hinv trivial
  rw [main_hist, htr]
  obtain ⟨a1, a2, a3, a4⟩ := release_final K cfg s0 hres
  obtain ⟨b1, b2, b3, b4⟩ := release_order K cfg s0 hres
  obtain ⟨c1, c2, c3⟩ := release_only_acquired K cfg s0 hres
  refine ⟨a1, ?_, ?_, a2, ?_, a3, ?_, a4, c1, c2, c3⟩
  · intro x pre post hsplit
    exact b1 pre _ post hsplit x rfl
  · intro x pre e post hsplit hop
    exact b2 pre e post hsplit hop x
  · intro fd pre post hsplit
    exact b3 pre _ post hsplit fd rfl
  · intro x ch pre post hsplit hm
    exact b4 pre _ post hsplit x rfl ch hm

set_option maxRecDepth 100000 in
/-- Witness for C6: in the run that copies a three-byte file the channel is
freed once, and the session is disconnected and freed once each. -/
theorem main_release_witness :
    (List.count (Event.libssh2_session_disconnect 1)
        (main libssh2_h posix (fakeEnv 3 [1, 2, 3] 2 true) true 30).2 = 1 ∧
      List.count (Event.libssh2_session_free 1)
        (main libssh2_h posix (fakeEnv 3 [1, 2, 3] 2 true) true 30).2 = 1) ∧
    List.count (Event.libssh2_channel_free 2)
      (main libssh2_h posix (fakeEnv 3 [1, 2, 3] 2 true) true 30).2 = 1 :=
  ⟨(main_release libssh2_h posix (fakeEnv 3 [1, 2, 3] 2 true) true 30 0
      (by decide) (by decide)).1 1 (by decide) (by decide),
   (main_release libssh2_h posix (fakeEnv 3 [1, 2, 3] 2 true) true 30 0
      (by decide) (by decide)).2.2.2.2.2.1 1 2 3 (by decide) (by decide)⟩

/-! ## End of file before the declared size -/

theorem short_le_amount {K : Libssh2H} {E : Env} {h0 : List Event} {content : List Byte}
    (hK : K.LIBSSH2_ERROR_EAGAIN ≤ 0) (hF : ShortRemote K E h0 content)
    (t : List Event) (amount : Nat)
    (hle : delivered t + amount ≤ (content.length : Int) + 1) :
    (E.libssh2_channel_read (h0 ++ t) amount).1 ≤ amount := by
  obtain ⟨h1, h2, h3⟩ := hF t amount
  rcases Nat.eq_zero_or_pos amount with h | h
  · have := h1 h
    omega
  · rcases lt_trichotomy (delivered t) (content.length : Int) with hd | hd | hd
    · rcases h2 hd h with h4 | ⟨_, h4, _⟩
      · omega
      · exact h4
    · rw [h3 hd]
      omega
    · omega

theorem shortInv_step (K : Libssh2H) (cfg : Config) (E : Env) (auth_pw : Bool)
    (h0 : List Event) (content : List Byte) (hN : (content.length : Int) + 1 < 2 ^ 63)
    (hK : K.LIBSSH2_ERROR_EAGAIN ≤ 0) (hF : ShortRemote K E h0 content)
    (s : State)
    (hs : (FromRecvLoop s ∧ (InRecvLoop s → RecvInv h0 (content.length + 1) s)) ∧
      (InRecvLoop s → ShortInv h0 content s)) :
    (FromRecvLoop (step K cfg E auth_pw s) ∧
      (InRecvLoop (step K cfg E auth_pw s) →
        RecvInv h0 (content.length + 1) (step K cfg E auth_pw s))) ∧
    (InRecvLoop (step K cfg E auth_pw s) → ShortInv h0 content (step K cfg E auth_pw s)) := by
  obtain ⟨hR, hW⟩ := hs
  refine ⟨recvInv_step K cfg E auth_pw h0 _ hN
    (fun t a h => short_le_amount hK hF t a h) s hR, ?_⟩
  obtain ⟨hpc, hinv⟩ := hR
  rcases hpc with (hpc | hpc | hpc) | hpc | ⟨rc, hpc⟩
  · -- line 241
    obtain ⟨hsz, t', ht', hgot, htot, hd0, hdN, hreq, hcnt⟩ := hinv (Or.inl hpc)
    obtain ⟨t, ht, hw, hle, _⟩ := hW (Or.inl hpc)
    obtain rfl : t' = t := List.append_cancel_left (ht'.symm.trans ht)
    have hc : s.got < s.st_size := by omega
    have e : step K cfg E auth_pw s = { s with pc := PC.L246 } := by
      simp [step, hpc, hc]
    rw [e]
    exact fun _ => ⟨t', ht, hw, hle, fun h => by cases h⟩
  · -- line 246
    obtain ⟨hsz, t', ht', hgot, htot, hd0, hdN, hreq, hcnt⟩ := hinv (Or.inr (Or.inl hpc))
    obtain ⟨t, ht, hw, hle, _⟩ := hW (Or.inr (Or.inl hpc))
    obtain rfl : t' = t := List.append_cancel_left (ht'.symm.trans ht)
    have ha := @readAmount_eq (content.length + 1) s.got (by omega) (by omega) hN
    have ha0 : 0 < readAmount (content.length + 1) s.got := by
      rw [ha]
      simp only [sizeof_mem, lt_min_iff]
      omega
    have ha2 : readAmount (content.length + 1) s.got ≤ 24576 := by
      have : readAmount (content.length + 1) s.got ≤ sizeof_mem := by
        rw [ha]; exact min_le_left _ _
      simpa [sizeof_mem] using this
    have hts : (toSizeT (readAmount (content.length + 1) s.got) : Int) =
        readAmount (content.length + 1) s.got :=
      toSizeT_of_nonneg (le_of_lt ha0) (by omega)
    have hpos : 0 < toSizeT (readAmount (content.length + 1) s.got) := by omega
    obtain ⟨_, hf1, hf2⟩ := hF t' (toSizeT (readAmount (content.length + 1) s.got))
    rw [← ht] at hf1 hf2
    rcases hrd : E.libssh2_channel_read s.hist
      (toSizeT (readAmount (content.length + 1) s.got)) with ⟨nread, mem⟩
    rw [hrd] at hf1 hf2
    simp only at hf1 hf2
    by_cases hp : nread > 0
    · have e : step K cfg E auth_pw s =
          { s with hist := s.hist ++
                    [Event.libssh2_channel_read s.channel
                      (toSizeT (readAmount (content.length + 1) s.got))
                      nread mem, Event.write 1 (mem.take (toSizeT nread))],
                   got := wrap64 (s.got + nread), total := wrap64 (s.total + nread) } := by
        simp [step, hpc, hsz, hrd, hp]
      rw [e]
      have hlt : delivered t' < content.length := by
        rcases lt_or_eq_of_le hle with h | h
        · exact h
        · have := hf2 h
          omega
      obtain ⟨hk1, hk2, hk3, hdata⟩ : 1 ≤ nread ∧
          nread ≤ (toSizeT (readAmount (content.length + 1) s.got) : Int) ∧
          delivered t' + nread ≤ content.length ∧
          mem.take nread.toNat = (content.drop (delivered t').toNat).take nread.toNat := by
        rcases hf1 hlt hpos with h | h
        · omega
        · exact h
      have hsz' : toSizeT nread = nread.toNat := by
        simp only [toSizeT]
        congr 1
        norm_num
        omega
      refine fun _ => ⟨t' ++ [Event.libssh2_channel_read s.channel
          (toSizeT (readAmount (content.length + 1) s.got)) nread mem,
          Event.write 1 (mem.take (toSizeT nread))], ?_, ?_, ?_, ?_⟩
      · simp only [ht, List.append_assoc]
      · simp only [written_append, written, writeBytes, if_true, List.nil_append,
          List.append_nil, delivered_append, delivered_cons, delivered_nil, readCount, hp,
          add_zero, hw, hsz', hdata]
        rw [Int.toNat_add hd0 (by omega), List.take_add]
      · simp only [delivered_append, delivered_cons, delivered_nil, readCount, hp, if_true]
        omega
      · intro h
        rw [hpc] at h
        cases h
    · by_cases hq : nread = K.LIBSSH2_ERROR_EAGAIN ∧ s.got < (content.length : Int) + 1
      · have e : step K cfg E auth_pw s =
            { s with hist := (waitsocket K E (s.hist ++
                      [Event.libssh2_channel_read s.channel
                        (toSizeT (readAmount (content.length + 1) s.got))
                        nread mem]) s.sock s.session).2,
                     spin := wrap32 (s.spin + 1), pc := PC.L241 } := by
          simp only [step, hpc, hsz, hrd]
          rw [if_neg hp, if_pos hq]
        rw [e, waitsocket_events]
        refine fun _ => ⟨t' ++ (Event.libssh2_channel_read s.channel
            (toSizeT (readAmount (content.length + 1) s.got)) nread mem
            :: waitEvents K E (s.hist ++ [Event.libssh2_channel_read s.channel
                (toSizeT (readAmount (content.length + 1) s.got)) nread mem])
                s.sock s.session), ?_, ?_, ?_, ?_⟩
        · simp only [ht, List.append_assoc, List.singleton_append]
        · simp only [waitEvents, written_append, written, writeBytes, List.nil_append,
            List.append_nil, delivered_append, delivered_cons, delivered_nil, readCount, hp,
            if_false, add_zero, hw]
        · simp only [waitEvents, delivered_append, delivered_cons, delivered_nil, readCount,
            hp, if_false]
          omega
        · intro h
          cases h
      · have e : step K cfg E auth_pw s =
            { s with hist := s.hist ++
                      [Event.libssh2_channel_read s.channel
                        (toSizeT (readAmount (content.length + 1) s.got))
                        nread mem],
                     pc := PC.L272 } := by
          simp only [step, hpc, hsz, hrd]
          rw [if_neg hp, if_neg hq]
        rw [e]
        refine fun _ => ⟨t' ++ [Event.libssh2_channel_read s.channel
            (toSizeT (readAmount (content.length + 1) s.got)) nread mem], ?_, ?_, ?_, ?_⟩
        · simp only [ht, List.append_assoc]
        · simp only [written_append, written, writeBytes, List.nil_append,
            List.append_nil, delivered_append, delivered_cons, delivered_nil, readCount, hp,
            if_false, add_zero, hw]
        · simp only [delivered_append, delivered_cons, delivered_nil, readCount, hp,
            if_false]
          omega
        · intro _
          simp only [delivered_append, delivered_cons, delivered_nil, readCount, hp,
            if_false, add_zero]
          by_contra hne
          have hlt : delivered t' < content.length := by omega
          rcases hf1 hlt hpos with h | ⟨h, _⟩
          · exact hq ⟨h, by omega⟩
          · omega
  · intro h
    have hnext : (step K cfg E auth_pw s).pc = PC.L286 := by
      simp only [step, hpc]
      split <;> rfl
    rcases h with h | h | h <;> rw [hnext] at h <;> cases h
  · intro h
    have hnext : (step K cfg E auth_pw s).pc = PC.exited 0 := by
      simp only [step, hpc, shutdownLabel]
    rcases h with h | h | h <;> rw [hnext] at h <;> cases h
  · intro h
    have e : step K cfg E auth_pw s = s := by
      simp only [step, hpc]
    rw [e] at h
    rcases h with h | h | h <;> rw [hpc] at h <;> cases h

theorem diagnostics_append (a b : List Event) :
    diagnostics (a ++ b) = diagnostics a ++ diagnostics b := by
  simp [diagnostics, List.filterMap_append]

theorem diagnostics_cleanupEvents (K : Libssh2H) (cfg : Config) (s : State) :
    diagnostics (cleanupEvents K cfg s) = [Diag.all_done] := by
  simp only [cleanupEvents, sessionCleanup, socketCleanup, wsaCleanup]
  split_ifs <;> rfl

theorem againCount_nil (K : Libssh2H) : againCount K [] = 0 := rfl

theorem againCount_append (K : Libssh2H) (a b : List Event) :
    againCount K (a ++ b) = againCount K a + againCount K b := by
  simp [againCount]

theorem diagnostics_clock {clock : List Event}
    (h : ∀ e ∈ clock, ∃ tv, e = Event.gettimeofday tv) : diagnostics clock = [] := by
  induction clock with
  | nil => rfl
  | cons e c ih =>
    obtain ⟨tv, rfl⟩ := h e (List.mem_cons_self _ _)
    have := ih (fun x hx => h x (List.mem_cons_of_mem _ hx))
    simpa [diagnostics, diagOf] using this

theorem cleanupEvents_congr (K : Libssh2H) (cfg : Config) {a s : State}
    (h1 : a.session = s.session) (h2 : a.sock = s.sock) :
    cleanupEvents K cfg a = cleanupEvents K cfg s := by
  simp only [cleanupEvents, sessionCleanup, socketCleanup, h1, h2]

/-- From line 272 `main` returns 0 in two steps; the calls it makes. -/
theorem finish_events (K : Libssh2H) (cfg : Config) (E : Env) (auth_pw : Bool)
    (a : State) (hpc : a.pc = PC.L272) :
    (run K cfg E auth_pw 2 a).pc = PC.exited 0 ∧
    ∃ (clock : List Event) (time_ms : Int),
      (∀ e ∈ clock, ∃ tv, e = Event.gettimeofday tv) ∧
      (run K cfg E auth_pw 2 a).hist = a.hist ++ clock ++
        [Event.fprintf (gotLine cfg (wrap64 a.total) time_ms a.spin),
         Event.libssh2_channel_free a.channel] ++ cleanupEvents K cfg a := by
  by_cases hc : cfg.have_gettimeofday = true
  · have e1 : step K cfg E auth_pw a =
        { a with hist := a.hist ++ [Event.gettimeofday (E.gettimeofday a.hist),
                    Event.fprintf (Diag.got_timed (wrap64 a.total)
                      (tvdiff (E.gettimeofday a.hist) a.start) a.spin),
                    Event.libssh2_channel_free a.channel],
                 channel := 0, pc := PC.L286 } := by
      simp only [step, hpc, hc, if_true]
    have e2 : run K cfg E auth_pw 2 a = shutdownLabel K cfg (step K cfg E auth_pw a) := by
      show step K cfg E auth_pw (step K cfg E auth_pw a) = _
      rw [e1]
      rfl
    refine ⟨by rw [e2]; rfl, [Event.gettimeofday (E.gettimeofday a.hist)],
      tvdiff (E.gettimeofday a.hist) a.start, ?_, ?_⟩
    · intro e he
      exact ⟨_, List.mem_singleton.mp he⟩
    · rw [e2, shutdownLabel_hist, e1]
      simp only [gotLine, hc, if_true, List.append_assoc, List.singleton_append,
        List.cons_append, List.nil_append]
      rfl
  · have e1 : step K cfg E auth_pw a =
        { a with hist := a.hist ++ [Event.fprintf (Diag.got (wrap64 a.total) a.spin),
                    Event.libssh2_channel_free a.channel],
                 channel := 0, pc := PC.L286 } := by
      simp only [step, hpc, hc]
      rfl
    have e2 : run K cfg E auth_pw 2 a = shutdownLabel K cfg (step K cfg E auth_pw a) := by
      show step K cfg E auth_pw (step K cfg E auth_pw a) = _
      rw [e1]
      rfl
    refine ⟨by rw [e2]; rfl, [], 0, ?_, ?_⟩
    · intro e he
      cases he
    · rw [e2, shutdownLabel_hist, e1]
      simp only [gotLine, hc, List.append_assoc, List.singleton_append,
        List.cons_append, List.nil_append, List.append_nil]
      rfl

/-- The end of `main` after a receive loop that kept `LoopFrame`. -/
theorem finishesTransfer_of (K : Libssh2H) (cfg : Config) (E : Env) (auth_pw : Bool)
    (s a : State) (count : Int) (hpc : a.pc = PC.L272) (hf : LoopFrame s a)
    (hcount : wrap64 a.total = count) :
    FinishesTransfer K cfg s a (run K cfg E auth_pw 2 a) count := by
  obtain ⟨h1, h2, h3, t, ht, hd⟩ := hf
  obtain ⟨f1, clock, ms, hclock, fh⟩ := finish_events K cfg E auth_pw a hpc
  rw [hcount, h3, cleanupEvents_congr K cfg h1 h2] at fh
  refine ⟨f1, clock, ms, a.spin, hclock, fh, ?_⟩
  rw [since, fh, ht]
  simp only [List.append_assoc, List.drop_left, diagnostics_append, hd,
    diagnostics_clock hclock, diagnostics_cleanupEvents, List.nil_append]
  rfl

theorem loopFrame_step (K : Libssh2H) (cfg : Config) (E : Env) (auth_pw : Bool)
    (s0 x : State) (hs : FromRecvLoop x ∧ (InRecvLoop x → LoopFrame s0 x)) :
    FromRecvLoop (step K cfg E auth_pw x) ∧
      (InRecvLoop (step K cfg E auth_pw x) → LoopFrame s0 (step K cfg E auth_pw x)) := by
  obtain ⟨hpc, hinv⟩ := hs
  rcases hpc with (hpc | hpc | hpc) | hpc | ⟨rc, hpc⟩
  · have hI := hinv (Or.inl hpc)
    by_cases hc : x.got < x.st_size
    · have e : step K cfg E auth_pw x = { x with pc := PC.L246 } := by
        simp [step, hpc, hc]
      rw [e]
      exact ⟨Or.inl (Or.inr (Or.inl rfl)), fun _ => hI⟩
    · have e : step K cfg E auth_pw x = { x with pc := PC.L272 } := by
        simp [step, hpc, hc]
      rw [e]
      exact ⟨Or.inl (Or.inr (Or.inr rfl)), fun _ => hI⟩
  · obtain ⟨h1, h2, h3, t, ht, hd⟩ := hinv (Or.inr (Or.inl hpc))
    have key : ∃ u, (step K cfg E auth_pw x).hist = x.hist ++ u ∧ diagnostics u = [] ∧
        (step K cfg E auth_pw x).session = x.session ∧
        (step K cfg E auth_pw x).sock = x.sock ∧
        (step K cfg E auth_pw x).channel = x.channel ∧
        InRecvLoop (step K cfg E auth_pw x) := by
      simp only [step, hpc]
      split_ifs
      · exact ⟨_, List.append_assoc _ _ _, rfl, rfl, rfl, rfl, Or.inr (Or.inl rfl)⟩
      · exact ⟨_, (waitsocket_events K E _ x.sock x.session).trans (List.append_assoc _ _ _),
          rfl, rfl, rfl, rfl, Or.inl rfl⟩
      · exact ⟨_, rfl, rfl, rfl, rfl, rfl, Or.inr (Or.inr rfl)⟩
    obtain ⟨u, k1, k2, k3, k4, k5, k6⟩ := key
    refine ⟨Or.inl k6, fun _ => ⟨k3.trans h1, k4.trans h2, k5.trans h3, t ++ u, ?_, ?_⟩⟩
    · rw [k1, ht, List.append_assoc]
    · rw [diagnostics_append, hd, k2]
      rfl
  · have hnext : (step K cfg E auth_pw x).pc = PC.L286 := by
      simp only [step, hpc]
      split <;> rfl
    refine ⟨Or.inr (Or.inl hnext), ?_⟩
    rintro (h | h | h) <;> rw [hnext] at h <;> cases h
  · have hnext : (step K cfg E auth_pw x).pc = PC.exited 0 := by
      simp only [step, hpc, shutdownLabel]
    refine ⟨Or.inr (Or.inr ⟨0, hnext⟩), ?_⟩
    rintro (h | h | h) <;> rw [hnext] at h <;> cases h
  · have e : step K cfg E auth_pw x = x := by
      simp only [step, hpc]
    rw [e]
    refine ⟨Or.inr (Or.inr ⟨rc, hpc⟩), ?_⟩
    rintro (h | h | h) <;> rw [hpc] at h <;> cases h

theorem loopFrame_run (K : Libssh2H) (cfg : Config) (E : Env) (auth_pw : Bool)
    (s : State) (hpc : s.pc = PC.L241) (n : Nat)
    (hin : InRecvLoop (run K cfg E auth_pw n s)) : LoopFrame s (run K cfg E auth_pw n s) :=
  (run_invariant K cfg E auth_pw
    (fun x => FromRecvLoop x ∧ (InRecvLoop x → LoopFrame s x))
    (loopFrame_step K cfg E auth_pw s) s
    ⟨Or.inl (Or.inl hpc), fun _ => ⟨rfl, rfl, rfl, [], by simp, rfl⟩⟩ n).2 hin

theorem againCount_data (K : Libssh2H) (channel amount : Nat) (nread : Int) (mem : List Byte)
    (fd : Int) (bytes : List Byte) (h : nread ≠ K.LIBSSH2_ERROR_EAGAIN) :
    againCount K [Event.libssh2_channel_read channel amount nread mem, Event.write fd bytes]
      = 0 := by
  simp [againCount, isReadAgain, h]

theorem againCount_wait (K : Libssh2H) (E : Env) (h : List Event) (sock : Int)
    (session channel amount : Nat) (mem : List Byte) :
    againCount K (Event.libssh2_channel_read channel amount K.LIBSSH2_ERROR_EAGAIN mem ::
      waitEvents K E h sock session) = 1 := by
  simp [againCount, isReadAgain, waitEvents]

theorem delivered_wait (K : Libssh2H) (E : Env) (h : List Event) (sock : Int)
    (session : Nat) : delivered (waitEvents K E h sock session) = 0 := by
  simp [waitEvents, delivered, readCount]

/-- One pass through line 246 against a remote that ends early and answers
`LIBSSH2_ERROR_EAGAIN` at most `B` times: the loop is left, or the bytes still
to come plus the `EAGAIN` answers still allowed have become fewer. -/
theorem short_step (K : Libssh2H) (cfg : Config) (E : Env) (auth_pw : Bool)
    (h0 : List Event) (content : List Byte) (B : Nat)
    (hN : (content.length : Int) + 1 < 2 ^ 63)
    (hK : K.LIBSSH2_ERROR_EAGAIN < 0) (hF : ShortRemote K E h0 content)
    (hB : BoundedAgain K E h0 B)
    (x : State) (t : List Event) (hpc : x.pc = PC.L246) (ht : x.hist = h0 ++ t)
    (hR : RecvInv h0 (content.length + 1) x) (hS : ShortInv h0 content x) :
    (step K cfg E auth_pw x).pc = PC.L272 ∨
    ∃ t1, ((step K cfg E auth_pw x).pc = PC.L246 ∨ (step K cfg E auth_pw x).pc = PC.L241) ∧
      (step K cfg E auth_pw x).hist = h0 ++ t1 ∧
      ((content.length : Int) - delivered t1).toNat + (B - againCount K t1) <
        ((content.length : Int) - delivered t).toNat + (B - againCount K t) := by
  obtain ⟨hsz, t', ht', hgot, htot, hd0, hdN, hreq, hcnt⟩ := hR
  obtain rfl : t' = t := List.append_cancel_left (ht'.symm.trans ht)
  obtain ⟨t'', ht'', hw, hle, _⟩ := hS
  obtain rfl : t' = t'' := List.append_cancel_left (ht'.symm.trans ht'')
  have ha := @readAmount_eq (content.length + 1) x.got (by omega) (by omega) hN
  have ha0 : 0 < readAmount (content.length + 1) x.got := by
    rw [ha]
    simp only [sizeof_mem, lt_min_iff]
    omega
  have ha2 : readAmount (content.length + 1) x.got ≤ 24576 := by
    have : readAmount (content.length + 1) x.got ≤ sizeof_mem := by
      rw [ha]; exact min_le_left _ _
    simpa [sizeof_mem] using this
  have hts : (toSizeT (readAmount (content.length + 1) x.got) : Int) =
      readAmount (content.length + 1) x.got :=
    toSizeT_of_nonneg (le_of_lt ha0) (by omega)
  have hpos : 0 < toSizeT (readAmount (content.length + 1) x.got) := by omega
  obtain ⟨_, hf1, hf2⟩ := hF t' (toSizeT (readAmount (content.length + 1) x.got))
  have hb := hB t' (toSizeT (readAmount (content.length + 1) x.got))
  rw [← ht] at hf1 hf2 hb
  rcases hrd : E.libssh2_channel_read x.hist
    (toSizeT (readAmount (content.length + 1) x.got)) with ⟨nread, mem⟩
  rw [hrd] at hf1 hf2 hb
  simp only at hf1 hf2 hb
  by_cases hp : nread > 0
  · have e : step K cfg E auth_pw x =
        { x with hist := x.hist ++
                  [Event.libssh2_channel_read x.channel
                    (toSizeT (readAmount (content.length + 1) x.got))
                    nread mem, Event.write 1 (mem.take (toSizeT nread))],
                 got := wrap64 (x.got + nread), total := wrap64 (x.total + nread) } := by
      simp [step, hpc, hsz, hrd, hp]
    have hlt : delivered t' < content.length := by
      rcases lt_or_eq_of_le hle with h | h
      · exact h
      · have := hf2 h
        omega
    obtain ⟨hk1, hk3⟩ : 1 ≤ nread ∧ delivered t' + nread ≤ content.length := by
      rcases hf1 hlt hpos with h | ⟨h1, _, h3, _⟩
      · omega
      · exact ⟨h1, h3⟩
    right
    refine ⟨t' ++ [Event.libssh2_channel_read x.channel
        (toSizeT (readAmount (content.length + 1) x.got)) nread mem,
        Event.write 1 (mem.take (toSizeT nread))], Or.inl (by rw [e]; exact hpc), ?_, ?_⟩
    · rw [e]
      simp only [ht, List.append_assoc]
    · rw [againCount_append, againCount_data K _ _ _ _ _ _ (by omega), delivered_append]
      simp only [delivered_cons, delivered_nil, readCount, hp, if_true]
      omega
  · by_cases hq : nread = K.LIBSSH2_ERROR_EAGAIN ∧ x.got < (content.length : Int) + 1
    · have e : step K cfg E auth_pw x =
          { x with hist := (waitsocket K E (x.hist ++
                    [Event.libssh2_channel_read x.channel
                      (toSizeT (readAmount (content.length + 1) x.got))
                      nread mem]) x.sock x.session).2,
                   spin := wrap32 (x.spin + 1), pc := PC.L241 } := by
        simp only [step, hpc, hsz, hrd]
        rw [if_neg hp, if_pos hq]
      have hcount : againCount K t' < B := by
        by_contra hge
        exact hb (by omega) hq.1
      right
      refine ⟨t' ++ (Event.libssh2_channel_read x.channel
          (toSizeT (readAmount (content.length + 1) x.got)) nread mem
          :: waitEvents K E (x.hist ++ [Event.libssh2_channel_read x.channel
              (toSizeT (readAmount (content.length + 1) x.got)) nread mem])
              x.sock x.session), Or.inr (by rw [e]), ?_, ?_⟩
      · rw [e, waitsocket_events]
        simp only [ht, List.append_assoc, List.singleton_append]
      · rw [againCount_append, delivered_append, delivered_cons, delivered_wait, hq.1,
          againCount_wait]
        simp only [readCount]
        rw [if_neg (by omega)]
        omega
    · left
      have e : step K cfg E auth_pw x =
          { x with hist := x.hist ++
                    [Event.libssh2_channel_read x.channel
                      (toSizeT (readAmount (content.length + 1) x.got))
                      nread mem],
                   pc := PC.L272 } := by
        simp only [step, hpc, hsz, hrd]
        rw [if_neg hp, if_neg hq]
      rw [e]

/-- Against a remote that ends early and answers `LIBSSH2_ERROR_EAGAIN` at most
`B` times the receive loop is left: from line 246 with `m` bytes and `EAGAIN`
answers still to come, within `2 * m + 1` steps. -/
theorem short_reaches_exit (K : Libssh2H) (cfg : Config) (E : Env) (auth_pw : Bool)
    (h0 : List Event) (content : List Byte) (B : Nat)
    (hN : (content.length : Int) + 1 < 2 ^ 63)
    (hK : K.LIBSSH2_ERROR_EAGAIN < 0) (hF : ShortRemote K E h0 content)
    (hB : BoundedAgain K E h0 B) :
    ∀ (m : Nat) (x : State) (t : List Event), x.pc = PC.L246 → x.hist = h0 ++ t →
      RecvInv h0 (content.length + 1) x → ShortInv h0 content x →
      ((content.length : Int) - delivered t).toNat + (B - againCount K t) ≤ m →
      ∃ k, k ≤ 2 * m + 1 ∧ (run K cfg E auth_pw k x).pc = PC.L272 := by
  intro m
  induction m with
  | zero =>
    intro x t hpc ht hR hS hm
    rcases short_step K cfg E auth_pw h0 content B hN hK hF hB x t hpc ht hR hS with
      h | ⟨t1, _, _, h⟩
    · exact ⟨1, by omega, h⟩
    · omega
  | succ m ih =>
    intro x t hpc ht hR hS hm
    have hinv := shortInv_step K cfg E auth_pw h0 content hN (le_of_lt hK) hF x
      ⟨⟨Or.inl (Or.inr (Or.inl hpc)), fun _ => hR⟩, fun _ => hS⟩
    rcases short_step K cfg E auth_pw h0 content B hN hK hF hB x t hpc ht hR hS with
      h | ⟨t1, h | h, ht1, hlt⟩
    · exact ⟨1, by omega, h⟩
    · have hin : InRecvLoop (step K cfg E auth_pw x) := Or.inr (Or.inl h)
      obtain ⟨k, hk, hk'⟩ := ih (step K cfg E auth_pw x) t1 h ht1 (hinv.1.2 hin)
        (hinv.2 hin) (by omega)
      exact ⟨k + 1, by omega, hk'⟩
    · have hin : InRecvLoop (step K cfg E auth_pw x) := Or.inl h
      have hR1 := hinv.1.2 hin
      have hS1 := hinv.2 hin
      have e : step K cfg E auth_pw (step K cfg E auth_pw x) =
          { step K cfg E auth_pw x with pc := PC.L246 } := by
        obtain ⟨hsz, t', ht', hgot, _, _, _, _, _⟩ := hR1
        obtain ⟨t'', ht'', _, hle, _⟩ := hS1
        obtain rfl : t' = t'' := List.append_cancel_left (ht'.symm.trans ht'')
        have hc : (step K cfg E auth_pw x).got < (step K cfg E auth_pw x).st_size := by
          omega
        generalize step K cfg E auth_pw x = y at h hc
        simp [step, h, hc]
      obtain ⟨k, hk, hk'⟩ := ih { step K cfg E auth_pw x with pc := PC.L246 } t1 rfl ht1
        hR1 ⟨t1, ht1, by
          obtain ⟨t'', ht'', hw, hle, _⟩ := hS1
          obtain rfl : t'' = t1 := List.append_cancel_left (ht''.symm.trans ht1)
          exact ⟨hw, hle, fun hcontra => by cases hcontra⟩⟩ (by omega)
      refine ⟨k + 2, by omega, ?_⟩
      show (run K cfg E auth_pw k (step K cfg E auth_pw (step K cfg E auth_pw x))).pc = _
      rw [e]
      exact hk'

theorem busyRead_short (declared : Int) (content : List Byte) (chunk B : Nat)
    (hc : 1 ≤ chunk) :
    ShortRemote libssh2_h (busyEnv declared content chunk B) [] content := by
  intro t amount
  have hd := delivered_nonneg t
  simp only [busyEnv, List.nil_append, busyRead, libssh2_h]
  refine ⟨?_, ?_, ?_⟩
  · intro h0
    subst h0
    simp
  · intro hlt hpos
    split
    · exact Or.inl rfl
    · right
      simp only [List.length_take, List.length_drop, Int.toNat_ofNat]
      refine ⟨by omega, by omega, by omega, ?_⟩
      rw [List.take_take]
      congr 1
      omega
  · intro heq
    have e : content.length - (delivered t).toNat = 0 := by omega
    have hn : ¬ delivered t < (content.length : Int) := by omega
    simp [hn, e]

theorem busyRead_bounded (declared : Int) (content : List Byte) (chunk B : Nat) :
    BoundedAgain libssh2_h (busyEnv declared content chunk B) [] B := by
  intro t amount hle
  have hn : ¬ againCount libssh2_h t < B := by omega
  simp only [busyEnv, List.nil_append, busyRead, libssh2_h] at hn ⊢
  simp only [hn, decide_False, Bool.false_and, Bool.false_eq_true, if_false,
    List.length_take, List.length_drop]
  omega

theorem gotLine_not_failure (cfg : Config) (total time_ms spin : Int) :
    isFailureDiag (gotLine cfg total time_ms spin) = false := by
  simp only [gotLine]
  split <;> rfl

theorem gotLine_count_inj {cfg : Config} {a b t1 t2 s1 s2 : Int}
    (h : gotLine cfg a t1 s1 = gotLine cfg b t2 s2) : a = b := by
  simp only [gotLine] at h
  split at h
  · injection h
  · injection h

/-- C2, as the code has it.  Declared size `N`, one more than the length of
`content`; a channel that delivers `content`, answering
`LIBSSH2_ERROR_EAGAIN` (a negative value) at most `B` times, and then returns
0.  The receive loop is left, within `2 * (N - 1 + B) + 2` steps, with
`got = total = N - 1` and exactly `content` written, and `main` ends as after
any transfer: byte-count line with `N - 1`, `libssh2_channel_free`, the
clean-up of label `shutdown`, "all done", `return 0`.  A run that received all
`N` bytes ends with the same calls and the same two lines, with `N` in the
byte-count line.  So no failure text is printed, and the diagnostics of the two
runs differ, in the byte-count line alone. -/
theorem recv_eof_short (K : Libssh2H) (cfg : Config) (E E' : Env) (auth_pw : Bool)
    (s : State) (content full : List Byte) (B n' : Nat)
    (hK : K.LIBSSH2_ERROR_EAGAIN < 0)
    (hN : (content.length : Int) + 1 < 2 ^ 63)
    (hs : RecvEntry s (content.length + 1))
    (hF : ShortRemote K E s.hist content)
    (hB : BoundedAgain K E s.hist B)
    (hlen : full.length = content.length + 1)
    (hF' : FaithfulRemote K E' s.hist full)
    (hdone' : (run K cfg E' auth_pw n' s).pc = PC.L272) :
    ∃ n, n ≤ 2 * (content.length + B) + 2 ∧
      (run K cfg E auth_pw n s).pc = PC.L272 ∧
      (run K cfg E auth_pw n s).got = content.length ∧
      (run K cfg E auth_pw n s).total = content.length ∧
      written (since s.hist (run K cfg E auth_pw n s)) = content ∧
      FinishesTransfer K cfg s (run K cfg E auth_pw n s) (run K cfg E auth_pw (n + 2) s)
        content.length ∧
      FinishesTransfer K cfg s (run K cfg E' auth_pw n' s) (run K cfg E' auth_pw (n' + 2) s)
        (content.length + 1) ∧
      (∀ d ∈ diagnostics (since s.hist (run K cfg E auth_pw (n + 2) s)),
        isFailureDiag d = false) ∧
      diagnostics (since s.hist (run K cfg E auth_pw (n + 2) s)) ≠
        diagnostics (since s.hist (run K cfg E' auth_pw (n' + 2) s)) := by
  obtain ⟨hpc, hgot, htot, hspin, hsz⟩ := hs
  -- the invariants of the two runs
  have hinv := run_invariant K cfg E auth_pw
    (fun x => (FromRecvLoop x ∧ (InRecvLoop x → RecvInv s.hist (content.length + 1) x)) ∧
      (InRecvLoop x → ShortInv s.hist content x))
    (shortInv_step K cfg E auth_pw s.hist content hN (le_of_lt hK) hF) s
    (by
      refine ⟨⟨Or.inl (Or.inl hpc), fun _ => recvInv_intro [] hsz ?_ ?_ ?_ ?_ ?_ ?_ ?_⟩,
        fun _ => ⟨[], ?_, ?_, ?_, ?_⟩⟩
      · simp
      · simpa [delivered] using hgot
      · simpa [delivered] using htot
      · simp [delivered]
      · simp only [delivered_nil]
        omega
      · exact eachAfter_nil _
      · simp [delivered]
      · simp
      · simp [written, delivered]
      · simp [delivered]
      · intro h
        rw [hpc] at h
        cases h)
  have hlen' : (full.length : Int) = (content.length : Int) + 1 := by
    rw [hlen]
    push_cast
    rfl
  have hinv' := run_invariant K cfg E' auth_pw
    (fun x => (FromRecvLoop x ∧ (InRecvLoop x → RecvInv s.hist (content.length + 1) x)) ∧
      (InRecvLoop x → WrittenInv s.hist (content.length + 1) full x))
    (writtenInv_step K cfg E' auth_pw s.hist (content.length + 1) full hN hlen'
      (le_of_lt hK) hF') s
    (by
      refine ⟨⟨Or.inl (Or.inl hpc), fun _ => recvInv_intro [] hsz ?_ ?_ ?_ ?_ ?_ ?_ ?_⟩,
        fun _ => ⟨[], ?_, ?_, ?_⟩⟩
      · simp
      · simpa [delivered] using hgot
      · simpa [delivered] using htot
      · simp [delivered]
      · simp only [delivered_nil]
        omega
      · exact eachAfter_nil _
      · simp [delivered]
      · simp
      · simp [written, delivered]
      · intro h
        rw [hpc] at h
        cases h) n'
  -- the short run leaves the loop
  have e1 : step K cfg E auth_pw s = { s with pc := PC.L246 } := by
    have hc : s.got < s.st_size := by omega
    simp [step, hpc, hc]
  have h1 := hinv 1
  have hin1 : InRecvLoop (run K cfg E auth_pw 1 s) := by
    show InRecvLoop (step K cfg E auth_pw s)
    rw [e1]
    exact Or.inr (Or.inl rfl)
  obtain ⟨k, hk, hk'⟩ := short_reaches_exit K cfg E auth_pw s.hist content B hN hK hF hB
    (content.length + B) (run K cfg E auth_pw 1 s) []
    (by show (step K cfg E auth_pw s).pc = _; rw [e1])
    (by show (step K cfg E auth_pw s).hist = _; rw [e1]; simp)
    (h1.1.2 hin1) (h1.2 hin1)
    (by simp [delivered_nil, againCount_nil])
  have hrun : run K cfg E auth_pw k (run K cfg E auth_pw 1 s) = run K cfg E auth_pw (k + 1) s := by
    rw [Nat.add_comm, run_add]
  rw [hrun] at hk'
  -- what holds at the exit of the short run
  obtain ⟨⟨_, hR⟩, hW⟩ := hinv (k + 1)
  have hin : InRecvLoop (run K cfg E auth_pw (k + 1) s) := Or.inr (Or.inr hk')
  obtain ⟨_, t', ht', hgot1, htot1, hd0, _, _, _⟩ := hR hin
  obtain ⟨t, ht, hw, _, hfin⟩ := hW hin
  obtain rfl : t' = t := List.append_cancel_left (ht'.symm.trans ht)
  have hd := hfin hk'
  have hfr := loopFrame_run K cfg E auth_pw s hpc (k + 1) hin
  have hft := finishesTransfer_of K cfg E auth_pw s _ content.length hk' hfr
    (by rw [htot1, hd, wrap64_eq_self (by omega) (by omega)])
  rw [← run_add] at hft
  -- what holds at the exit of the full run
  obtain ⟨⟨_, hR'⟩, hW'⟩ := hinv'
  have hin' : InRecvLoop (run K cfg E' auth_pw n' s) := Or.inr (Or.inr hdone')
  obtain ⟨_, u', hu', _, htot2, _, _, _, _⟩ := hR' hin'
  obtain ⟨u, hu, _, hfin'⟩ := hW' hin'
  obtain rfl : u' = u := List.append_cancel_left (hu'.symm.trans hu)
  have hd' := hfin' hdone'
  have hfr' := loopFrame_run K cfg E' auth_pw s hpc n' hin'
  have hft' := finishesTransfer_of K cfg E' auth_pw s _ ((content.length : Int) + 1) hdone' hfr'
    (by rw [htot2, hd', wrap64_eq_self (by omega) (by omega)])
  rw [← run_add] at hft'
  refine ⟨k + 1, by omega, hk', by omega, by omega, ?_, hft, hft', ?_, ?_⟩
  · rw [since_eq ht, hw, hd]
    simp
  · obtain ⟨_, _, ms, sp, _, _, hdg⟩ := hft
    rw [hdg]
    intro d hmem
    simp only [List.mem_cons, List.mem_singleton, List.not_mem_nil, or_false] at hmem
    rcases hmem with rfl | rfl
    · exact gotLine_not_failure _ _ _ _
    · rfl
  · obtain ⟨_, _, ms, sp, _, _, hdg⟩ := hft
    obtain ⟨_, _, ms', sp', _, _, hdg'⟩ := hft'
    rw [hdg, hdg']
    intro heq
    have := gotLine_count_inj (List.head_eq_of_cons_eq heq)
    omega

set_option maxRecDepth 100000 in
/-- Witness for the amended C2: declared size 2; the channel answers `-37`
once, delivers one byte and then returns 0; the run it is compared with
receives both bytes. -/
theorem recv_eof_short_witness :
    ∃ n, n ≤ 2 * (([7] : List Byte).length + 1) + 2 ∧
      (run libssh2_h posix (busyEnv 2 [7] 1 1) true n (recvOpen 2)).pc = PC.L272 ∧
      (run libssh2_h posix (busyEnv 2 [7] 1 1) true n (recvOpen 2)).got =
        ([7] : List Byte).length ∧
      FinishesTransfer libssh2_h posix (recvOpen 2)
        (run libssh2_h posix (busyEnv 2 [7] 1 1) true n (recvOpen 2))
        (run libssh2_h posix (busyEnv 2 [7] 1 1) true (n + 2) (recvOpen 2))
        ([7] : List Byte).length := by
  obtain ⟨n, h1, h2, h3, _, _, h6, _⟩ :=
    recv_eof_short libssh2_h posix (busyEnv 2 [7] 1 1) (fakeEnv 2 [7, 8] 1 false) true
      (recvOpen 2) [7] [7, 8] 1 4 (by decide) (by decide) ⟨rfl, rfl, rfl, rfl, rfl⟩
      (busyRead_short 2 [7] 1 1 (le_refl 1)) (busyRead_bounded 2 [7] 1 1) rfl
      (fakeRead_faithful 2 [7, 8] 1 false (le_refl 1)) (by decide)
  exact ⟨n, h1, h2, h3, h6⟩

set_option maxRecDepth 100000 in
/-- C2 fails as stated.  Declared size 2; the channel delivers one byte and
then returns 0.  The claim asks that this run report a transfer-integrity
failure and so differ in outcome from the run that receives both bytes.  It
reports no failure: it returns 0 and prints no failure text.  Its diagnostics
are those of the two-byte run line for line, except that the byte-count line
says 1 where that one says 2 (and another elapsed time); and its whole outcome
is that of a clean completion, the run of a one-byte file. -/
theorem eof_short_counterexample :
    (Event.libssh2_scp_recv2 1 2 2 ∈ (main libssh2_h posix (fakeEnv 2 [7] 1 false) true 16).2 ∧
      Event.libssh2_channel_read 2 1 0 [] ∈
        (main libssh2_h posix (fakeEnv 2 [7] 1 false) true 16).2 ∧
      delivered (main libssh2_h posix (fakeEnv 2 [7] 1 false) true 16).2 = 1 ∧
      delivered (main libssh2_h posix (fakeEnv 2 [7, 8] 1 false) true 16).2 = 2) ∧
    ¬ (ReportsFailure (outcome (main libssh2_h posix (fakeEnv 2 [7] 1 false) true 16)) ∧
        outcome (main libssh2_h posix (fakeEnv 2 [7] 1 false) true 16) ≠
          outcome (main libssh2_h posix (fakeEnv 2 [7, 8] 1 false) true 16)) ∧
    ((outcome (main libssh2_h posix (fakeEnv 2 [7] 1 false) true 16)).1 = some 0 ∧
      (outcome (main libssh2_h posix (fakeEnv 2 [7, 8] 1 false) true 16)).1 = some 0 ∧
      (outcome (main libssh2_h posix (fakeEnv 2 [7] 1 false) true 16)).2.take 24 =
        (outcome (main libssh2_h posix (fakeEnv 2 [7, 8] 1 false) true 16)).2.take 24 ∧
      (outcome (main libssh2_h posix (fakeEnv 2 [7] 1 false) true 16)).2.drop 24 =
        [Diag.got_timed 1 32000 0, Diag.all_done] ∧
      (outcome (main libssh2_h posix (fakeEnv 2 [7, 8] 1 false) true 16)).2.drop 24 =
        [Diag.got_timed 2 34000 0, Diag.all_done]) ∧
    (Event.libssh2_scp_recv2 1 2 1 ∈ (main libssh2_h posix (fakeEnv 1 [7] 1 false) true 16).2 ∧
      delivered (main libssh2_h posix (fakeEnv 1 [7] 1 false) true 16).2 = 1 ∧
      outcome (main libssh2_h posix (fakeEnv 2 [7] 1 false) true 16) =
        outcome (main libssh2_h posix (fakeEnv 1 [7] 1 false) true 16)) := by
  decide

end ScpNonblock
